import Mathlib

/-! # Caprica: coercion and resolution rules of the Papyrus resolution context

A shallow embedding of the type algebra (`PapyrusType.h`) and of the coercion
engine, the import list, the type resolver, the local scopes and the identifier
and function resolvers of `PapyrusResolutionContext.cpp`, followed by the
properties proved about them.

Conventions of the embedding

* A C++ pointer to an entity owned by the script loader (`PapyrusObject*`,
  `PapyrusStruct*`) is embedded as the entity itself together with its address
  `addr`; pointer comparison is comparison of addresses.
* `CapricaError::fatal` / `logicalFatal` abort the compilation: a function that
  can reach one returns `CapricaResult`, and the fatal is `Except.error` with
  the message of the source.
* `CapricaError::error` records a diagnostic and continues: a function that can
  report errors returns the list of diagnostics it reported.
* A pointer that may be `nullptr` is an `Option`; reading through a `nullptr`
  does not return, which is `Except.error` as well.
* `loadScript` is a parameter of the functions that call it: a function of the
  requested name and the loader state.
* A loop that returns at the first match is `List.find?` / `List.findSome?`.
-/

namespace caprica

/-- Outcome of a call that may end in `CapricaError::fatal` or
`CapricaError::logicalFatal`; the error case carries the message. -/
abbrev CapricaResult (α : Type) : Type := Except String α

/-- The source location `CapricaFileLocation` (`common/CapricaFileLocation.h`). -/
structure CapricaFileLocation where
  filename : String
  line : Nat
  column : Nat
deriving DecidableEq, Repr

/-- A diagnostic recorded by `CapricaError::error(location, format, ...)`: the location and
the format string of the call (the formatted arguments are not part of the embedding). -/
structure CapricaError where
  location : CapricaFileLocation
  message : String
deriving DecidableEq, Repr

/-! ## Case-insensitive comparison -/

/-- The C library `tolower` in the "C" locale, on character codes: only `A`..`Z` change. -/
def tolower (c : Char) : Nat :=
  if 65 ≤ c.toNat ∧ c.toNat ≤ 90 then c.toNat + 32 else c.toNat

/-- The comparison loop of `_stricmp` on two C strings: lower-case both characters, stop at
the first difference or at the terminating NUL (the end of the list, or an embedded NUL),
and return the difference of the two characters reached. -/
def stricmpChars : List Char → List Char → Int
  | [], [] => 0
  | [], b :: _ => 0 - (tolower b : Int)
  | a :: _, [] => (tolower a : Int) - 0
  | a :: as, b :: bs =>
    if tolower a = tolower b then
      if tolower a = 0 then 0 else stricmpChars as bs
    else (tolower a : Int) - (tolower b : Int)

/-- The call `_stricmp(a.c_str(), b.c_str())`. -/
def _stricmp (a b : String) : Int := stricmpChars a.toList b.toList

/-! ## Entities referenced by types -/

/-- A member of a struct, as far as resolution observes it: its address and its name. -/
structure PapyrusStructMember where
  addr : Nat
  name : String
deriving DecidableEq, Repr

/-- A struct entity, as far as types and resolution observe it: its address, its name and
its members. -/
structure PapyrusStruct where
  addr : Nat
  name : String
  members : List PapyrusStructMember := []
deriving DecidableEq, Repr

/-- A variable of an object, as far as resolution observes it. -/
structure PapyrusVariable where
  addr : Nat
  name : String
deriving DecidableEq, Repr

/-- A property of an object, as far as resolution observes it. -/
structure PapyrusProperty where
  addr : Nat
  name : String
deriving DecidableEq, Repr

/-- A property group: the properties it owns, in order. -/
structure PapyrusPropertyGroup where
  properties : List PapyrusProperty
deriving DecidableEq, Repr

/-- A function parameter (`PapyrusFunctionParameter.h`), as far as resolution observes it:
its address and its name. -/
structure PapyrusFunctionParameter where
  addr : Nat
  name : String
deriving DecidableEq, Repr

/-- A function, as far as resolution observes it: its address, its name, the `isGlobal`
flag and its parameters, in order. -/
structure PapyrusFunction where
  addr : Nat
  name : String
  isGlobal : Bool
  parameters : List PapyrusFunctionParameter := []
deriving DecidableEq, Repr

/-- A state: its name and the functions it owns, in order. -/
structure PapyrusState where
  name : String
  functions : List PapyrusFunction
deriving DecidableEq, Repr

/-- A local declaration statement (`PapyrusDeclareStatement`), as far as resolution observes
it: its address, the declared name and its location. -/
structure PapyrusDeclareStatement where
  addr : Nat
  name : String
  location : CapricaFileLocation
deriving DecidableEq, Repr

/-- An object (a Papyrus class), as far as coercion and resolution observe it: its address,
its name, its resolved parent class (`none` when `tryGetParentClass()` returns `nullptr`),
and its states, structs, variables (the field `variables` of the source) and property
groups, each in order. -/
structure PapyrusObject where
  addr : Nat
  name : String
  parentClass : Option PapyrusObject
  states : List PapyrusState := []
  structs : List PapyrusStruct := []
  objectVariables : List PapyrusVariable := []
  propertyGroups : List PapyrusPropertyGroup := []

/-- A script: its address, the objects it owns, in order, and the name of the file it was
read from. -/
structure PapyrusScript where
  addr : Nat
  objects : List PapyrusObject
  sourceFileName : String := ""

/-- The accessor `PapyrusObject::tryGetParentClass()`. -/
def PapyrusObject.tryGetParentClass (o : PapyrusObject) : Option PapyrusObject :=
  o.parentClass

/-- Modelled from the spec: `PapyrusObject::tryGetRootState()` (`PapyrusObject.h` is not among
the sources) returns the state whose name is the empty string, the unnamed root state, or
`nullptr` when there is none. -/
def PapyrusObject.tryGetRootState (o : PapyrusObject) : Option PapyrusState :=
  o.states.find? (fun s => s.name = "")

/-! ## Types (`PapyrusType.h`) -/

/-- The enumeration `PapyrusType::Kind`. -/
inductive PapyrusType.Kind where
  | None
  | Bool
  | Float
  | Int
  | String
  | Var
  | Array
  | Unresolved
  | ResolvedStruct
  | ResolvedObject
deriving DecidableEq, Repr

/-- The tagged type `PapyrusType`. Every variant carries its source location; `Array` owns
its element type; `Unresolved` carries the spelled name; the resolved variants carry the
name they were resolved from and the entity they refer to. -/
inductive PapyrusType where
  | None (location : CapricaFileLocation)
  | Bool (location : CapricaFileLocation)
  | Float (location : CapricaFileLocation)
  | Int (location : CapricaFileLocation)
  | String (location : CapricaFileLocation)
  | Var (location : CapricaFileLocation)
  | Array (location : CapricaFileLocation) (arrayElementType : PapyrusType)
  | Unresolved (location : CapricaFileLocation) (name : String)
  | ResolvedStruct (location : CapricaFileLocation) (name : String)
      (resolvedStruct : PapyrusStruct)
  | ResolvedObject (location : CapricaFileLocation) (name : String)
      (resolvedObject : PapyrusObject)

/-- The field `PapyrusType::type`. -/
def PapyrusType.type : PapyrusType → PapyrusType.Kind
  | .None _ => .None
  | .Bool _ => .Bool
  | .Float _ => .Float
  | .Int _ => .Int
  | .String _ => .String
  | .Var _ => .Var
  | .Array _ _ => .Array
  | .Unresolved _ _ => .Unresolved
  | .ResolvedStruct _ _ _ => .ResolvedStruct
  | .ResolvedObject _ _ _ => .ResolvedObject

/-- The operator `PapyrusType::operator !=`. -/
def PapyrusType_ne : PapyrusType → PapyrusType → Bool
  | .None _, .None _ => false
  | .Bool _, .Bool _ => false
  | .Float _, .Float _ => false
  | .Int _, .Int _ => false
  | .String _, .String _ => false
  | .Var _, .Var _ => false
  | .Array _ a, .Array _ b => PapyrusType_ne a b
  | .Unresolved _ n, .Unresolved _ m => decide (_stricmp n m ≠ 0)
  | .ResolvedStruct _ _ s, .ResolvedStruct _ _ t => decide (s.addr ≠ t.addr)
  | .ResolvedObject _ _ o, .ResolvedObject _ _ p => decide (o.addr ≠ p.addr)
  | _, _ => true

/-- The operator `PapyrusType::operator ==`, the negation of `operator !=`. -/
def PapyrusType_eq (a b : PapyrusType) : Bool := !(PapyrusType_ne a b)

/-! ## Values and expressions -/

/-- The enumeration `PapyrusValueType`, the tag of a `PapyrusValue`. -/
inductive PapyrusValueType where
  | None
  | Bool
  | Int
  | Float
  | String
  | Invalid
deriving DecidableEq, Repr

/-- Modelled from the spec: `PapyrusValue` (`papyrus/PapyrusValue.h` is not among the
sources), a tagged literal `None | Bool(b) | Int(i) | Float(f) | String(s) | Invalid`, each
with a source location. A float payload is embedded as the rational number it denotes. -/
inductive PapyrusValue where
  | None (location : CapricaFileLocation)
  | Bool (location : CapricaFileLocation) (b : Bool)
  | Int (location : CapricaFileLocation) (i : Int)
  | Float (location : CapricaFileLocation) (f : Rat)
  | String (location : CapricaFileLocation) (s : String)
  | Invalid (location : CapricaFileLocation)
deriving DecidableEq

/-- The field `PapyrusValue::type`. -/
def PapyrusValue.type : PapyrusValue → PapyrusValueType
  | .None _ => .None
  | .Bool _ _ => .Bool
  | .Int _ _ => .Int
  | .Float _ _ => .Float
  | .String _ _ => .String
  | .Invalid _ => .Invalid

/-- The field `PapyrusValue::location`. -/
def PapyrusValue.location : PapyrusValue → CapricaFileLocation
  | .None l => l
  | .Bool l _ => l
  | .Int l _ => l
  | .Float l _ => l
  | .String l _ => l
  | .Invalid l => l

/-- Modelled from the spec: `PapyrusValue::getPapyrusType()` (`papyrus/PapyrusValue.h` is not
among the sources). A typed value has the type of the same name at the location of the
value; `Invalid` stands for the absence of a value and has no type, so asking for it does
not return. -/
def PapyrusValue.getPapyrusType : PapyrusValue → CapricaResult PapyrusType
  | .None l => .ok (.None l)
  | .Bool l _ => .ok (.Bool l)
  | .Int l _ => .ok (.Int l)
  | .Float l _ => .ok (.Float l)
  | .String l _ => .ok (.String l)
  | .Invalid _ => .error "Unknown PapyrusValueType!"

/-- Rounding of a natural number to a 24-bit significand, to nearest, ties to even: the
magnitude of the single-precision float nearest to `a`. -/
def roundToSignificand24 (a : Nat) : Nat :=
  if a < 2 ^ 24 then a
  else
    let e := Nat.log2 a - 23
    let q := a / 2 ^ e
    let r := a % 2 ^ e
    let half := 2 ^ (e - 1)
    if half < r ∨ (r = half ∧ q % 2 = 1) then (q + 1) * 2 ^ e else q * 2 ^ e

/-- The C++ conversion `(float)i` of an integer to single precision, as the rational number
the resulting float denotes. -/
def floatOfInt (i : Int) : Rat :=
  if i < 0 then -((roundToSignificand24 i.natAbs : Nat) : Rat)
  else ((roundToSignificand24 i.natAbs : Nat) : Rat)

/-- Modelled from the spec: the expression nodes (`PapyrusLiteralExpression.h` and
`PapyrusCastExpression.h` are not among the sources). `Literal` is a literal holding a
value, `Cast` is a cast node with its target type and inner expression, and `Other` stands
for any other node, of which coercion observes only `location` and `resultType()`. -/
inductive PapyrusExpression where
  | Literal (location : CapricaFileLocation) (value : PapyrusValue)
  | Cast (location : CapricaFileLocation) (targetType : PapyrusType)
      (innerExpression : PapyrusExpression)
  | Other (location : CapricaFileLocation) (type : PapyrusType)

/-- The field `PapyrusExpression::location`. -/
def PapyrusExpression.location : PapyrusExpression → CapricaFileLocation
  | .Literal l _ => l
  | .Cast l _ _ => l
  | .Other l _ => l

/-- Modelled from the spec: the virtual `resultType()`: the type of the value of a literal,
the target type of a cast, the recorded type of any other node. -/
def PapyrusExpression.resultType : PapyrusExpression → CapricaResult PapyrusType
  | .Literal _ value => value.getPapyrusType
  | .Cast _ targetType _ => .ok targetType
  | .Other _ type => .ok type

/-- The probe `expr->is<PapyrusLiteralExpression>()`. -/
def PapyrusExpression.isLiteral : PapyrusExpression → Bool
  | .Literal _ _ => true
  | _ => false

/-- The in-place fold of `coerceExpression`: when `expr->as<PapyrusLiteralExpression>()`
succeeds, `value.f = (float)value.i` and `value.type = Float`, and the same node is the
result. The fold is only reached with a result type of kind `Int`, where the value of a
literal is an `Int` value. -/
def PapyrusExpression.foldIntLiteralToFloat : PapyrusExpression → Option PapyrusExpression
  | .Literal location (.Int valueLocation i) =>
    some (.Literal location (.Float valueLocation (floatOfInt i)))
  | _ => none

/-! ## Identifiers and the resolution context -/

/-- The enumeration `PapyrusBuiltinArrayFunctionKind`. -/
inductive PapyrusBuiltinArrayFunctionKind where
  | Unknown
  | Find
  | FindStruct
  | RFind
  | RFindStruct
  | Add
  | Clear
  | Insert
  | Remove
  | RemoveLast
deriving DecidableEq, Repr

/-- The enumeration `PapyrusIdentifierType`, the tag of a `PapyrusIdentifier`. -/
inductive PapyrusIdentifierType where
  | Unresolved
  | DeclStatement
  | FunctionParameter
  | Variable
  | Property
  | StructMember
  | Function
  | ArrayFunction
deriving DecidableEq, Repr

/-- Modelled from the spec: `PapyrusIdentifier` (`PapyrusIdentifier.h` is not among the
sources), a tagged name-site: `Unresolved` with the spelled name, or one of the resolved
variants with the entity it refers to; every variant carries the location it was built
with. -/
inductive PapyrusIdentifier where
  | Unresolved (location : CapricaFileLocation) (name : String)
  | DeclStatement (location : CapricaFileLocation) (decl : PapyrusDeclareStatement)
  | FunctionParameter (location : CapricaFileLocation) (param : PapyrusFunctionParameter)
  | Variable (location : CapricaFileLocation) (var : PapyrusVariable)
  | Property (location : CapricaFileLocation) (prop : PapyrusProperty)
  | StructMember (location : CapricaFileLocation) (member : PapyrusStructMember)
  | Function (location : CapricaFileLocation) (func : PapyrusFunction)
  | ArrayFunction (location : CapricaFileLocation) (kind : PapyrusBuiltinArrayFunctionKind)
      (elementType : PapyrusType)

/-- The field `PapyrusIdentifier::type`. -/
def PapyrusIdentifier.type : PapyrusIdentifier → PapyrusIdentifierType
  | .Unresolved _ _ => .Unresolved
  | .DeclStatement _ _ => .DeclStatement
  | .FunctionParameter _ _ => .FunctionParameter
  | .Variable _ _ => .Variable
  | .Property _ _ => .Property
  | .StructMember _ _ => .StructMember
  | .Function _ _ => .Function
  | .ArrayFunction _ _ _ => .ArrayFunction

/-- A numbered warning recorded by `CapricaError::Warning`: its number, its location and its
argument. -/
structure CapricaWarning where
  number : Nat
  location : CapricaFileLocation
  argument : String
deriving DecidableEq, Repr

/-- Modelled from the spec: one frame of `localVariableScopeStack`
(`PapyrusResolutionContext.h` is not among the sources), a map from names to local
declarations whose keys are compared without regard to case, as all names are. The entries
are kept in insertion order; no two keys of a frame built by `insert` compare equal. -/
structure LocalVariableScope where
  entries : List (String × PapyrusDeclareStatement)
deriving DecidableEq, Repr

/-- The call `scope.count(key)`: 1 when an entry has that key, else 0. -/
def LocalVariableScope.count (scope : LocalVariableScope) (key : String) : Nat :=
  if scope.entries.any (fun e => decide (_stricmp e.1 key = 0)) then 1 else 0

/-- The call `scope.find(key)`: the value mapped to the key, when there is one. -/
def LocalVariableScope.find (scope : LocalVariableScope) (key : String) :
    Option PapyrusDeclareStatement :=
  (scope.entries.find? (fun e => decide (_stricmp e.1 key = 0))).map (fun e => e.2)

/-- The call `scope.insert(\x7b key, value \x7d)`: a map keeps the entry it already has for
the key, and otherwise gains the new entry. -/
def LocalVariableScope.insert (scope : LocalVariableScope) (key : String)
    (value : PapyrusDeclareStatement) : LocalVariableScope :=
  if scope.count key = 0 then ⟨scope.entries ++ [(key, value)]⟩ else scope

/-- The configuration `CapricaConfig`, as far as resolution reads it. -/
structure CapricaConfig where
  allowDecompiledStructNameRefs : Bool := false
deriving DecidableEq, Repr

/-- The state fields of `PapyrusResolutionContext` that resolution reads and writes: the
enclosing object and the current function (each possibly `nullptr`), the imported scripts in
insertion order (a failed import leaves a `nullptr` entry), the stack of local scopes (the
last frame is the topmost, `back()`), and the flag `isPexResolution`. -/
structure PapyrusResolutionContext where
  object : Option PapyrusObject := none
  function : Option PapyrusFunction := none
  importedScripts : List (Option PapyrusScript) := []
  localVariableScopeStack : List LocalVariableScope := []
  isPexResolution : Bool := false

/-- The script loader as the resolution context uses it: `loadScript(name)` reads and
updates the loader state `σ` and returns the script found or `nullptr`, unless it ends in a
fatal. -/
abbrev ScriptLoader (σ : Type) : Type :=
  String → σ → CapricaResult (Option PapyrusScript × σ)

/-- Comparison of two script pointers, each possibly `nullptr`. -/
def scriptPointerEq : Option PapyrusScript → Option PapyrusScript → Bool
  | some a, some b => a.addr == b.addr
  | none, none => true
  | _, _ => false

namespace PapyrusResolutionContext

/-! ## Coercion engine (`PapyrusResolutionContext.cpp`) -/

/-- The function `PapyrusResolutionContext::isObjectSomeParentOf`. The child is taken apart
into its address, its name and the result of `child->tryGetParentClass()`, on which the
function recurses. -/
def isObjectSomeParentOf : PapyrusObject → PapyrusObject → Bool
  | ⟨childAddr, childName, childParentClass, _, _, _, _⟩, parent =>
    if childAddr = parent.addr then true
    else if _stricmp childName parent.name = 0 then true
    else match childParentClass with
      | some parentObject => isObjectSomeParentOf parentObject parent
      | none => false

/-- The function `PapyrusResolutionContext::canImplicitlyCoerce`. The `default:` branch of
the source (`logicalFatal`) is unreachable: the switch lists every kind. -/
def canImplicitlyCoerce (src dest : PapyrusType) : Bool :=
  if PapyrusType_eq src dest then true
  else match dest with
    | .Bool _ => src.type != PapyrusType.Kind.None
    | .Float _ => src.type == PapyrusType.Kind.Int
    | .String _ => src.type != PapyrusType.Kind.None
    | .ResolvedObject _ _ destObject =>
      match src with
      | .ResolvedObject _ _ srcObject => isObjectSomeParentOf srcObject destObject
      | _ => false
    | .Var _ => src.type != PapyrusType.Kind.None
    | .None _ => false
    | .Int _ => false
    | .Array _ _ => false
    | .Unresolved _ _ => false
    | .ResolvedStruct _ _ _ => false

/-- The function `PapyrusResolutionContext::canExplicitlyCast`. The `default:` branch of the
source (`logicalFatal`) is unreachable: the switch lists every kind. -/
def canExplicitlyCast (src dest : PapyrusType) : Bool :=
  if canImplicitlyCoerce src dest then true
  else if src.type == PapyrusType.Kind.Var then dest.type != PapyrusType.Kind.None
  else match dest with
    | .Int _ | .Float _ =>
      match src.type with
      | .String | .Int | .Float | .Bool | .Var => true
      | _ => false
    | .ResolvedObject _ _ destObject =>
      match src with
      | .ResolvedObject _ _ srcObject => isObjectSomeParentOf destObject srcObject
      | _ => false
    | .Array _ destElement =>
      match src, destElement with
      | .Array _ (.ResolvedObject _ _ srcObject), .ResolvedObject _ _ destObject =>
        isObjectSomeParentOf destObject srcObject
      | _, _ => false
    | .None _ => false
    | .Bool _ => false
    | .String _ => false
    | .Var _ => false
    | .Unresolved _ _ => false
    | .ResolvedStruct _ _ _ => false

/-- The function `PapyrusResolutionContext::canImplicitlyCoerceExpression`. The switch of the
source has no `case` for kind `None`, which therefore takes the `default:` branch. -/
def canImplicitlyCoerceExpression (expr : PapyrusExpression) (target : PapyrusType) :
    CapricaResult Bool :=
  match expr.resultType with
  | .error msg => .error msg
  | .ok resultType =>
    let canCast := canImplicitlyCoerce resultType target
    match target.type with
    | .Bool | .Int | .Float | .String | .Unresolved => .ok canCast
    | .Var | .Array | .ResolvedObject | .ResolvedStruct =>
      if resultType.type == PapyrusType.Kind.None && expr.isLiteral then .ok true
      else .ok canCast
    | .None => .error "Unknown PapyrusTypeKind!"

/-- The function `PapyrusResolutionContext::coerceExpression`: the resulting expression and
the errors reported. -/
def coerceExpression (expr : PapyrusExpression) (target : PapyrusType) :
    CapricaResult (PapyrusExpression × List CapricaError) :=
  match expr.resultType with
  | .error msg => .error msg
  | .ok resultType =>
    if PapyrusType_ne resultType target then
      match canImplicitlyCoerceExpression expr target with
      | .error msg => .error msg
      | .ok canCast =>
        match (if canCast && resultType.type == PapyrusType.Kind.Int
                  && target.type == PapyrusType.Kind.Float
               then expr.foldIntLiteralToFloat else none) with
        | some folded => .ok (folded, [])
        | none =>
          if !canCast then
            .ok (expr, [⟨expr.location, "No implicit conversion from '%s' to '%s' exists!"⟩])
          else .ok (.Cast expr.location target expr, [])
    else .ok (expr, [])

/-- The function `PapyrusResolutionContext::coerceDefaultValue`: the resulting value and the
errors reported. In the `Float` case the source tests that the type of the value has kind
`Int` and reads `val.i`; here that is the match on an `Int` value. -/
def coerceDefaultValue (val : PapyrusValue) (target : PapyrusType) :
    CapricaResult (PapyrusValue × List CapricaError) :=
  if val.type == PapyrusValueType.Invalid then .ok (val, [])
  else match val.getPapyrusType with
    | .error msg => .error msg
    | .ok valType =>
      if PapyrusType_eq valType target then .ok (val, [])
      else
        let failure : CapricaResult (PapyrusValue × List CapricaError) :=
          .ok (val, [⟨val.location, "Cannot initialize a '%s' value with a '%s'!"⟩])
        match target with
        | .Float _ =>
          match val with
          | .Int location i => .ok (.Float location (floatOfInt i), [])
          | _ => failure
        | .Array _ _ | .ResolvedObject _ _ _ | .ResolvedStruct _ _ _ =>
          if valType.type == PapyrusType.Kind.None then .ok (val, []) else failure
        | _ => failure

/-! ## Imports and type resolution (`PapyrusResolutionContext.cpp`) -/

/-- The function `PapyrusResolutionContext::addImport`: the context after the call, the
errors and the warnings reported, and the loader state after `loadScript`. -/
def addImport {σ : Type} (loadScript : ScriptLoader σ) (ctx : PapyrusResolutionContext)
    (location : CapricaFileLocation) (importName : String) (st : σ) :
    CapricaResult (PapyrusResolutionContext × List CapricaError × List CapricaWarning × σ) :=
  match loadScript importName st with
  | .error msg => .error msg
  | .ok (sc, st1) =>
    let errors : List CapricaError :=
      if sc.isNone then [⟨location, "Failed to find imported script '%s'!"⟩] else []
    let warnings : List CapricaWarning :=
      (ctx.importedScripts.filter (fun s => scriptPointerEq s sc)).map
        (fun _ => ⟨4002, location, importName⟩)
    .ok ({ ctx with importedScripts := ctx.importedScripts ++ [sc] }, errors, warnings, st1)

/-- The call `name.find_first_of('#')` with the two `substr` calls that follow it: the part
before the first `#` and the part after it, or `none` when there is no `#`. -/
def splitAtHash (name : String) : Option (String × String) :=
  match name.toList.span (fun c => c != '#') with
  | (_, []) => none
  | (scName, _ :: strucName) => some (String.mk scName, String.mk strucName)

/-- The loop over `structs` that returns the first struct whose name matches. -/
def findStruct (name : String) (structs : List PapyrusStruct) : Option PapyrusStruct :=
  structs.find? (fun struc => decide (_stricmp struc.name name = 0))

/-- The loops over `objects` and their `structs` that return the first struct whose name
matches. -/
def findStructInObjects (name : String) (objects : List PapyrusObject) :
    Option PapyrusStruct :=
  objects.findSome? (fun obj => findStruct name obj.structs)

/-- The loops over `importedScripts`, their objects and their structs. Reading the objects
of a `nullptr` entry does not return. -/
def findImportedStruct (name : String) :
    List (Option PapyrusScript) → CapricaResult (Option PapyrusStruct)
  | [] => .ok none
  | none :: _ => .error "null pointer dereference"
  | some sc :: rest =>
    match findStructInObjects name sc.objects with
    | some struc => .ok (some struc)
    | none => findImportedStruct name rest

/-- The part of `resolveType` that handles an `Unresolved` type with the given location and
name. A resolved type keeps the location and the name of the unresolved one. -/
def resolveUnresolvedType {σ : Type} (loadScript : ScriptLoader σ) (config : CapricaConfig)
    (ctx : PapyrusResolutionContext) (location : CapricaFileLocation) (name : String)
    (st : σ) : CapricaResult (PapyrusType × σ) :=
  match (if ctx.isPexResolution || config.allowDecompiledStructNameRefs
         then splitAtHash name else none) with
  | some (scName, strucName) =>
    match loadScript scName st with
    | .error msg => .error msg
    | .ok (none, _) => .error "Unable to find script '%s' referenced by '%s'!"
    | .ok (some sc, st1) =>
      match findStructInObjects strucName sc.objects with
      | some struc => .ok (.ResolvedStruct location name struc, st1)
      | none => .error "Unable to resolve a struct named '%s' in script '%s'!"
  | none =>
    let inObject : Option PapyrusType :=
      match ctx.object with
      | some object =>
        match findStruct name object.structs with
        | some s => some (.ResolvedStruct location name s)
        | none =>
          if _stricmp object.name name = 0 then some (.ResolvedObject location name object)
          else none
      | none => none
    match inObject with
    | some tp => .ok (tp, st)
    | none =>
      match findImportedStruct name ctx.importedScripts with
      | .error msg => .error msg
      | .ok (some struc) => .ok (.ResolvedStruct location name struc, st)
      | .ok none =>
        match loadScript name st with
        | .error msg => .error msg
        | .ok (sc, st1) =>
          match sc.bind (fun sc =>
              sc.objects.find? (fun obj => decide (_stricmp obj.name name = 0))) with
          | some obj => .ok (.ResolvedObject location name obj, st1)
          | none => .error "Unable to resolve type '%s'!"

/-- The function `PapyrusResolutionContext::resolveType`: the resolved type and the loader
state after the calls of `loadScript`. -/
def resolveType {σ : Type} (loadScript : ScriptLoader σ) (config : CapricaConfig)
    (ctx : PapyrusResolutionContext) : PapyrusType → σ → CapricaResult (PapyrusType × σ)
  | .Array location elementType, st =>
    match resolveType loadScript config ctx elementType st with
    | .error msg => .error msg
    | .ok (resolved, st1) => .ok (.Array location resolved, st1)
  | .Unresolved location name, st => resolveUnresolvedType loadScript config ctx location name st
  | .None location, st => .ok (.None location, st)
  | .Bool location, st => .ok (.Bool location, st)
  | .Float location, st => .ok (.Float location, st)
  | .Int location, st => .ok (.Int location, st)
  | .String location, st => .ok (.String location, st)
  | .Var location, st => .ok (.Var location, st)
  | .ResolvedStruct location name struc, st => .ok (.ResolvedStruct location name struc, st)
  | .ResolvedObject location name object, st => .ok (.ResolvedObject location name object, st)

/-- The function `PapyrusResolutionContext::addLocalVariable`: the context after the call
and the errors reported. Calling `back()` on an empty stack does not return. -/
def addLocalVariable (ctx : PapyrusResolutionContext) (decl : PapyrusDeclareStatement) :
    CapricaResult (PapyrusResolutionContext × List CapricaError) :=
  if ctx.localVariableScopeStack.any (fun is => decide (is.count decl.name ≠ 0)) then
    .ok (ctx, [⟨decl.location,
      "Attempted to redefined '%s' which was already defined in a parent scope!"⟩])
  else
    match ctx.localVariableScopeStack.getLast? with
    | none => .error "back() called on an empty vector"
    | some top =>
      .ok ({ ctx with localVariableScopeStack :=
              ctx.localVariableScopeStack.dropLast ++ [top.insert decl.name decl] }, [])

/-! ## Identifier and function resolution (`PapyrusResolutionContext.cpp`) -/

/-- The loop over the reversed `localVariableScopeStack` of `tryResolveIdentifier`: the
entry found in the first frame, from the topmost down, that has the name. -/
def findLocalVariable (name : String) (stack : List LocalVariableScope) :
    Option PapyrusDeclareStatement :=
  stack.reverse.findSome? (fun frame => frame.find name)

/-- The loop over `function->parameters` that returns the first parameter whose name
matches. -/
def findParameter (name : String) (parameters : List PapyrusFunctionParameter) :
    Option PapyrusFunctionParameter :=
  parameters.find? (fun p => decide (_stricmp p.name name = 0))

/-- The loop over `object->variables` that returns the first variable whose name matches. -/
def findVariable (name : String) (vars : List PapyrusVariable) : Option PapyrusVariable :=
  vars.find? (fun v => decide (_stricmp v.name name = 0))

/-- The loops over `propertyGroups` and their `properties` that return the first property
whose name matches. -/
def findProperty (name : String) (propertyGroups : List PapyrusPropertyGroup) :
    Option PapyrusProperty :=
  propertyGroups.findSome? (fun pg =>
    pg.properties.find? (fun p => decide (_stricmp p.name name = 0)))

/-- The loop over `state->functions` of the root state that returns the first function whose
name matches; `none` also when there is no root state. -/
def findFunctionInRootState (name : String) (object : PapyrusObject) : Option PapyrusFunction :=
  match object.tryGetRootState with
  | some state => state.functions.find? (fun func => decide (_stricmp func.name name = 0))
  | none => none

/-- The `ResolvedObject` branch of `tryResolveMemberIdentifier` for an unresolved identifier
with the given location and name: the properties of the object, then the same on its parent
class (`baseType.resolvedObject->parentClass` is the resolved type of the object that
`tryGetParentClass()` returns); the first equation is an object for which
`tryGetParentClass()` returns `nullptr`, the second one an object with a parent class. -/
def tryResolveMemberInObject : PapyrusObject → CapricaFileLocation → String → PapyrusIdentifier
  | ⟨_, _, none, _, _, _, propertyGroups⟩, location, name =>
    match findProperty name propertyGroups with
    | some prop => .Property location prop
    | none => .Unresolved location name
  | ⟨_, _, some parent, _, _, _, propertyGroups⟩, location, name =>
    match findProperty name propertyGroups with
    | some prop => .Property location prop
    | none => tryResolveMemberInObject parent location name

/-- The function `PapyrusResolutionContext::tryResolveMemberIdentifier`. -/
def tryResolveMemberIdentifier (baseType : PapyrusType) (ident : PapyrusIdentifier) :
    PapyrusIdentifier :=
  match ident with
  | .Unresolved location name =>
    match baseType with
    | .ResolvedStruct _ _ struc =>
      match struc.members.find? (fun sm => decide (_stricmp sm.name name = 0)) with
      | some sm => .StructMember location sm
      | none => ident
    | .ResolvedObject _ _ object => tryResolveMemberInObject object location name
    | _ => ident
  | _ => ident

/-- The function `PapyrusResolutionContext::tryResolveIdentifier`. Reading the members of a
`nullptr` enclosing object does not return. -/
def tryResolveIdentifier (ctx : PapyrusResolutionContext) (ident : PapyrusIdentifier) :
    CapricaResult PapyrusIdentifier :=
  match ident with
  | .Unresolved location name =>
    match findLocalVariable name ctx.localVariableScopeStack with
    | some decl => .ok (.DeclStatement location decl)
    | none =>
      match ctx.function.bind (fun function => findParameter name function.parameters) with
      | some p => .ok (.FunctionParameter location p)
      | none =>
        match ctx.object with
        | none => .error "null pointer dereference"
        | some object =>
          let inObject : Option PapyrusIdentifier :=
            if ctx.function.all (fun function => !function.isGlobal) then
              match findVariable name object.objectVariables with
              | some v => some (.Variable location v)
              | none =>
                match findProperty name object.propertyGroups with
                | some p => some (.Property location p)
                | none => none
            else none
          match inObject with
          | some resolved => .ok resolved
          | none =>
            match object.tryGetParentClass with
            | some parentClass => .ok (tryResolveMemberInObject parentClass location name)
            | none => .ok ident
  | _ => .ok ident

/-- The `ResolvedObject` branch of `tryResolveFunctionIdentifier` for an unresolved
identifier with the given location and name, with the errors it reports: the functions of
the root state of the object, then `resolveFunctionIdentifier` (the variant that ends in a
fatal when the name stays unresolved) on its parent class; the first equation is an object
for which `tryGetParentClass()` returns `nullptr`, the second one an object with a parent
class. -/
def tryResolveFunctionInObject :
    PapyrusObject → CapricaFileLocation → String →
      CapricaResult (PapyrusIdentifier × List CapricaError)
  | object@⟨_, _, none, _, _, _, _⟩, location, name =>
    match findFunctionInRootState name object with
    | some func =>
      .ok (.Function location func,
        if func.isGlobal then
          [⟨location, "You cannot call the global function '%s' on an object."⟩]
        else [])
    | none => .ok (.Unresolved location name, [])
  | object@⟨_, _, some parent, _, _, _, _⟩, location, name =>
    match findFunctionInRootState name object with
    | some func =>
      .ok (.Function location func,
        if func.isGlobal then
          [⟨location, "You cannot call the global function '%s' on an object."⟩]
        else [])
    | none =>
      match tryResolveFunctionInObject parent location name with
      | .error msg => .error msg
      | .ok (id, errors) =>
        if id.type == PapyrusIdentifierType.Unresolved then
          .error "Unresolved function name '%s'!"
        else .ok (id, errors)

/-- The loops over `importedScripts`, their objects and the functions of their root states
that return the first global function whose name matches. Reading the objects of a
`nullptr` entry does not return. -/
def findImportedGlobalFunction (name : String) :
    List (Option PapyrusScript) → CapricaResult (Option PapyrusFunction)
  | [] => .ok none
  | none :: _ => .error "null pointer dereference"
  | some sc :: rest =>
    match sc.objects.findSome? (fun obj =>
        match obj.tryGetRootState with
        | some state =>
          state.functions.find? (fun func =>
            func.isGlobal && decide (_stricmp func.name name = 0))
        | none => none) with
    | some func => .ok (some func)
    | none => findImportedGlobalFunction name rest

/-- The array branch of `tryResolveFunctionIdentifier`: the kind of builtin selected by the
name, or the fatal for an unknown name. -/
def resolveArrayFunctionKind (elementType : PapyrusType) (name : String) :
    CapricaResult PapyrusBuiltinArrayFunctionKind :=
  if _stricmp name "find" = 0 then
    if elementType.type == PapyrusType.Kind.ResolvedStruct then .ok .FindStruct else .ok .Find
  else if _stricmp name "rfind" = 0 then
    if elementType.type == PapyrusType.Kind.ResolvedStruct then .ok .RFindStruct
    else .ok .RFind
  else if _stricmp name "add" = 0 then .ok .Add
  else if _stricmp name "clear" = 0 then .ok .Clear
  else if _stricmp name "insert" = 0 then .ok .Insert
  else if _stricmp name "remove" = 0 then .ok .Remove
  else if _stricmp name "removelast" = 0 then .ok .RemoveLast
  else .error "Unknown function '%s' called on an array expression!"

/-- The function `PapyrusResolutionContext::tryResolveFunctionIdentifier`: the identifier
returned and the errors reported. Reading the members of a `nullptr` enclosing object does
not return. -/
def tryResolveFunctionIdentifier (ctx : PapyrusResolutionContext) (baseType : PapyrusType)
    (ident : PapyrusIdentifier) : CapricaResult (PapyrusIdentifier × List CapricaError) :=
  match ident with
  | .Unresolved location name =>
    match baseType with
    | .None _ =>
      match ctx.object with
      | none => .error "null pointer dereference"
      | some object =>
        match findFunctionInRootState name object with
        | some func =>
          .ok (.Function location func,
            if ctx.function.any (fun function => function.isGlobal) && !func.isGlobal then
              [⟨location, "You cannot call non-global functions from within a global function. '%s' is not a global function."⟩]
            else [])
        | none =>
          match findImportedGlobalFunction name ctx.importedScripts with
          | .error msg => .error msg
          | .ok (some func) => .ok (.Function location func, [])
          | .ok none =>
            match tryResolveFunctionInObject object location name with
            | .error msg => .error msg
            | .ok (id, errors) =>
              if id.type == PapyrusIdentifierType.Unresolved then
                .error "Unresolved function name '%s'!"
              else .ok (id, errors)
    | .Array baseLocation elementType =>
      match resolveArrayFunctionKind elementType name with
      | .error msg => .error msg
      | .ok fk => .ok (.ArrayFunction baseLocation fk elementType, [])
    | .ResolvedObject _ _ object => tryResolveFunctionInObject object location name
    | _ => .ok (ident, [])
  | _ => .ok (ident, [])

/-- The function `PapyrusResolutionContext::resolveFunctionIdentifier`. -/
def resolveFunctionIdentifier (ctx : PapyrusResolutionContext) (baseType : PapyrusType)
    (ident : PapyrusIdentifier) : CapricaResult (PapyrusIdentifier × List CapricaError) :=
  match tryResolveFunctionIdentifier ctx baseType ident with
  | .error msg => .error msg
  | .ok (id, errors) =>
    if id.type == PapyrusIdentifierType.Unresolved then .error "Unresolved function name '%s'!"
    else .ok (id, errors)

end PapyrusResolutionContext

/-! ## Auxiliary definitions for the statements -/

/-- The kinds `Int`, `Float`, `String`, `Bool` and `Var`, between which explicit casts are
always legal. -/
def isScalarCastKind : PapyrusType.Kind → Bool
  | .Int | .Float | .String | .Bool | .Var => true
  | _ => false

/-- The C string `s.c_str()` as `_stricmp` reads it: the characters before the first NUL. -/
def c_str (s : String) : List Char := s.toList.takeWhile (fun c => decide (c.toNat ≠ 0))

/-- Two names are equal ignoring case when their C strings agree character by character
after lower-casing. -/
def equalIgnoringCase (a b : String) : Prop :=
  (c_str a).map tolower = (c_str b).map tolower

/-- The type with every source location in it, at every array nesting depth, replaced
through `f`. -/
def PapyrusType.mapLocation (f : CapricaFileLocation → CapricaFileLocation) :
    PapyrusType → PapyrusType
  | .None l => .None (f l)
  | .Bool l => .Bool (f l)
  | .Float l => .Float (f l)
  | .Int l => .Int (f l)
  | .String l => .String (f l)
  | .Var l => .Var (f l)
  | .Array l e => .Array (f l) (PapyrusType.mapLocation f e)
  | .Unresolved l n => .Unresolved (f l) n
  | .ResolvedStruct l n s => .ResolvedStruct (f l) n s
  | .ResolvedObject l n o => .ResolvedObject (f l) n o

/-- The scalar kinds `None`, `Bool`, `Float`, `Int`, `String` and `Var`. -/
def isScalarKind : PapyrusType.Kind → Bool
  | .None | .Bool | .Float | .Int | .String | .Var => true
  | _ => false

/-- Whether a type has kind `Unresolved`, at any array nesting depth. -/
def containsUnresolved : PapyrusType → Bool
  | .Array _ elementType => containsUnresolved elementType
  | .Unresolved _ _ => true
  | _ => false

/-- The number of entries of `importedScripts` that point to the given script. -/
def importCount (ctx : PapyrusResolutionContext) (sc : PapyrusScript) : Nat :=
  (ctx.importedScripts.filter (fun s => scriptPointerEq s (some sc))).length

/-- A second location, different from `exampleLocation`. -/
def otherLocation : CapricaFileLocation := { filename := "Other.psc", line := 7, column := 3 }

/-! ## Example hierarchy used by the concrete instances -/

/-- The location used by the concrete instances. -/
def exampleLocation : CapricaFileLocation := { filename := "Example.psc", line := 1, column := 0 }

/-- An object without a parent class. -/
def exampleParent : PapyrusObject := { addr := 1, name := "Parent", parentClass := none }

/-- An object whose parent class is `exampleParent`. -/
def exampleChild : PapyrusObject :=
  { addr := 2, name := "Child", parentClass := some exampleParent }

/-- A script that owns `exampleParent`. -/
def exampleScript : PapyrusScript := { addr := 10, objects := [exampleParent] }

/-- A loader without state that finds `exampleScript` under the name `Utility`, in any
case, and nothing else. -/
def exampleLoader : ScriptLoader Unit := fun name st =>
  if _stricmp name "Utility" = 0 then .ok (some exampleScript, st) else .ok (none, st)

/-- A loader that never returns. -/
def failingLoader : ScriptLoader Unit := fun _ _ => .error "no script can be loaded"

/-- A struct named `Point`. -/
def examplePointStruct : PapyrusStruct := { addr := 20, name := "Point" }

/-- An object that is itself named `Point`, extends `exampleParent` and owns the struct
`Point`. -/
def exampleOwner : PapyrusObject :=
  { addr := 3, name := "Point", parentClass := some exampleParent,
    structs := [examplePointStruct] }

/-- A local declaration of `count`. -/
def exampleDecl : PapyrusDeclareStatement :=
  { addr := 30, name := "count", location := exampleLocation }

/-- A context inside `exampleOwner` with one empty scope frame. -/
def exampleContext : PapyrusResolutionContext :=
  { object := some exampleOwner, localVariableScopeStack := [⟨[]⟩] }

/-- A variable named `health`. -/
def exampleVariable : PapyrusVariable := { addr := 40, name := "health" }

/-- A property named `Health`. -/
def exampleProperty : PapyrusProperty := { addr := 41, name := "Health" }

/-- A parameter named `amount`. -/
def exampleParameter : PapyrusFunctionParameter := { addr := 42, name := "amount" }

/-- A non-global function `DoWork` with the parameter `amount`. -/
def exampleMethod : PapyrusFunction :=
  { addr := 50, name := "DoWork", isGlobal := false, parameters := [exampleParameter] }

/-- A global function `Helper`. -/
def exampleGlobal : PapyrusFunction := { addr := 51, name := "Helper", isGlobal := true }

/-- An object `Actor` that extends `exampleParent`, with a root state holding `DoWork` and
`Helper`, the variable `health` and the property `Health`. -/
def exampleActor : PapyrusObject :=
  { addr := 4, name := "Actor", parentClass := some exampleParent,
    states := [{ name := "", functions := [exampleMethod, exampleGlobal] }],
    objectVariables := [exampleVariable],
    propertyGroups := [{ properties := [exampleProperty] }] }

/-- A context inside the function `DoWork` of `exampleActor`, with two scope frames, the
innermost one empty. -/
def exampleActorContext : PapyrusResolutionContext :=
  { object := some exampleActor, function := some exampleMethod,
    localVariableScopeStack := [⟨[("count", exampleDecl)]⟩, ⟨[]⟩] }

/-- A property named `Mana`. -/
def exampleMana : PapyrusProperty := { addr := 43, name := "Mana" }

/-- An object `Base` without a parent class, with the property `Mana`. -/
def exampleBase : PapyrusObject :=
  { addr := 5, name := "Base", parentClass := none,
    propertyGroups := [{ properties := [exampleMana] }] }

/-- An object `Middle` that extends `exampleBase` and has no member of its own. -/
def exampleMiddle : PapyrusObject :=
  { addr := 6, name := "Middle", parentClass := some exampleBase }

/-- An object `Mage` that extends `exampleMiddle` and has no member of its own. -/
def exampleMage : PapyrusObject :=
  { addr := 7, name := "Mage", parentClass := some exampleMiddle }

/-- A context inside `exampleMage`, outside any function. -/
def exampleMageContext : PapyrusResolutionContext := { object := some exampleMage }

/-! ## Parent-class chains and hierarchies -/

/-- The parent-class chain that starts at an object: the object itself, then its parent
class, and so on up to the object that has none. -/
def parentClassChain : PapyrusObject → List PapyrusObject
  | object@⟨_, _, none, _, _, _, _⟩ => [object]
  | object@⟨_, _, some parent, _, _, _, _⟩ => object :: parentClassChain parent

/-- The function `PapyrusResolutionContext::isObjectSomeParentOf` run with a bound on the
number of calls: `none` when the bound is used up before the answer is reached. -/
def isObjectSomeParentOfWithin : Nat → PapyrusObject → PapyrusObject → Option Bool
  | 0, _, _ => none
  | calls + 1, child, parent =>
    if child.addr = parent.addr then some true
    else if _stricmp child.name parent.name = 0 then some true
    else match child.tryGetParentClass with
      | some parentObject => isObjectSomeParentOfWithin calls parentObject parent
      | none => some false


/-- An object hierarchy in which entities are what they should be: the listed objects
contain the parent class of each of them; two listed objects at the same address are the
same object; and two listed objects whose names are equal ignoring case are at the same
address. -/
def WellFormedHierarchy (objects : List PapyrusObject) : Prop :=
  (∀ o ∈ objects, ∀ p, o.tryGetParentClass = some p → p ∈ objects) ∧
  (∀ o ∈ objects, ∀ p ∈ objects, o.addr = p.addr → o = p) ∧
  (∀ o ∈ objects, ∀ p ∈ objects, _stricmp o.name p.name = 0 → o.addr = p.addr)

/-- A type is over a hierarchy when the object it refers to, if it is a `ResolvedObject`,
is one of the objects of the hierarchy. -/
def PapyrusType.isOver (objects : List PapyrusObject) : PapyrusType → Prop
  | .ResolvedObject _ _ object => object ∈ objects
  | _ => True


/-! ## The function builder (`PexFunctionBuilder.cpp`) -/

deriving instance DecidableEq for Except

/-- Modelled from the spec: `PexString` (`pex/PexString.h` is not among the sources), a
string interned in the string table of the file. The table gives one index to each string,
so an interned string is named here by the string it stands for, and comparing indices is
comparing these. -/
structure PexString where
  value : String
deriving DecidableEq, Repr

/-- Modelled from the spec: `PexLocalVariable`, a local of the function: its name and its
type, both interned. A temporary local is identified by its name. -/
structure PexLocalVariable where
  name : PexString
  type : PexString
deriving DecidableEq, Repr

/-- The value `(size_t)-1`, the target index of a label that is not bound. -/
def SIZE_MAX : Nat := 2 ^ 64 - 1

/-- Modelled from the spec: `PexLabel`, a label with its target index, `SIZE_MAX` until the
label is bound. -/
structure PexLabel where
  targetIdx : Nat
deriving DecidableEq, Repr

/-- Modelled from the spec: `PexTemporaryVariableRef`, the handle of a temporary: its type
and the local attached to it, `nullptr` until the temporary is assigned. -/
structure PexTemporaryVariableRef where
  type : PexString
  var : Option PexLocalVariable
deriving DecidableEq, Repr

/-- The enumeration `PexValueType`, the tag of a `PexValue`; `Other` stands for the tags of
the literal values, which the builder does not look at. -/
inductive PexValueType where
  | Invalid
  | Label
  | Integer
  | Identifier
  | TemporaryVar
  | Other
deriving DecidableEq, Repr

/-- Modelled from the spec: `PexValue` (`pex/PexValue.h` is not among the sources), an
operand of an instruction. A label and a temporary are pointers: a label is named by its
position in `labels`, a temporary by its position in `tempVarRefs`. An integer is a signed
32-bit value. `Other` stands for the literal values of the remaining tags. -/
inductive PexValue where
  | Invalid
  | Label (l : Nat)
  | Integer (i : Int)
  | Identifier (s : PexString)
  | TemporaryVar (tmpVar : Nat)
  | Other (literal : Nat)
deriving DecidableEq, Repr

/-- The field `PexValue::type`. -/
def PexValue.type : PexValue → PexValueType
  | .Invalid => .Invalid
  | .Label _ => .Label
  | .Integer _ => .Integer
  | .Identifier _ => .Identifier
  | .TemporaryVar _ => .TemporaryVar
  | .Other _ => .Other

/-- The enumeration `PexOpCode`: the opcodes the builder names, and `Other` for every other
value, in the `OPCODES` list or not. -/
inductive PexOpCode where
  | Nop
  | Assign
  | CallMethod
  | CallParent
  | CallStatic
  | Other (code : Nat)
deriving DecidableEq, Repr

/-- Modelled from the spec: `PexInstruction`, an opcode with its fixed and its variadic
arguments. -/
structure PexInstruction where
  opCode : PexOpCode
  args : List PexValue
  variadicArgs : List PexValue := []
deriving DecidableEq, Repr

/-- The column `destArgIdx` of the `OPCODES` list (`pex/PexOpCode.h` is not among the
sources): the index of the destination argument of an opcode of the list, -1 when it has
none, and `none` for a value that is not in the list. -/
abbrev OpCodeTable : Type := PexOpCode → Option Int

/-- The part of `PexFunction` that the builder fills in. -/
structure PexFunction where
  instructions : List PexInstruction := []
  locals : List PexLocalVariable := []
deriving DecidableEq, Repr

/-- The part of `PexDebugFunctionInfo` that the builder fills in: one 16-bit line number per
instruction. -/
structure PexDebugFunctionInfo where
  instructionLineMap : List Nat := []
deriving DecidableEq, Repr

/-- The state of a `PexFunctionBuilder`. The two maps are lists of entries with distinct
keys, in insertion order. -/
structure PexFunctionBuilder where
  currentLocation : CapricaFileLocation
  instructions : List PexInstruction := []
  instructionLocations : List CapricaFileLocation := []
  locals : List PexLocalVariable := []
  labels : List PexLabel := []
  tempVarRefs : List PexTemporaryVariableRef := []
  tempVarNameTypeMap : List (PexString × PexLocalVariable) := []
  freeTempVars : List (PexString × List PexLocalVariable) := []
  currentTempI : Nat := 0
deriving DecidableEq, Repr

/-- The conversion `(int32_t)n` of an unsigned value: the low 32 bits, read as a signed
number. -/
def toInt32 (n : Nat) : Int :=
  if n % 2 ^ 32 < 2 ^ 31 then (n % 2 ^ 32 : Nat) else ((n % 2 ^ 32 : Nat) : Int) - 2 ^ 32

/-- The subtraction `a - b` of two `size_t` values, modulo `2 ^ 64`. -/
def sizeSub (a b : Nat) : Nat := (a % 2 ^ 64 + (2 ^ 64 - b % 2 ^ 64)) % 2 ^ 64

/-- The name `"::temp" << n` built by `push` for a new temporary local. -/
def tempName (n : Nat) : PexString := ⟨"::temp" ++ Nat.repr n⟩

namespace PexFunctionBuilder

/-- The operator `<<(const CapricaFileLocation&)`. -/
def setLocation (b : PexFunctionBuilder) (loc : CapricaFileLocation) : PexFunctionBuilder :=
  { b with currentLocation := loc }

/-- The function `PexFunctionBuilder::allocTemp`: the builder with the new handle, and the
value that names it. -/
def allocTemp (b : PexFunctionBuilder) (type : PexString) : PexFunctionBuilder × PexValue :=
  ({ b with tempVarRefs := b.tempVarRefs ++ [⟨type, none⟩] },
   .TemporaryVar b.tempVarRefs.length)

/-- The operator `>>(PexLabel*&)`: the builder with the new, unbound label, and the position
that names it. -/
def allocLabel (b : PexFunctionBuilder) : PexFunctionBuilder × Nat :=
  ({ b with labels := b.labels ++ [⟨SIZE_MAX⟩] }, b.labels.length)

/-- The operator `<<(PexLabel*)`. Writing through a pointer to no label does not return. -/
def bindLabel (b : PexFunctionBuilder) (l : Nat) : CapricaResult PexFunctionBuilder :=
  if l < b.labels.length then
    .ok { b with labels := b.labels.set l ⟨b.instructions.length⟩ }
  else .error "dangling pointer dereference"

/-- The function `getDestArgIndexForOpCode`. -/
def getDestArgIndexForOpCode (table : OpCodeTable) : PexOpCode → CapricaResult Int
  | .Nop => .ok (-1)
  | .CallMethod => .ok 2
  | .CallStatic => .ok 2
  | .CallParent => .ok 1
  | op =>
    match table op with
    | some destArgIdx => .ok destArgIdx
    | none => .error "Unknown PexOpCode!"

/-- The two statements of `freeValueIfTemp` that put a local on the free list of its type:
`insert` of an empty list when the type has none, then `push_back`. -/
def pushFree (freeTempVars : List (PexString × List PexLocalVariable))
    (loc : PexLocalVariable) : List (PexString × List PexLocalVariable) :=
  match freeTempVars.lookup loc.type with
  | none => freeTempVars ++ [(loc.type, [loc])]
  | some _ =>
    freeTempVars.map (fun e => if e.1 = loc.type then (e.1, e.2 ++ [loc]) else e)

/-- The function `PexFunctionBuilder::freeValueIfTemp`. -/
def freeValueIfTemp (b : PexFunctionBuilder) (v : PexValue) : PexFunctionBuilder :=
  let varName : Option PexString :=
    match v with
    | .Identifier s => some s
    | .TemporaryVar t =>
      match b.tempVarRefs[t]? with
      | some ref => ref.var.map (fun loc => loc.name)
      | none => none
    | _ => none
  match varName with
  | none => b
  | some name =>
    match b.tempVarNameTypeMap.lookup name with
    | none => b
    | some loc => { b with freeTempVars := pushFree b.freeTempVars loc }

/-- The statement `if (v.type == TemporaryVar && v.tmpVar->var) v = Identifier(v.tmpVar->var)`
of `push`. Reading through a pointer to no handle does not return. -/
def materialize (b : PexFunctionBuilder) (v : PexValue) : CapricaResult PexValue :=
  match v with
  | .TemporaryVar t =>
    match b.tempVarRefs[t]? with
    | none => .error "dangling pointer dereference"
    | some ref =>
      match ref.var with
      | some loc => .ok (.Identifier loc.name)
      | none => .ok v
  | _ => .ok v

/-- One of the two first loops of `push`, over the fixed or over the variadic arguments: an
invalid value is fatal, a temporary that has a local becomes the identifier of that local,
and each value is passed to `freeValueIfTemp`. -/
def rewriteOperands :
    PexFunctionBuilder → List PexValue → CapricaResult (PexFunctionBuilder × List PexValue)
  | b, [] => .ok (b, [])
  | b, v :: rest =>
    if v.type = .Invalid then
      .error "Attempted to use an invalid value as a value! (perhaps you tried to use the return value of a function that doesn't return?)"
    else
      match materialize b v with
      | .error msg => .error msg
      | .ok v1 =>
        match rewriteOperands (freeValueIfTemp b v1) rest with
        | .error msg => .error msg
        | .ok (b2, rest1) => .ok (b2, v1 :: rest1)

/-- The two first loops of `push`, over the fixed and then over the variadic arguments. -/
def rewriteInstruction (b : PexFunctionBuilder) (instr : PexInstruction) :
    CapricaResult (PexFunctionBuilder × PexInstruction) :=
  match rewriteOperands b instr.args with
  | .error msg => .error msg
  | .ok (b1, args1) =>
    match rewriteOperands b1 instr.variadicArgs with
    | .error msg => .error msg
    | .ok (b2, variadic1) => .ok (b2, { instr with args := args1, variadicArgs := variadic1 })

/-- The first branch of the destination block of `push`: the last local of the free list
`x :: xs` of the type of the temporary is taken off the list and attached to the handle. -/
def reuseLocal (b : PexFunctionBuilder) (t : Nat) (ref : PexTemporaryVariableRef)
    (x : PexLocalVariable) (xs : List PexLocalVariable) : PexFunctionBuilder :=
  { b with
      freeTempVars := b.freeTempVars.map (fun e =>
        if e.1 = ref.type then (e.1, (x :: xs).dropLast) else e)
      tempVarRefs :=
        b.tempVarRefs.set t { ref with var := some ((x :: xs).getLast (List.cons_ne_nil x xs)) } }

/-- The second branch of the destination block of `push`: a new local `::tempN` of the type
of the temporary is created, entered in the map of the temporary locals and in the local
table, and attached to the handle. -/
def newLocal (b : PexFunctionBuilder) (t : Nat) (ref : PexTemporaryVariableRef) :
    PexFunctionBuilder :=
  { b with
      currentTempI := b.currentTempI + 1
      tempVarNameTypeMap :=
        match b.tempVarNameTypeMap.lookup (tempName b.currentTempI) with
        | none => b.tempVarNameTypeMap ++ [(tempName b.currentTempI, ⟨tempName b.currentTempI, ref.type⟩)]
        | some _ => b.tempVarNameTypeMap
      locals := b.locals ++ [⟨tempName b.currentTempI, ref.type⟩]
      tempVarRefs :=
        b.tempVarRefs.set t { ref with var := some ⟨tempName b.currentTempI, ref.type⟩ } }

/-- The block of `push` that gives a local to the destination argument when it is a
temporary: the last local of the free list of its type when there is one, else a new local
`::tempN`. Reading an argument that is not there does not return. -/
def bindDestination (table : OpCodeTable) (b : PexFunctionBuilder) (instr : PexInstruction) :
    CapricaResult (PexFunctionBuilder × PexInstruction) :=
  match getDestArgIndexForOpCode table instr.opCode with
  | .error msg => .error msg
  | .ok destIdx =>
    if destIdx = -1 then .ok (b, instr)
    else if destIdx < 0 then .error "argument index out of range"
    else
      match instr.args[destIdx.toNat]? with
      | none => .error "argument index out of range"
      | some (.TemporaryVar t) =>
        match b.tempVarRefs[t]? with
        | none => .error "dangling pointer dereference"
        | some ref =>
          match b.freeTempVars.lookup ref.type with
          | some (x :: xs) =>
            let reused := (x :: xs).getLast (List.cons_ne_nil x xs)
            .ok (reuseLocal b t ref x xs,
              { instr with args := instr.args.set destIdx.toNat (.Identifier reused.name) })
          | _ =>
            let created := tempName b.currentTempI
            .ok (newLocal b t ref,
              { instr with args := instr.args.set destIdx.toNat (.Identifier created) })
      | some _ => .ok (b, instr)

/-- The part of `push` that comes before the two loops looking for a temporary that is
left: the two loops over the arguments, then the destination block. It gives the builder
and the instruction as they are at that point. -/
def assignOperands (table : OpCodeTable) (b : PexFunctionBuilder) (instr : PexInstruction) :
    CapricaResult (PexFunctionBuilder × PexInstruction) :=
  match rewriteInstruction b instr with
  | .error msg => .error msg
  | .ok (b2, instr2) => bindDestination table b2 instr2

/-- The test of the dead-assign special case of `push` on the destination `args[0]` and the
source `args[1]`: the same tag, which is `Identifier`, and the same string. -/
def isDeadAssign (dst src : PexValue) : Bool :=
  match dst, src with
  | .Identifier d, .Identifier s => d = s
  | _, _ => false

/-- The two last statements of `push`: the current location and the instruction are
appended. -/
def append (b : PexFunctionBuilder) (instr : PexInstruction) : PexFunctionBuilder :=
  { b with
      instructionLocations := b.instructionLocations ++ [b.currentLocation]
      instructions := b.instructions ++ [instr] }

/-- The function `PexFunctionBuilder::push(PexInstruction*)`. -/
def push (table : OpCodeTable) (b : PexFunctionBuilder) (instr : PexInstruction) :
    CapricaResult PexFunctionBuilder :=
  match assignOperands table b instr with
  | .error msg => .error msg
  | .ok (b3, instr3) =>
    if (instr3.args ++ instr3.variadicArgs).any (fun v => v.type = .TemporaryVar) then
      .error "Attempted to use a temporary var before it's been assigned!"
    else if instr3.opCode = .Assign then
      match instr3.args[0]?, instr3.args[1]? with
      | some dst, some src => if isDeadAssign dst src then .ok b3 else .ok (b3.append instr3)
      | _, _ => .error "argument index out of range"
    else .ok (b3.append instr3)

/-- The body of the first loop of `populateFunction` on the fixed arguments of the
instruction at index `i`: a label becomes the integer `(int32_t)(targetIdx - i)`, and a
label that is not bound is fatal. -/
def resolveLabelArgs (labels : List PexLabel) (i : Nat) :
    List PexValue → CapricaResult (List PexValue)
  | [] => .ok []
  | .Label l :: rest =>
    match labels[l]? with
    | none => .error "dangling pointer dereference"
    | some label =>
      if label.targetIdx = SIZE_MAX then .error "Unresolved label!"
      else
        match resolveLabelArgs labels i rest with
        | .error msg => .error msg
        | .ok rest1 => .ok (.Integer (toInt32 (sizeSub label.targetIdx i)) :: rest1)
  | v :: rest =>
    match resolveLabelArgs labels i rest with
    | .error msg => .error msg
    | .ok rest1 => .ok (v :: rest1)

/-- The first loop of `populateFunction`, from the instruction at index `i` on. -/
def resolveLabels (labels : List PexLabel) :
    Nat → List PexInstruction → CapricaResult (List PexInstruction)
  | _, [] => .ok []
  | i, instr :: rest =>
    match resolveLabelArgs labels i instr.args with
    | .error msg => .error msg
    | .ok args1 =>
      match resolveLabels labels (i + 1) rest with
      | .error msg => .error msg
      | .ok rest1 => .ok ({ instr with args := args1 } :: rest1)

/-- The function `PexFunctionBuilder::populateFunction`: the function and the debug
information after the call. -/
def populateFunction (b : PexFunctionBuilder) (func : PexFunction)
    (debInfo : PexDebugFunctionInfo) : CapricaResult (PexFunction × PexDebugFunctionInfo) :=
  match resolveLabels b.labels 0 b.instructions with
  | .error msg => .error msg
  | .ok instructions =>
    if b.labels.any (fun l => l.targetIdx = SIZE_MAX) then
      .error "Unused unresolved label!"
    else if b.tempVarRefs.any (fun tmp => tmp.var.isNone) then
      .error "Unresolved tmp var!"
    else if b.instructionLocations.any (fun l => l.line > 65535) then
      .error "The file has too many lines for the debug info to be able to map correctly!"
    else
      .ok ({ func with instructions := instructions, locals := b.locals },
        { debInfo with instructionLineMap :=
            debInfo.instructionLineMap ++ b.instructionLocations.map (fun l => l.line % 65536) })

end PexFunctionBuilder

/-- One call on a builder, as it appears in a sequence of calls. -/
inductive BuilderOp where
  | setLocation (loc : CapricaFileLocation)
  | allocTemp (type : PexString)
  | allocLabel
  | bindLabel (l : Nat)
  | push (instr : PexInstruction)
deriving DecidableEq, Repr

/-- The builder after one call. -/
def applyOp (table : OpCodeTable) (b : PexFunctionBuilder) :
    BuilderOp → CapricaResult PexFunctionBuilder
  | .setLocation loc => .ok (b.setLocation loc)
  | .allocTemp type => .ok (b.allocTemp type).1
  | .allocLabel => .ok b.allocLabel.1
  | .bindLabel l => b.bindLabel l
  | .push instr => b.push table instr

/-- The builder after a sequence of calls, when none of them is fatal. -/
def runOps (table : OpCodeTable) :
    PexFunctionBuilder → List BuilderOp → CapricaResult PexFunctionBuilder
  | b, [] => .ok b
  | b, op :: rest =>
    match applyOp table b op with
    | .error msg => .error msg
    | .ok b1 => runOps table b1 rest

/-- Modelled from the spec: the builder as its constructor leaves it (`PexFunctionBuilder.h`
is not among the sources): nothing stored, the counter of the temporary locals at zero. -/
def PexFunctionBuilder.fresh (location : CapricaFileLocation) : PexFunctionBuilder :=
  { currentLocation := location }

/-- A value after its temporary, if it is one, is replaced by the identifier of the local
attached to its handle in `tempVarRefs`. -/
def replaceTemporaries (tempVarRefs : List PexTemporaryVariableRef) : PexValue → PexValue
  | .TemporaryVar t =>
    match tempVarRefs[t]? with
    | some ref =>
      match ref.var with
      | some loc => .Identifier loc.name
      | none => .TemporaryVar t
    | none => .TemporaryVar t
  | v => v

/-- The handle of the destination operand of an instruction when that operand is a temporary
that has no local yet, and `none` in every other case. -/
def unboundDestination (table : OpCodeTable) (b : PexFunctionBuilder) (instr : PexInstruction) :
    Option PexTemporaryVariableRef :=
  match PexFunctionBuilder.getDestArgIndexForOpCode table instr.opCode with
  | .error _ => none
  | .ok destIdx =>
    if destIdx < 0 then none
    else
      match instr.args[destIdx.toNat]? with
      | some (.TemporaryVar t) =>
        match b.tempVarRefs[t]? with
        | some ref => if ref.var = none then some ref else none
        | none => none
      | _ => none

/-- An example of the column `destArgIdx`: `Assign` writes its argument 0, the opcode 0 of
the rest of the list (a jump) writes none, the opcode 1 (an addition) writes its
argument 0. -/
def exampleTable : OpCodeTable
  | .Assign => some 0
  | .Other 0 => some (-1)
  | .Other 1 => some 0
  | _ => none

/-- The type `Int` as an interned string. -/
def exampleIntType : PexString := ⟨"Int"⟩

/-- A forward branch to a label bound three instructions later. -/
def exampleBranchOps : List BuilderOp :=
  [.allocLabel, .push ⟨.Other 0, [.Label 0], []⟩, .push ⟨.Nop, [], []⟩, .push ⟨.Nop, [], []⟩,
   .bindLabel 0, .push ⟨.Nop, [], []⟩]

/-- A call whose variadic arguments hold a label that is never bound. -/
def exampleUnboundVariadicOps : List BuilderOp :=
  [.allocLabel,
   .push ⟨.CallMethod, [.Identifier ⟨"f"⟩, .Identifier ⟨"self"⟩, .Identifier ⟨"x"⟩], [.Label 0]⟩]

/-- A call whose variadic arguments hold a bound label. -/
def exampleVariadicLabelOps : List BuilderOp :=
  [.allocLabel, .bindLabel 0,
   .push ⟨.CallMethod, [.Identifier ⟨"f"⟩, .Identifier ⟨"self"⟩, .Identifier ⟨"x"⟩], [.Label 0]⟩]

/-- The builder after `exampleBranchOps`: a jump to label 0 at index 0, three `Nop`, the
label bound to index 3. -/
def exampleBranchBuilder : PexFunctionBuilder :=
  { currentLocation := exampleLocation
    instructions := [⟨.Other 0, [.Label 0], []⟩, ⟨.Nop, [], []⟩, ⟨.Nop, [], []⟩, ⟨.Nop, [], []⟩]
    instructionLocations := [exampleLocation, exampleLocation, exampleLocation, exampleLocation]
    labels := [⟨3⟩] }

/-- The function and the debug information that `populateFunction` makes of
`exampleBranchBuilder`. -/
def exampleBranchOutput : PexFunction × PexDebugFunctionInfo :=
  ({ instructions :=
       [⟨.Other 0, [.Integer 3], []⟩, ⟨.Nop, [], []⟩, ⟨.Nop, [], []⟩, ⟨.Nop, [], []⟩] },
   { instructionLineMap := [1, 1, 1, 1] })

/-- An instruction after each temporary among its fixed and variadic arguments is replaced by
the identifier of the local attached to its handle in `tempVarRefs`. -/
def rewrittenInstruction (tempVarRefs : List PexTemporaryVariableRef) (instr : PexInstruction) :
    PexInstruction :=
  { instr with
      args := instr.args.map (replaceTemporaries tempVarRefs)
      variadicArgs := instr.variadicArgs.map (replaceTemporaries tempVarRefs) }

/-- An instruction none of whose fixed or variadic arguments has tag `TemporaryVar`. -/
def hasNoTemporary (instr : PexInstruction) : Prop :=
  ∀ v ∈ instr.args ++ instr.variadicArgs, v.type ≠ .TemporaryVar

/-- The message of the fatal that `push` raises for a temporary that is left. -/
def temporaryBeforeAssigned : String :=
  "Attempted to use a temporary var before it's been assigned!"

/-- A local variable `x` as an operand. -/
def exampleOperand : PexValue := .Identifier ⟨"x"⟩

/-- The assignment of the local `x` to itself. -/
def exampleDeadAssign : PexInstruction := ⟨.Assign, [exampleOperand, exampleOperand], []⟩

/-- The message of the fatal that `populateFunction` raises for a line that does not fit in
16 bits. -/
def tooManyLines : String :=
  "The file has too many lines for the debug info to be able to map correctly!"

/-- A builder that holds one `Nop`, recorded at line 70,000. -/
def exampleFarBuilder : PexFunctionBuilder :=
  { currentLocation := ⟨"Example.psc", 70000, 0⟩
    instructions := [⟨.Nop, [], []⟩]
    instructionLocations := [⟨"Example.psc", 70000, 0⟩] }

/-- The number that a list of decimal digits writes, the first digit being the most
significant one. -/
def digitsValue (digits : List Char) : Nat :=
  digits.foldl (fun value c => value * 10 + (c.toNat - 48)) 0

/-- The local `::temp0` of type `Int`. -/
def exampleTemp0 : PexLocalVariable := ⟨⟨"::temp0"⟩, exampleIntType⟩

/-- An addition that writes the temporary `t`. -/
def exampleWrite (t : Nat) : PexInstruction :=
  ⟨.Other 1, [.TemporaryVar t, .Identifier ⟨"x"⟩, .Identifier ⟨"y"⟩], []⟩

/-- A temporary is written, then read as both sources of one addition. -/
def exampleDoubleUseOps : List BuilderOp :=
  [.allocTemp exampleIntType, .push (exampleWrite 0),
   .push ⟨.Other 1, [.Identifier ⟨"z"⟩, .TemporaryVar 0, .TemporaryVar 0], []⟩]

/-- A temporary is written twice. -/
def exampleReassignOps : List BuilderOp :=
  [.allocTemp exampleIntType, .push (exampleWrite 0), .push (exampleWrite 0)]

/-- Two more temporaries are allocated and written, none of them being read. -/
def exampleTwoWritesOps : List BuilderOp :=
  [.allocTemp exampleIntType, .allocTemp exampleIntType,
   .push (exampleWrite 1), .push (exampleWrite 2)]

/-- The builder after a temporary of type `Int` is allocated on a fresh builder and written
by an addition: the temporary has the new local `::temp0`. -/
def exampleWrittenBuilder : PexFunctionBuilder :=
  { currentLocation := exampleLocation
    instructions :=
      [⟨.Other 1, [.Identifier ⟨"::temp0"⟩, .Identifier ⟨"x"⟩, .Identifier ⟨"y"⟩], []⟩]
    instructionLocations := [exampleLocation]
    locals := [exampleTemp0]
    tempVarRefs := [⟨exampleIntType, some exampleTemp0⟩]
    tempVarNameTypeMap := [(⟨"::temp0"⟩, exampleTemp0)]
    currentTempI := 1 }

/-- A temporary whose handle has no local yet. -/
def temporaryUnbound (b : PexFunctionBuilder) (t : Nat) : Prop :=
  ∃ ref, b.tempVarRefs[t]? = some ref ∧ ref.var = none

/-- The conditions under which `push` reaches its two loops that look for a temporary that
is left, every fatal before them being avoided: no argument is invalid, every temporary
among the arguments has a handle of the builder, the opcode is known, and the destination
argument, when the opcode has one, is there. -/
def reachesTemporaryCheck (table : OpCodeTable) (b : PexFunctionBuilder)
    (instr : PexInstruction) : Prop :=
  (∀ v ∈ instr.args ++ instr.variadicArgs, v.type ≠ .Invalid) ∧
  (∀ t, .TemporaryVar t ∈ instr.args ++ instr.variadicArgs → t < b.tempVarRefs.length) ∧
  ∃ destIdx, PexFunctionBuilder.getDestArgIndexForOpCode table instr.opCode = .ok destIdx ∧
    (destIdx = -1 ∨ (0 ≤ destIdx ∧ destIdx.toNat < instr.args.length))

/-- An instruction uses a temporary before it is assigned: a fixed argument other than the
destination argument, or a variadic argument, is a temporary without a local. -/
def temporaryLeft (table : OpCodeTable) (b : PexFunctionBuilder) (instr : PexInstruction) :
    Prop :=
  (∃ (j t : Nat), instr.args[j]? = some (.TemporaryVar t) ∧ temporaryUnbound b t ∧
    PexFunctionBuilder.getDestArgIndexForOpCode table instr.opCode ≠ .ok (j : Int)) ∨
  (∃ t, .TemporaryVar t ∈ instr.variadicArgs ∧ temporaryUnbound b t)

/-! ## The script loader (`PapyrusResolutionContext::loadScript`) -/

/-- The three file formats `loadScript` looks for, in the order it probes them. -/
inductive ScriptFormat where
  | psc
  | pas
  | pex
deriving DecidableEq, Repr

/-- The file extension of a format. -/
def ScriptFormat.extension : ScriptFormat → String
  | .psc => ".psc"
  | .pas => ".pas"
  | .pex => ".pex"

/-- Modelled from the spec: the run of `PapyrusScript::semantic(ctx)` on a reference script
(`PapyrusScript.h` is not among the sources), as far as the loader observes it: it ends, or
ends in a fatal (`exitIfErrors` included), or calls `ctx->loadScript(name)` and goes on with
the script returned, `nullptr` or not. -/
inductive SemanticPass where
  | done
  | fatal (msg : String)
  | loadScript (name : String) (next : Option PapyrusScript → SemanticPass)

/-- What `loadScript` takes from its environment: the file system (`boost::filesystem::exists`,
`FSUtils::canonical`, `path::parent_path`), the configured import directories, the decoding
of a file of each format into a script (parser, reader and reflector, with `exitIfErrors`),
and the semantic pass of a script, whose second argument is `isPexResolution`. -/
structure LoaderEnvironment where
  fileExists : String → Bool
  canonical : String → String
  parent_path : String → String
  importDirectories : List String
  decode : ScriptFormat → String → CapricaResult PapyrusScript
  semantic : PapyrusScript → Bool → SemanticPass

/-- The two thread-local maps of the loader, each a list of entries in insertion order whose
keys are compared with `_stricmp`. The two-level map `localPerDirIdentMap` is kept as one
list of entries (directory, name, script): looking up a directory and then a name in it is
looking for the first entry whose two keys match. The lists `decoded` and `analysed` are not
in the source: they record, in order, the files that were decoded and the addresses of the
scripts `semantic` was run on. -/
structure LoaderState where
  loadedScripts : List (String × PapyrusScript) := []
  localPerDirIdentMap : List (String × String × PapyrusScript) := []
  decoded : List String := []
  analysed : List Nat := []

/-- The call `loadedScripts.find(filename)`. -/
def LoaderState.findLoaded (st : LoaderState) (filename : String) : Option PapyrusScript :=
  (st.loadedScripts.find? (fun e => decide (_stricmp e.1 filename = 0))).map (fun e => e.2)

/-- The two calls `localPerDirIdentMap.find(baseDir)` and `sf2->second.find(name)`. -/
def LoaderState.findLocal (st : LoaderState) (baseDir name : String) : Option PapyrusScript :=
  (st.localPerDirIdentMap.find? (fun e =>
    decide (_stricmp e.1 baseDir = 0) && decide (_stricmp e.2.1 name = 0))).map (fun e => e.2.2)

/-- The statements that enter a script in `localPerDirIdentMap`: an empty map for the
directory when it has none, then `insert`, which keeps the entry the map already has. -/
def LoaderState.insertLocal (st : LoaderState) (baseDir scriptName : String)
    (a : PapyrusScript) : LoaderState :=
  match st.findLocal baseDir scriptName with
  | none => { st with localPerDirIdentMap := st.localPerDirIdentMap ++ [(baseDir, scriptName, a)] }
  | some _ => st

/-- The call `loadedScripts.insert(\x7b filename, a \x7d)`, which keeps the entry the map
already has. -/
def LoaderState.insertLoaded (st : LoaderState) (filename : String) (a : PapyrusScript) :
    LoaderState :=
  match st.findLoaded filename with
  | none => { st with loadedScripts := st.loadedScripts ++ [(filename, a)] }
  | some _ => st

/-- The statement `std::replace(nm2.begin(), nm2.end(), ':', '\\')`. -/
def replaceColons (name : String) : String :=
  ⟨name.toList.map (fun c => if c = ':' then '\\' else c)⟩

/-- The run of a semantic pass, its calls of `loadScript` being answered by `load`. -/
def runSemantic (load : ScriptLoader LoaderState) :
    SemanticPass → LoaderState → CapricaResult LoaderState
  | .done, st => .ok st
  | .fatal msg, _ => .error msg
  | .loadScript name next, st =>
    match load name st with
    | .error msg => .error msg
    | .ok (found, st1) => runSemantic load (next found) st1

/-- The state of the loader when the semantic pass of a script decoded from `filename`
starts: the file is recorded as decoded, the script is entered in `localPerDirIdentMap` and
in `loadedScripts`, and it is recorded as analysed. -/
def LoaderState.enter (st : LoaderState) (scriptName baseDir filename : String)
    (a : PapyrusScript) : LoaderState :=
  let st1 : LoaderState := { st with decoded := st.decoded ++ [filename] }
  let st2 := (st1.insertLocal baseDir scriptName a).insertLoaded filename a
  { st2 with analysed := st2.analysed ++ [a.addr] }

/-- The lambdas `loadPsc`, `loadPas` and `loadPex` of `searchDir`, which differ in the
decoder and in `isPexResolution` only. The script found in `loadedScripts` is returned as it
is; otherwise the file is decoded, the script is entered in both maps, and only then its
semantic pass is run, with `load a` as the `loadScript` of the new context. -/
def loadFile (env : LoaderEnvironment) (load : PapyrusScript → ScriptLoader LoaderState)
    (format : ScriptFormat) (scriptName baseDir filename : String) (st : LoaderState) :
    CapricaResult (PapyrusScript × LoaderState) :=
  match st.findLoaded filename with
  | some found => .ok (found, st)
  | none =>
    match env.decode format filename with
    | .error msg => .error msg
    | .ok a =>
      match runSemantic (load a) (env.semantic a (decide (format ≠ .psc)))
          (st.enter scriptName baseDir filename a) with
      | .error msg => .error msg
      | .ok st1 => .ok (a, st1)

/-- The path `baseDir + "\\" + scriptName + extension` that `searchDir` probes. -/
def probedPath (baseDir scriptName : String) (format : ScriptFormat) : String :=
  baseDir ++ "\\" ++ scriptName ++ format.extension

/-- The lambda `searchDir`: the first of the three files that exists is loaded; `nullptr`
when none exists. -/
def searchDir (env : LoaderEnvironment) (load : PapyrusScript → ScriptLoader LoaderState)
    (baseDir scriptName : String) (st : LoaderState) :
    CapricaResult (Option PapyrusScript × LoaderState) :=
  if env.fileExists (probedPath baseDir scriptName .psc) then
    match loadFile env load .psc scriptName baseDir
        (env.canonical (probedPath baseDir scriptName .psc)) st with
    | .error msg => .error msg
    | .ok (a, st1) => .ok (some a, st1)
  else if env.fileExists (probedPath baseDir scriptName .pas) then
    match loadFile env load .pas scriptName baseDir
        (env.canonical (probedPath baseDir scriptName .pas)) st with
    | .error msg => .error msg
    | .ok (a, st1) => .ok (some a, st1)
  else if env.fileExists (probedPath baseDir scriptName .pex) then
    match loadFile env load .pex scriptName baseDir
        (env.canonical (probedPath baseDir scriptName .pex)) st with
    | .error msg => .error msg
    | .ok (a, st1) => .ok (some a, st1)
  else .ok (none, st)

/-- The search of `loadScript` through a list of directories, the directory of the compiling
script first and then the import directories: the first script found is returned. -/
def searchDirs (env : LoaderEnvironment) (load : PapyrusScript → ScriptLoader LoaderState) :
    List String → String → LoaderState → CapricaResult (Option PapyrusScript × LoaderState)
  | [], _, st => .ok (none, st)
  | dir :: rest, scriptName, st =>
    match searchDir env load dir scriptName st with
    | .error msg => .error msg
    | .ok (some s, st1) => .ok (some s, st1)
    | .ok (none, st1) => searchDirs env load rest scriptName st1

/-- The function `PapyrusResolutionContext::loadScript` of the context that compiles
`script`. The first argument bounds the depth of the loads nested in semantic passes; when
it is used up the call does not return. -/
def loadScript (env : LoaderEnvironment) : Nat → PapyrusScript → ScriptLoader LoaderState
  | 0, _, _, _ => .error "the bound on nested loads is used up"
  | depth + 1, script, name, st =>
    let baseDir := env.parent_path script.sourceFileName
    match st.findLocal baseDir name with
    | some found => .ok (some found, st)
    | none =>
      searchDirs env (loadScript env depth) (baseDir :: env.importDirectories)
        (replaceColons name) st

open PapyrusResolutionContext

theorem PapyrusType_eq_false_of_ne {a b : PapyrusType} (h : PapyrusType_ne a b = true) :
    PapyrusType_eq a b = false := by
  simp [PapyrusType_eq, h]

theorem stricmpChars_comm_zero (a b : List Char) :
    stricmpChars a b = 0 ↔ stricmpChars b a = 0 := by
  induction a generalizing b with
  | nil =>
    cases b with
    | nil => simp [stricmpChars]
    | cons y ys => simp [stricmpChars]
  | cons x xs ih =>
    cases b with
    | nil => simp [stricmpChars]
    | cons y ys =>
      by_cases hxy : tolower x = tolower y
      · by_cases hx : tolower x = 0
        · have hy : tolower y = 0 := hxy ▸ hx
          simp [stricmpChars, hxy, hy]
        · have hy : ¬ tolower y = 0 := hxy ▸ hx
          simp [stricmpChars, hxy, hy, ih ys]
      · have hyx : ¬ tolower y = tolower x := fun h => hxy h.symm
        simp only [stricmpChars, hxy, hyx, if_false]
        omega

theorem stricmp_comm_zero (a b : String) : _stricmp a b = 0 ↔ _stricmp b a = 0 :=
  stricmpChars_comm_zero a.toList b.toList

/-- Unfolding of `isObjectSomeParentOf` at an explicit child object. -/
theorem isObjectSomeParentOf_unfold (child parent : PapyrusObject) :
    isObjectSomeParentOf child parent =
      (if child.addr = parent.addr then true
       else if _stricmp child.name parent.name = 0 then true
       else match child.parentClass with
         | some parentObject => isObjectSomeParentOf parentObject parent
         | none => false) := by
  cases child with
  | mk childAddr childName childParentClass _ _ _ _ =>
    cases childParentClass <;> rfl

theorem isObjectSomeParentOf_of_addr_eq (a b : PapyrusObject) (h : a.addr = b.addr) :
    isObjectSomeParentOf a b = true := by
  rw [isObjectSomeParentOf_unfold]
  simp [h]

/-- Claim C1: when `src != dest`, `canImplicitlyCoerce src dest` is read off the kind of
`dest`: for `Bool`, `String` and `Var` it is true iff `src` is not `None`; for `Float` it is
true iff `src` is `Int`; for `ResolvedObject` it is true iff `src` is a `ResolvedObject`
whose object satisfies `isObjectSomeParentOf` against the one of `dest`; for `None`, `Int`,
`Array`, `Unresolved` and `ResolvedStruct` it is false. When `src == dest` the result is
true, and so an array coerces implicitly to an array iff the element types are equal. -/
theorem canImplicitlyCoerce_by_dest_kind (src dest : PapyrusType) :
    (PapyrusType_ne src dest = true →
      ((dest.type = .Bool ∨ dest.type = .String ∨ dest.type = .Var →
          (canImplicitlyCoerce src dest = true ↔ src.type ≠ .None)) ∧
       (dest.type = .Float →
          (canImplicitlyCoerce src dest = true ↔ src.type = .Int)) ∧
       (∀ destLocation destName destObject,
          dest = .ResolvedObject destLocation destName destObject →
          (canImplicitlyCoerce src dest = true ↔
            ∃ srcLocation srcName srcObject,
              src = .ResolvedObject srcLocation srcName srcObject ∧
              isObjectSomeParentOf srcObject destObject = true)) ∧
       (dest.type = .None ∨ dest.type = .Int ∨ dest.type = .Array ∨
          dest.type = .Unresolved ∨ dest.type = .ResolvedStruct →
          canImplicitlyCoerce src dest = false))) ∧
    (PapyrusType_eq src dest = true → canImplicitlyCoerce src dest = true) ∧
    (∀ la lb A B, canImplicitlyCoerce (.Array la A) (.Array lb B) = true ↔
      PapyrusType_eq A B = true) := by
  refine ⟨fun hne => ?_, fun heq => ?_, fun la lb A B => ?_⟩
  · have hfalse := PapyrusType_eq_false_of_ne hne
    refine ⟨?_, ?_, ?_, ?_⟩
    · intro hk
      cases dest <;> simp [PapyrusType.type] at hk <;>
        simp [canImplicitlyCoerce, hfalse]
    · intro hk
      cases dest <;> simp [PapyrusType.type] at hk
      simp [canImplicitlyCoerce, hfalse]
    · intro destLocation destName destObject hd
      subst hd
      cases src <;> simp [canImplicitlyCoerce, hfalse]
      case ResolvedObject srcLocation srcName srcObject =>
        constructor
        · intro h
          exact ⟨srcLocation, srcName, srcObject, ⟨rfl, rfl, rfl⟩, h⟩
        · rintro ⟨_, _, _, ⟨_, _, rfl⟩, h⟩
          exact h
    · intro hk
      cases dest <;> simp [PapyrusType.type] at hk <;>
        simp [canImplicitlyCoerce, hfalse]
  · simp [canImplicitlyCoerce, heq]
  · unfold canImplicitlyCoerce
    by_cases h : PapyrusType_eq (.Array la A) (.Array lb B) = true
    · have h2 : PapyrusType_eq A B = true := by
        simpa [PapyrusType_eq, PapyrusType_ne] using h
      simp [h, h2]
    · have h2 : ¬ PapyrusType_eq A B = true := by
        simpa [PapyrusType_eq, PapyrusType_ne] using h
      simp [h, h2]

/-- Instance of C1: `Int` differs from `Float` and coerces implicitly to it. -/
theorem canImplicitlyCoerce_by_dest_kind_witness :
    PapyrusType_ne (.Int exampleLocation) (.Float exampleLocation) = true ∧
    canImplicitlyCoerce (.Int exampleLocation) (.Float exampleLocation) = true :=
  ⟨by decide,
   (((canImplicitlyCoerce_by_dest_kind (.Int exampleLocation) (.Float exampleLocation)).1
      (by decide)).2.1 (by decide)).2 (by decide)⟩

/-- Claim C2: for `src != dest`, an implicit coercion from `src` to `dest` is also a legal
explicit cast. -/
theorem canExplicitlyCast_of_canImplicitlyCoerce (src dest : PapyrusType)
    (_hne : PapyrusType_ne src dest = true)
    (h : canImplicitlyCoerce src dest = true) :
    canExplicitlyCast src dest = true := by
  simp [canExplicitlyCast, h]

/-- Instance of C2: `Int` to `Float`. -/
theorem canExplicitlyCast_of_canImplicitlyCoerce_witness :
    canExplicitlyCast (.Int exampleLocation) (.Float exampleLocation) = true :=
  canExplicitlyCast_of_canImplicitlyCoerce (.Int exampleLocation) (.Float exampleLocation)
    (by decide) (by decide)

/-- Claim C3: for two distinct objects whose names differ under the case-insensitive
comparison, where the parent class of `child` is `parent` and `parent` has no parent class:
the child type coerces implicitly to the parent type, the parent type does not coerce
implicitly to the child type, and the parent type can be cast explicitly to the child
type. -/
theorem object_upcast_and_downcast (child parent : PapyrusObject)
    (childLocation parentLocation : CapricaFileLocation) (childName parentName : String)
    (hentity : child.addr ≠ parent.addr)
    (hname : _stricmp child.name parent.name ≠ 0)
    (hextends : child.tryGetParentClass = some parent)
    (hroot : parent.tryGetParentClass = none) :
    canImplicitlyCoerce (.ResolvedObject childLocation childName child)
        (.ResolvedObject parentLocation parentName parent) = true ∧
    canImplicitlyCoerce (.ResolvedObject parentLocation parentName parent)
        (.ResolvedObject childLocation childName child) = false ∧
    canExplicitlyCast (.ResolvedObject parentLocation parentName parent)
        (.ResolvedObject childLocation childName child) = true := by
  have hname2 : _stricmp parent.name child.name ≠ 0 :=
    fun h => hname ((stricmp_comm_zero _ _).1 h)
  have hentity2 : parent.addr ≠ child.addr := fun h => hentity h.symm
  have hup : isObjectSomeParentOf child parent = true := by
    simp only [PapyrusObject.tryGetParentClass] at hextends
    rw [isObjectSomeParentOf_unfold]
    simp [hentity, hname, hextends, isObjectSomeParentOf_of_addr_eq]
  have hdown : isObjectSomeParentOf parent child = false := by
    simp only [PapyrusObject.tryGetParentClass] at hroot
    rw [isObjectSomeParentOf_unfold]
    simp [hentity2, hname2, hroot]
  refine ⟨?_, ?_, ?_⟩
  · simp [canImplicitlyCoerce, PapyrusType_eq, PapyrusType_ne, hentity, hup]
  · simp [canImplicitlyCoerce, PapyrusType_eq, PapyrusType_ne, hentity2, hdown]
  · simp [canExplicitlyCast, canImplicitlyCoerce, PapyrusType_eq, PapyrusType_ne, hentity2,
      hdown, hup, PapyrusType.type]

/-- Instance of C3 on the example hierarchy `Child extends Parent`. -/
theorem object_upcast_and_downcast_witness :
    canImplicitlyCoerce (.ResolvedObject exampleLocation "Child" exampleChild)
        (.ResolvedObject exampleLocation "Parent" exampleParent) = true ∧
    canImplicitlyCoerce (.ResolvedObject exampleLocation "Parent" exampleParent)
        (.ResolvedObject exampleLocation "Child" exampleChild) = false ∧
    canExplicitlyCast (.ResolvedObject exampleLocation "Parent" exampleParent)
        (.ResolvedObject exampleLocation "Child" exampleChild) = true :=
  object_upcast_and_downcast exampleChild exampleParent exampleLocation exampleLocation
    "Child" "Parent" (by decide) (by decide) rfl rfl

/-- Claim C4, as stated, fails: `Child` is-a `Parent`, yet an array of `Child` cannot be
cast explicitly to an array of `Parent`. -/
theorem array_upcast_not_castable :
    ¬ (canExplicitlyCast
          (.Array exampleLocation (.ResolvedObject exampleLocation "Child" exampleChild))
          (.Array exampleLocation (.ResolvedObject exampleLocation "Parent" exampleParent))
        = true ↔
        (isObjectSomeParentOf exampleChild exampleParent = true ∨
         isObjectSomeParentOf exampleParent exampleChild = true)) := by
  decide

/-- Claim C4, amended: an array of objects `A` can be cast explicitly to an array of objects
`B` exactly when `isObjectSomeParentOf B A` holds, that is when `B` is `A` itself or
is-a `A` (the down-cast direction). -/
theorem canExplicitlyCast_array_of_object (A B : PapyrusObject)
    (la lb ea eb : CapricaFileLocation) (na nb : String) :
    canExplicitlyCast (.Array la (.ResolvedObject ea na A))
        (.Array lb (.ResolvedObject eb nb B)) =
      isObjectSomeParentOf B A := by
  by_cases h : A.addr = B.addr
  · simp [canExplicitlyCast, canImplicitlyCoerce, PapyrusType_eq, PapyrusType_ne, h,
      isObjectSomeParentOf_of_addr_eq B A h.symm]
  · simp [canExplicitlyCast, canImplicitlyCoerce, PapyrusType_eq, PapyrusType_ne, h,
      PapyrusType.type]

/-- Claim C5: `canExplicitlyCast` is true whenever both kinds are among `Int`, `Float`,
`String`, `Bool`, `Var`; from `Var` it is true iff the destination is not `None`; from
`None` it is true iff the destination is `None`. -/
theorem canExplicitlyCast_scalar (src dest : PapyrusType) :
    (isScalarCastKind src.type = true → isScalarCastKind dest.type = true →
      canExplicitlyCast src dest = true) ∧
    (src.type = .Var → (canExplicitlyCast src dest = true ↔ dest.type ≠ .None)) ∧
    (src.type = .None → (canExplicitlyCast src dest = true ↔ dest.type = .None)) := by
  refine ⟨?_, ?_, ?_⟩
  · intro hs hd
    cases src <;> simp [isScalarCastKind, PapyrusType.type] at hs <;>
      cases dest <;> simp [isScalarCastKind, PapyrusType.type] at hd <;>
        simp [canExplicitlyCast, canImplicitlyCoerce, PapyrusType_eq, PapyrusType_ne,
          PapyrusType.type]
  · intro hs
    cases src <;> simp [PapyrusType.type] at hs
    cases dest <;>
      simp [canExplicitlyCast, canImplicitlyCoerce, PapyrusType_eq, PapyrusType_ne,
        PapyrusType.type]
  · intro hs
    cases src <;> simp [PapyrusType.type] at hs
    cases dest <;>
      simp [canExplicitlyCast, canImplicitlyCoerce, PapyrusType_eq, PapyrusType_ne,
        PapyrusType.type]

/-- Instance of C5: `String` casts to `Int`, `Var` casts to an array, `None` does not cast
to `Bool`. -/
theorem canExplicitlyCast_scalar_witness :
    canExplicitlyCast (.String exampleLocation) (.Int exampleLocation) = true ∧
    canExplicitlyCast (.Var exampleLocation)
      (.Array exampleLocation (.Int exampleLocation)) = true ∧
    ¬ canExplicitlyCast (.None exampleLocation) (.Bool exampleLocation) = true :=
  ⟨(canExplicitlyCast_scalar (.String exampleLocation) (.Int exampleLocation)).1 rfl rfl,
   ((canExplicitlyCast_scalar (.Var exampleLocation)
      (.Array exampleLocation (.Int exampleLocation))).2.1 rfl).2 (by decide),
   fun h => absurd
    (((canExplicitlyCast_scalar (.None exampleLocation) (.Bool exampleLocation)).2.2 rfl).1 h)
    (by decide)⟩

/-! ## Properties of expression coercion -/

/-- On every target whose kind is not `None`, `canImplicitlyCoerceExpression` returns
`canImplicitlyCoerce` of the result type, overlaid with the literal-`None` rule on `Var`,
`Array`, `ResolvedObject` and `ResolvedStruct` targets. -/
theorem canImplicitlyCoerceExpression_of_kind_ne_None (expr : PapyrusExpression)
    (target resultType : PapyrusType) (hr : expr.resultType = .ok resultType)
    (hk : target.type ≠ .None) :
    canImplicitlyCoerceExpression expr target =
      .ok (canImplicitlyCoerce resultType target ||
        ((target.type == PapyrusType.Kind.Var || target.type == PapyrusType.Kind.Array ||
            target.type == PapyrusType.Kind.ResolvedObject ||
            target.type == PapyrusType.Kind.ResolvedStruct) &&
          expr.isLiteral && resultType.type == PapyrusType.Kind.None)) := by
  cases target <;> simp [PapyrusType.type] at hk <;>
    simp [canImplicitlyCoerceExpression, hr, PapyrusType.type] <;>
    cases expr.isLiteral <;> cases resultType <;> simp [PapyrusType.type]

/-- Claim C6, evaluated on the code: with a target of kind `None` the call does not return
a boolean, it ends in the fatal of the `default:` branch. -/
theorem canImplicitlyCoerceExpression_target_None :
    canImplicitlyCoerceExpression (.Other exampleLocation (.Int exampleLocation))
      (.None exampleLocation) = .error "Unknown PapyrusTypeKind!" := by
  rfl

/-- Claim C7, as stated, fails: coercing a literal `None` to an object type does not return
the literal itself. -/
theorem coerceExpression_literal_None_is_wrapped :
    coerceExpression (.Literal exampleLocation (.None exampleLocation))
        (.ResolvedObject exampleLocation "Parent" exampleParent) ≠
      .ok (.Literal exampleLocation (.None exampleLocation), []) := by
  simp [coerceExpression, canImplicitlyCoerceExpression, PapyrusExpression.resultType,
    PapyrusValue.getPapyrusType, PapyrusType_ne, PapyrusType.type,
    PapyrusExpression.isLiteral, PapyrusExpression.foldIntLiteralToFloat]

/-- Claim C7, amended: for every object type `T`, coercing a literal `None` to `T` reports
no error and returns a `Cast` node to `T` whose inner expression is the literal; coercing a
non-literal expression of type `None` to `T` reports a coercion error and returns the
expression. -/
theorem coerceExpression_None_to_object (object : PapyrusObject)
    (targetLocation : CapricaFileLocation) (targetName : String) :
    (∀ location valueLocation,
      coerceExpression (.Literal location (.None valueLocation))
          (.ResolvedObject targetLocation targetName object) =
        .ok (.Cast location (.ResolvedObject targetLocation targetName object)
              (.Literal location (.None valueLocation)), [])) ∧
    (∀ expr resultType, expr.isLiteral = false → expr.resultType = .ok resultType →
      resultType.type = .None →
      ∃ err, coerceExpression expr (.ResolvedObject targetLocation targetName object) =
        .ok (expr, [err])) := by
  constructor
  · intro location valueLocation
    simp [coerceExpression, canImplicitlyCoerceExpression, PapyrusExpression.resultType,
      PapyrusValue.getPapyrusType, PapyrusType_ne, PapyrusType.type,
      PapyrusExpression.isLiteral, PapyrusExpression.foldIntLiteralToFloat,
      PapyrusExpression.location]
  · intro expr resultType hlit hr hk
    cases resultType <;> simp [PapyrusType.type] at hk
    simp [coerceExpression, canImplicitlyCoerceExpression, hr, hlit, PapyrusType_ne,
      PapyrusType.type, canImplicitlyCoerce, PapyrusType_eq]

/-- Instance of C7: a non-literal expression of type `None` does not coerce to an object. -/
theorem coerceExpression_None_to_object_witness :
    ∃ err, coerceExpression (.Other exampleLocation (.None exampleLocation))
        (.ResolvedObject exampleLocation "Parent" exampleParent) =
      .ok (.Other exampleLocation (.None exampleLocation), [err]) :=
  (coerceExpression_None_to_object exampleParent exampleLocation "Parent").2
    (.Other exampleLocation (.None exampleLocation)) (.None exampleLocation) rfl rfl rfl

/-- An integer of magnitude below `2 ^ 24` converts to single precision exactly. -/
theorem floatOfInt_exact (i : Int) (h : i.natAbs < 2 ^ 24) : floatOfInt i = (i : Rat) := by
  unfold floatOfInt roundToSignificand24
  by_cases hneg : i < 0
  · simp only [hneg, h, if_true]
    have h1 : (i.natAbs : Int) = -i := by omega
    have h2 : ((i.natAbs : Nat) : Rat) = (((i.natAbs : Nat) : Int) : Rat) :=
      (Int.cast_natCast _).symm
    rw [h2, h1]; simp
  · simp only [hneg, h, if_true, if_false]
    have h1 : (i.natAbs : Int) = i := by omega
    have h2 : ((i.natAbs : Nat) : Rat) = (((i.natAbs : Nat) : Int) : Rat) :=
      (Int.cast_natCast _).symm
    rw [h2, h1]

/-- Claim C8: coercing an integer literal to `Float` reports no error and returns the same
literal node, not a cast, with the tag of its value changed to `Float` and the float value
set to the conversion of the integer; for the integer `3` that value is `3.0`. -/
theorem coerceExpression_int_literal_to_Float :
    (∀ (location valueLocation targetLocation : CapricaFileLocation) (n : Int),
      coerceExpression (.Literal location (.Int valueLocation n)) (.Float targetLocation) =
        .ok (.Literal location (.Float valueLocation (floatOfInt n)), [])) ∧
    floatOfInt 3 = 3 := by
  constructor
  · intro location valueLocation targetLocation n
    simp [coerceExpression, canImplicitlyCoerceExpression, PapyrusExpression.resultType,
      PapyrusValue.getPapyrusType, PapyrusType_ne, PapyrusType.type, canImplicitlyCoerce,
      PapyrusType_eq, PapyrusExpression.foldIntLiteralToFloat]
  · decide

/-- The three outcomes of `coerceExpression` on every target whose kind is not `None`: the
expression itself when the types are equal; one error and the expression itself when it is
not coercible; otherwise, unless it is an integer literal coerced to `Float`, a `Cast`
node to the target around the expression. -/
theorem coerceExpression_of_kind_ne_None (expr : PapyrusExpression)
    (target resultType : PapyrusType) (hr : expr.resultType = .ok resultType) :
    (PapyrusType_ne resultType target = false →
      coerceExpression expr target = .ok (expr, [])) ∧
    (PapyrusType_ne resultType target = true →
      canImplicitlyCoerceExpression expr target = .ok false →
      ∃ err, coerceExpression expr target = .ok (expr, [err])) ∧
    (PapyrusType_ne resultType target = true →
      canImplicitlyCoerceExpression expr target = .ok true →
      ¬ (target.type = .Float ∧ ∃ location valueLocation i,
          expr = .Literal location (.Int valueLocation i)) →
      coerceExpression expr target = .ok (.Cast expr.location target expr, [])) := by
  refine ⟨fun hne => ?_, fun hne hc => ?_, fun hne hc hfold => ?_⟩
  · simp [coerceExpression, hr, hne]
  · simp [coerceExpression, hr, hne, hc]
  · by_cases hk : target.type = .Float
    · have hnone : expr.foldIntLiteralToFloat = none := by
        cases expr with
        | Literal location value =>
          cases value <;> simp [PapyrusExpression.foldIntLiteralToFloat]
          case Int valueLocation i => exact hfold ⟨hk, location, valueLocation, i, rfl⟩
        | Cast _ _ _ => rfl
        | Other _ _ => rfl
      simp [coerceExpression, hr, hne, hc, hnone]
    · simp [coerceExpression, hr, hne, hc, hk]

/-- Claim C9, evaluated on the code: for an expression of type `Int` and a target of kind
`None`, `coerceExpression` neither reports an error nor returns an expression, it ends in
the fatal raised by `canImplicitlyCoerceExpression`. -/
theorem coerceExpression_target_None :
    coerceExpression (.Other exampleLocation (.Int exampleLocation))
      (.None exampleLocation) = .error "Unknown PapyrusTypeKind!" := by
  rfl

/-- Claim C10: `coerceDefaultValue` always returns, and it reports an error iff none of
these holds: the value is `Invalid`; the type of the value equals the target; the value is
an `Int` and the target is `Float`; the value is `None` and the target is an `Array`, a
`ResolvedObject` or a `ResolvedStruct`. Without an error the result is the value itself,
except that an `Int` value with a `Float` target becomes the `Float` value of the converted
integer at the same location. A `None` value with a `Var`, `Bool` or `String` target is an
error. -/
theorem coerceDefaultValue_spec (v : PapyrusValue) (t : PapyrusType) :
    ∃ result errors, coerceDefaultValue v t = .ok (result, errors) ∧
      (errors ≠ [] ↔
        ¬ (v.type = .Invalid ∨
           (∃ vt, v.getPapyrusType = .ok vt ∧ PapyrusType_eq vt t = true) ∨
           (v.type = .Int ∧ t.type = .Float) ∨
           (v.type = .None ∧
             (t.type = .Array ∨ t.type = .ResolvedObject ∨ t.type = .ResolvedStruct)))) ∧
      (errors = [] →
        (∀ location i, v = .Int location i → t.type = .Float →
          result = .Float location (floatOfInt i)) ∧
        (¬ (v.type = .Int ∧ t.type = .Float) → result = v)) ∧
      (v.type = .None → t.type = .Var ∨ t.type = .Bool ∨ t.type = .String →
        errors ≠ []) := by
  cases v <;> cases t <;> refine ⟨_, _, rfl, ?_⟩ <;>
    simp [PapyrusValue.type, PapyrusType.type, PapyrusValue.getPapyrusType, PapyrusType_eq,
      PapyrusType_ne]

/-- Instance of C10: a `None` default value for a `Var` parameter is an error. -/
theorem coerceDefaultValue_spec_witness :
    ∃ result errors,
      coerceDefaultValue (.None exampleLocation) (.Var exampleLocation) =
        .ok (result, errors) ∧ errors ≠ [] := by
  obtain ⟨result, errors, h, _, _, herr⟩ :=
    coerceDefaultValue_spec (.None exampleLocation) (.Var exampleLocation)
  exact ⟨result, errors, h, herr rfl (Or.inl rfl)⟩

/-! ## Properties of type equality -/

theorem tolower_eq_zero (c : Char) : tolower c = 0 ↔ c.toNat = 0 := by
  unfold tolower
  split <;> omega

/-- The value of `_stricmp` is zero exactly when the two C strings agree after
lower-casing. -/
theorem stricmpChars_eq_zero_iff (a b : List Char) :
    stricmpChars a b = 0 ↔
      (a.takeWhile (fun c => decide (c.toNat ≠ 0))).map tolower =
        (b.takeWhile (fun c => decide (c.toNat ≠ 0))).map tolower := by
  induction a generalizing b with
  | nil =>
    cases b with
    | nil => simp [stricmpChars]
    | cons y ys =>
      by_cases hy : y.toNat = 0
      · have := (tolower_eq_zero y).2 hy
        simp [stricmpChars, hy, this]
      · have : tolower y ≠ 0 := fun h => hy ((tolower_eq_zero y).1 h)
        simp [stricmpChars, hy]
        omega
  | cons x xs ih =>
    cases b with
    | nil =>
      by_cases hx : x.toNat = 0
      · have := (tolower_eq_zero x).2 hx
        simp [stricmpChars, hx, this]
      · have : tolower x ≠ 0 := fun h => hx ((tolower_eq_zero x).1 h)
        simp [stricmpChars, hx]
        omega
    | cons y ys =>
      by_cases hxy : tolower x = tolower y
      · by_cases hx : x.toNat = 0
        · have hx0 := (tolower_eq_zero x).2 hx
          have hy : y.toNat = 0 := (tolower_eq_zero y).1 (hxy ▸ hx0)
          simp [stricmpChars, hxy, hx, hy, (tolower_eq_zero y).2 hy]
        · have hx0 : tolower x ≠ 0 := fun h => hx ((tolower_eq_zero x).1 h)
          have hy0 : tolower y ≠ 0 := hxy ▸ hx0
          have hy : y.toNat ≠ 0 := fun h => hy0 ((tolower_eq_zero y).2 h)
          simp [stricmpChars, hxy, hx, hy, hy0, ih ys]
      · have hne : (tolower x : Int) - (tolower y : Int) ≠ 0 := by omega
        simp only [stricmpChars, hxy, if_false]
        refine ⟨fun h => absurd h hne, fun h => ?_⟩
        exfalso
        by_cases hx : x.toNat = 0
        · have hx0 := (tolower_eq_zero x).2 hx
          have hy : y.toNat ≠ 0 := fun h =>
            hxy (hx0.trans ((tolower_eq_zero y).2 h).symm)
          simp [hx, hy] at h
        · by_cases hy : y.toNat = 0
          · simp [hx, hy] at h
          · simp [hx, hy] at h
            exact hxy h.1

theorem stricmp_eq_zero_iff (a b : String) : _stricmp a b = 0 ↔ equalIgnoringCase a b :=
  stricmpChars_eq_zero_iff a.toList b.toList

theorem stricmp_self (a : String) : _stricmp a a = 0 :=
  (stricmp_eq_zero_iff a a).2 rfl

theorem PapyrusType_ne_mapLocation (f g : CapricaFileLocation → CapricaFileLocation)
    (a b : PapyrusType) :
    PapyrusType_ne (a.mapLocation f) (b.mapLocation g) = PapyrusType_ne a b := by
  induction a generalizing b with
  | Array l e ih =>
    cases b <;> simp [PapyrusType.mapLocation, PapyrusType_ne, ih]
  | _ => cases b <;> simp [PapyrusType.mapLocation, PapyrusType_ne]

theorem PapyrusType_ne_self (t : PapyrusType) : PapyrusType_ne t t = false := by
  induction t with
  | Array l e ih => simpa [PapyrusType_ne] using ih
  | Unresolved l n => simp [PapyrusType_ne, stricmp_self]
  | _ => simp [PapyrusType_ne]

theorem PapyrusType_ne_comm (a b : PapyrusType) : PapyrusType_ne a b = PapyrusType_ne b a := by
  induction a generalizing b with
  | Array l e ih => cases b <;> simp [PapyrusType_ne, ih]
  | Unresolved l n =>
    cases b <;> simp [PapyrusType_ne]
    case Unresolved l2 m => exact stricmp_comm_zero n m
  | ResolvedStruct l n s =>
    cases b <;> simp [PapyrusType_ne]
    case ResolvedStruct l2 m t => exact eq_comm
  | ResolvedObject l n o =>
    cases b <;> simp [PapyrusType_ne]
    case ResolvedObject l2 m p => exact eq_comm
  | _ => cases b <;> simp [PapyrusType_ne]

/-- Claim C11: `a == b` requires the kinds to match; with matching kinds, scalar types are
always equal, arrays are equal iff their element types are, unresolved types iff their names
are equal ignoring case, resolved structs and objects iff they refer to the same entity.
Replacing the source locations of either type never changes the result, and `a != b` is the
negation of `a == b`. -/
theorem PapyrusType_eq_characterisation :
    (∀ a b, PapyrusType_eq a b = true → a.type = b.type) ∧
    (∀ a b, a.type = b.type → isScalarKind a.type = true → PapyrusType_eq a b = true) ∧
    (∀ la lb a b, PapyrusType_eq (.Array la a) (.Array lb b) = PapyrusType_eq a b) ∧
    (∀ la lb n m, PapyrusType_eq (.Unresolved la n) (.Unresolved lb m) = true ↔
      equalIgnoringCase n m) ∧
    (∀ la lb n m s t,
      PapyrusType_eq (.ResolvedStruct la n s) (.ResolvedStruct lb m t) = true ↔
        s.addr = t.addr) ∧
    (∀ la lb n m o p,
      PapyrusType_eq (.ResolvedObject la n o) (.ResolvedObject lb m p) = true ↔
        o.addr = p.addr) ∧
    (∀ (f g : CapricaFileLocation → CapricaFileLocation) a b,
      PapyrusType_eq (a.mapLocation f) (b.mapLocation g) = PapyrusType_eq a b) ∧
    (∀ a b, PapyrusType_ne a b = !(PapyrusType_eq a b)) := by
  refine ⟨?_, ?_, ?_, ?_, ?_, ?_, ?_, ?_⟩
  · intro a b h
    cases a <;> cases b <;> simp_all [PapyrusType_eq, PapyrusType_ne, PapyrusType.type]
  · intro a b hk hs
    cases a <;> cases b <;>
      simp_all [PapyrusType_eq, PapyrusType_ne, PapyrusType.type, isScalarKind]
  · intro la lb a b
    simp [PapyrusType_eq, PapyrusType_ne]
  · intro la lb n m
    simp [PapyrusType_eq, PapyrusType_ne, stricmp_eq_zero_iff]
  · intro la lb n m s t
    simp [PapyrusType_eq, PapyrusType_ne]
  · intro la lb n m o p
    simp [PapyrusType_eq, PapyrusType_ne]
  · intro f g a b
    simp [PapyrusType_eq, PapyrusType_ne_mapLocation]
  · intro a b
    simp [PapyrusType_eq]

/-- Instance of C11: two `Int` types at different locations are equal, and two unresolved
types whose names differ only in case are equal. -/
theorem PapyrusType_eq_characterisation_witness :
    PapyrusType_eq (.Int exampleLocation) (.Int otherLocation) = true ∧
    PapyrusType_eq (.Unresolved exampleLocation "ObjectReference")
      (.Unresolved otherLocation "OBJECTREFERENCE") = true :=
  ⟨PapyrusType_eq_characterisation.2.1 (.Int exampleLocation) (.Int otherLocation) rfl rfl,
   (PapyrusType_eq_characterisation.2.2.2.1 exampleLocation otherLocation "ObjectReference"
      "OBJECTREFERENCE").2 (by unfold equalIgnoringCase; decide)⟩

/-- Claim C12: type equality is reflexive and symmetric, for every type, nested arrays
included; unresolved names are compared ignoring case and resolved forms by the entity they
refer to. -/
theorem PapyrusType_eq_refl_symm :
    (∀ t, PapyrusType_eq t t = true) ∧
    (∀ a b, PapyrusType_eq a b = true ↔ PapyrusType_eq b a = true) := by
  constructor
  · intro t
    simp [PapyrusType_eq, PapyrusType_ne_self]
  · intro a b
    simp [PapyrusType_eq, PapyrusType_ne_comm a b]

/-! ## Properties of imports and type resolution -/

/-- Claim C13, as stated, fails: after importing the same script twice into an empty import
list, `importedScripts` holds two entries for it, not one. -/
theorem addImport_twice_keeps_both_entries :
    addImport exampleLoader {} exampleLocation "Utility" () =
      .ok ({ importedScripts := [some exampleScript] }, [], [], ()) ∧
    addImport exampleLoader { importedScripts := [some exampleScript] } otherLocation
        "utility" () =
      .ok ({ importedScripts := [some exampleScript, some exampleScript] }, [],
        [⟨4002, otherLocation, "utility"⟩], ()) ∧
    importCount { importedScripts := [some exampleScript, some exampleScript] }
      exampleScript ≠ 1 :=
  ⟨rfl, rfl, by decide⟩

/-- Claim C13, amended: starting from an empty import list, two calls of `addImport` whose
names load the same script leave `importedScripts` with two entries for that script, the
script being appended by each call; warning 4002 is reported once by the second call and not
by the first, and no error is reported. -/
theorem addImport_twice {σ : Type} (loadScript : ScriptLoader σ)
    (ctx : PapyrusResolutionContext) (location1 location2 : CapricaFileLocation)
    (name1 name2 : String) (st0 st1 st2 : σ) (sc1 sc2 : PapyrusScript)
    (hempty : ctx.importedScripts = [])
    (hload1 : loadScript name1 st0 = .ok (some sc1, st1))
    (hload2 : loadScript name2 st1 = .ok (some sc2, st2))
    (hsame : sc1.addr = sc2.addr) :
    addImport loadScript ctx location1 name1 st0 =
      .ok ({ ctx with importedScripts := [some sc1] }, [], [], st1) ∧
    addImport loadScript { ctx with importedScripts := [some sc1] } location2 name2 st1 =
      .ok ({ ctx with importedScripts := [some sc1, some sc2] }, [],
        [⟨4002, location2, name2⟩], st2) := by
  constructor
  · simp [addImport, hload1, hempty]
  · simp [addImport, hload2, scriptPointerEq, hsame]

/-- Instance of C13 with the example loader. -/
theorem addImport_twice_witness :
    addImport exampleLoader {} exampleLocation "Utility" () =
      .ok ({ importedScripts := [some exampleScript] }, [], [], ()) ∧
    addImport exampleLoader { importedScripts := [some exampleScript] } otherLocation
        "utility" () =
      .ok ({ importedScripts := [some exampleScript, some exampleScript] }, [],
        [⟨4002, otherLocation, "utility"⟩], ()) :=
  addImport_twice exampleLoader {} exampleLocation otherLocation "Utility" "utility" () () ()
    exampleScript exampleScript rfl rfl rfl rfl

theorem resolveUnresolvedType_kind {σ : Type} (loadScript : ScriptLoader σ)
    (config : CapricaConfig) (ctx : PapyrusResolutionContext)
    (location : CapricaFileLocation) (name : String) (st st1 : σ) (r : PapyrusType)
    (h : resolveUnresolvedType loadScript config ctx location name st = .ok (r, st1)) :
    containsUnresolved r = false := by
  unfold resolveUnresolvedType at h
  repeat' split at h
  all_goals first
    | (cases h; done)
    | (cases h; rfl)

/-- Claim C14: whenever `resolveType` returns, its result has no `Unresolved` kind at any
array nesting depth; a type that is neither an array nor unresolved is returned unchanged,
without loading a script; and resolving an array returns exactly when resolving its element
type returns, with the array of the resolved element type at the same location. -/
theorem resolveType_spec {σ : Type} (loadScript : ScriptLoader σ) (config : CapricaConfig)
    (ctx : PapyrusResolutionContext) :
    (∀ t st r st1, resolveType loadScript config ctx t st = .ok (r, st1) →
      containsUnresolved r = false) ∧
    (∀ t st, t.type ≠ .Array → t.type ≠ .Unresolved →
      resolveType loadScript config ctx t st = .ok (t, st)) ∧
    (∀ location elementType st r st1,
      resolveType loadScript config ctx (.Array location elementType) st = .ok (r, st1) ↔
        ∃ resolved, resolveType loadScript config ctx elementType st = .ok (resolved, st1) ∧
          r = .Array location resolved) := by
  have harray : ∀ location elementType st r st1,
      resolveType loadScript config ctx (.Array location elementType) st = .ok (r, st1) ↔
        ∃ resolved, resolveType loadScript config ctx elementType st = .ok (resolved, st1) ∧
          r = .Array location resolved := by
    intro location elementType st r st1
    rw [resolveType]
    cases hres : resolveType loadScript config ctx elementType st with
    | error msg => simp
    | ok p =>
      obtain ⟨resolved, st2⟩ := p
      simp only [Except.ok.injEq, Prod.mk.injEq]
      constructor
      · rintro ⟨rfl, rfl⟩
        exact ⟨resolved, ⟨rfl, rfl⟩, rfl⟩
      · rintro ⟨resolved2, ⟨rfl, rfl⟩, rfl⟩
        exact ⟨rfl, rfl⟩
  refine ⟨?_, ?_, harray⟩
  · intro t
    induction t with
    | Array location elementType ih =>
      intro st r st1 h
      obtain ⟨resolved, hres, rfl⟩ := (harray location elementType st r st1).1 h
      simpa [containsUnresolved] using ih st resolved st1 hres
    | Unresolved location name =>
      intro st r st1 h
      rw [resolveType] at h
      exact resolveUnresolvedType_kind loadScript config ctx location name st st1 r h
    | _ =>
      intro st r st1 h
      simp only [resolveType, Except.ok.injEq, Prod.mk.injEq] at h
      obtain ⟨rfl, _⟩ := h
      rfl
  · intro t st hna hnu
    cases t <;> simp [PapyrusType.type] at hna hnu <;> simp [resolveType]

/-- Instance of C14: an object type is returned unchanged even by a loader that never
returns. -/
theorem resolveType_spec_witness :
    resolveType failingLoader {} {} (.ResolvedObject exampleLocation "Parent" exampleParent) ()
      = .ok (.ResolvedObject exampleLocation "Parent" exampleParent, ()) :=
  (resolveType_spec failingLoader {} {}).2.1
    (.ResolvedObject exampleLocation "Parent" exampleParent) () (by decide) (by decide)

theorem splitAtHash_eq_none (name : String) (h : '#' ∉ name.toList) :
    splitAtHash name = none := by
  unfold splitAtHash
  rw [List.span_eq_take_drop]
  have hdrop : List.dropWhile (fun c => c != '#') name.toList = [] := by
    rw [List.dropWhile_eq_nil_iff]
    intro x hx
    have : x ≠ '#' := fun hxe => h (hxe ▸ hx)
    simpa using this
  rw [hdrop]

theorem findImportedStruct_first (name : String) (before : List PapyrusScript)
    (sc : PapyrusScript) (after : List (Option PapyrusScript)) (s : PapyrusStruct)
    (hbefore : ∀ b ∈ before, findStructInObjects name b.objects = none)
    (hsc : findStructInObjects name sc.objects = some s) :
    findImportedStruct name (before.map some ++ some sc :: after) = .ok (some s) := by
  induction before with
  | nil => simp [findImportedStruct, hsc]
  | cons b rest ih =>
    have hb := hbefore b (List.mem_cons_self _ _)
    have hrest : ∀ x ∈ rest, findStructInObjects name x.objects = none :=
      fun x hx => hbefore x (List.mem_cons_of_mem _ hx)
    simp [findImportedStruct, hb, ih hrest]

theorem findImportedStruct_none (name : String) (imports : List PapyrusScript)
    (hnone : ∀ b ∈ imports, findStructInObjects name b.objects = none) :
    findImportedStruct name (imports.map some) = .ok none := by
  induction imports with
  | nil => simp [findImportedStruct]
  | cons b rest ih =>
    have hb := hnone b (List.mem_cons_self _ _)
    have hrest : ∀ x ∈ rest, findStructInObjects name x.objects = none :=
      fun x hx => hnone x (List.mem_cons_of_mem _ hx)
    simp [findImportedStruct, hb, ih hrest]

/-- Claim C15: for an unresolved type whose name has no `#`, with names compared by
`_stricmp`: a struct of the enclosing object wins; else the enclosing object itself, when
its name matches; else the struct found in the first imported script, in insertion order,
that has a matching struct; else the object of that name in the script loaded under that
name; else the call is fatal. In the first three cases the loader is not called: the result
holds for every loader and the loader state is unchanged. -/
theorem resolveType_precedence {σ : Type} (loadScript : ScriptLoader σ)
    (config : CapricaConfig) (ctx : PapyrusResolutionContext)
    (location : CapricaFileLocation) (name : String) (st : σ)
    (hhash : '#' ∉ name.toList) :
    (∀ object s, ctx.object = some object → findStruct name object.structs = some s →
      resolveType loadScript config ctx (.Unresolved location name) st =
        .ok (.ResolvedStruct location name s, st)) ∧
    (∀ object, ctx.object = some object → findStruct name object.structs = none →
      _stricmp object.name name = 0 →
      resolveType loadScript config ctx (.Unresolved location name) st =
        .ok (.ResolvedObject location name object, st)) ∧
    ((∀ object, ctx.object = some object →
        findStruct name object.structs = none ∧ _stricmp object.name name ≠ 0) →
      (∀ (before : List PapyrusScript) sc after s,
        ctx.importedScripts = before.map some ++ some sc :: after →
        (∀ b ∈ before, findStructInObjects name b.objects = none) →
        findStructInObjects name sc.objects = some s →
        resolveType loadScript config ctx (.Unresolved location name) st =
          .ok (.ResolvedStruct location name s, st)) ∧
      (∀ (imports : List PapyrusScript), ctx.importedScripts = imports.map some →
        (∀ b ∈ imports, findStructInObjects name b.objects = none) →
        (∀ sc st1 obj, loadScript name st = .ok (some sc, st1) →
          sc.objects.find? (fun o => decide (_stricmp o.name name = 0)) = some obj →
          resolveType loadScript config ctx (.Unresolved location name) st =
            .ok (.ResolvedObject location name obj, st1)) ∧
        ((∀ sc st1, loadScript name st = .ok (some sc, st1) →
            sc.objects.find? (fun o => decide (_stricmp o.name name = 0)) = none) →
          ∃ msg, resolveType loadScript config ctx (.Unresolved location name) st =
            .error msg))) := by
  have hsplit := splitAtHash_eq_none name hhash
  refine ⟨?_, ?_, fun hobj => ⟨?_, fun imports himports hnone => ⟨?_, ?_⟩⟩⟩
  · intro object s ho hs
    simp [resolveType, resolveUnresolvedType, hsplit, ho, hs]
  · intro object ho hs hn
    simp [resolveType, resolveUnresolvedType, hsplit, ho, hs, hn]
  · intro before sc after s himports hbefore hsc
    have himp := findImportedStruct_first name before sc after s hbefore hsc
    cases ho : ctx.object with
    | none => simp [resolveType, resolveUnresolvedType, hsplit, ho, himports, himp]
    | some object =>
      obtain ⟨h1, h2⟩ := hobj object ho
      simp [resolveType, resolveUnresolvedType, hsplit, ho, h1, h2, himports, himp]
  · intro sc st1 obj hload hfind
    have himp := findImportedStruct_none name imports hnone
    cases ho : ctx.object with
    | none =>
      simp [resolveType, resolveUnresolvedType, hsplit, ho, himports, himp, hload, hfind]
    | some object =>
      obtain ⟨h1, h2⟩ := hobj object ho
      simp [resolveType, resolveUnresolvedType, hsplit, ho, h1, h2, himports, himp, hload,
        hfind]
  · intro hmiss
    have himp := findImportedStruct_none name imports hnone
    have key : ∃ msg,
        (match loadScript name st with
          | .error msg => (.error msg : CapricaResult (PapyrusType × σ))
          | .ok (sc, st1) =>
            match sc.bind (fun (sc : PapyrusScript) =>
                sc.objects.find? (fun (obj : PapyrusObject) =>
                  decide (_stricmp obj.name name = 0))) with
            | some obj => .ok (.ResolvedObject location name obj, st1)
            | none => .error "Unable to resolve type '%s'!") = .error msg := by
      cases hl : loadScript name st with
      | error msg => exact ⟨msg, rfl⟩
      | ok p =>
        obtain ⟨sc, st1⟩ := p
        cases sc with
        | none => exact ⟨_, rfl⟩
        | some sc =>
          have := hmiss sc st1 hl
          exact ⟨"Unable to resolve type '%s'!", by simp [this]⟩
    obtain ⟨msg, hmsg⟩ := key
    refine ⟨msg, ?_⟩
    cases ho : ctx.object with
    | none =>
      simp only [resolveType, resolveUnresolvedType, hsplit, ho, himports, himp]
      simpa using hmsg
    | some object =>
      obtain ⟨h1, h2⟩ := hobj object ho
      simp only [resolveType, resolveUnresolvedType, hsplit, ho, h1, h2, himports, himp]
      simpa using hmsg

/-- Instance of C15: inside an object named `Point` that owns a struct `Point`, the name
`POINT` resolves to the struct, without any script being loaded. -/
theorem resolveType_precedence_witness :
    resolveType failingLoader {} exampleContext (.Unresolved otherLocation "POINT") () =
      .ok (.ResolvedStruct otherLocation "POINT" examplePointStruct, ()) :=
  (resolveType_precedence failingLoader {} exampleContext otherLocation "POINT" ()
    (by decide)).1 exampleOwner examplePointStruct rfl (by decide)

/-! ## Properties of local scopes -/

theorem LocalVariableScope.count_eq_zero_iff (scope : LocalVariableScope) (key : String) :
    scope.count key = 0 ↔ ∀ e ∈ scope.entries, _stricmp e.1 key ≠ 0 := by
  unfold LocalVariableScope.count
  by_cases h : scope.entries.any (fun e => decide (_stricmp e.1 key = 0)) = true
  · simp only [h, if_true]
    rw [List.any_eq_true] at h
    obtain ⟨e, he, hp⟩ := h
    constructor
    · intro h0; cases h0
    · intro hall
      exact absurd (by simpa using hp) (hall e he)
  · simp only [h]
    have h2 := h
    rw [Bool.not_eq_true, List.any_eq_false] at h2
    constructor
    · intro _ e he
      simpa using h2 e he
    · intro _; rfl

theorem LocalVariableScope.find_insert_self (scope : LocalVariableScope) (key : String)
    (value : PapyrusDeclareStatement) (h : scope.count key = 0) :
    (scope.insert key value).find key = some value := by
  have hall := (LocalVariableScope.count_eq_zero_iff scope key).1 h
  have hnone : scope.entries.find? (fun e => decide (_stricmp e.1 key = 0)) = none := by
    rw [List.find?_eq_none]
    intro e he
    simpa using hall e he
  simp [LocalVariableScope.insert, h, LocalVariableScope.find, List.find?_append, hnone,
    stricmp_self]

theorem LocalVariableScope.find_insert_other (scope : LocalVariableScope) (key other : String)
    (value : PapyrusDeclareStatement) (h : _stricmp other key ≠ 0) :
    (scope.insert key value).find other = scope.find other := by
  have h2 : _stricmp key other ≠ 0 := fun h0 => h ((stricmp_comm_zero _ _).1 h0)
  unfold LocalVariableScope.insert
  split
  · simp [LocalVariableScope.find, List.find?_append, h2]
  · rfl

/-- Claim C16: on a non-empty scope stack, when the name of the declaration is present in
some frame, `addLocalVariable` reports one error and leaves the context, hence every frame,
unchanged; otherwise it reports no error and replaces the topmost frame by that frame with
the name mapped to the declaration, all other names of the frame and all other frames being
unchanged. -/
theorem addLocalVariable_spec (ctx : PapyrusResolutionContext)
    (decl : PapyrusDeclareStatement) (hne : ctx.localVariableScopeStack ≠ []) :
    ((∃ frame ∈ ctx.localVariableScopeStack, frame.count decl.name ≠ 0) →
      ∃ err, addLocalVariable ctx decl = .ok (ctx, [err])) ∧
    ((∀ frame ∈ ctx.localVariableScopeStack, frame.count decl.name = 0) →
      ∃ below top, ctx.localVariableScopeStack = below ++ [top] ∧
        addLocalVariable ctx decl =
          .ok ({ ctx with localVariableScopeStack :=
                  below ++ [top.insert decl.name decl] }, []) ∧
        (top.insert decl.name decl).find decl.name = some decl ∧
        ∀ other, _stricmp other decl.name ≠ 0 →
          (top.insert decl.name decl).find other = top.find other) := by
  constructor
  · rintro ⟨frame, hmem, hcount⟩
    have hany : ctx.localVariableScopeStack.any
        (fun is => decide (is.count decl.name ≠ 0)) = true := by
      rw [List.any_eq_true]
      exact ⟨frame, hmem, by simpa using hcount⟩
    refine ⟨⟨decl.location,
      "Attempted to redefined '%s' which was already defined in a parent scope!"⟩, ?_⟩
    simp only [addLocalVariable, hany, if_true]
  · intro hall
    have hany : ctx.localVariableScopeStack.any
        (fun is => decide (is.count decl.name ≠ 0)) = false := by
      rw [List.any_eq_false]
      intro frame hmem
      simpa using hall frame hmem
    cases hlast : ctx.localVariableScopeStack.getLast? with
    | none => exact absurd (List.getLast?_eq_none_iff.1 hlast) hne
    | some top =>
      obtain ⟨below, hstack⟩ := List.getLast?_eq_some_iff.1 hlast
      have htop : top.count decl.name = 0 := hall top (by simp [hstack])
      refine ⟨below, top, hstack, ?_, ?_, ?_⟩
      · have hdrop : ctx.localVariableScopeStack.dropLast = below := by simp [hstack]
        simp only [addLocalVariable, hany, hlast, hdrop]
        rfl
      · exact LocalVariableScope.find_insert_self top decl.name decl htop
      · intro other hother
        exact LocalVariableScope.find_insert_other top decl.name other decl hother

/-- Instance of C16: declaring `count` in a stack of one empty frame records it there. -/
theorem addLocalVariable_spec_witness :
    ∃ below top, exampleContext.localVariableScopeStack = below ++ [top] ∧
      addLocalVariable exampleContext exampleDecl =
        .ok ({ exampleContext with localVariableScopeStack :=
                below ++ [top.insert exampleDecl.name exampleDecl] }, []) ∧
      (top.insert exampleDecl.name exampleDecl).find exampleDecl.name = some exampleDecl := by
  obtain ⟨below, top, h1, h2, h3, _⟩ :=
    (addLocalVariable_spec exampleContext exampleDecl (by simp [exampleContext])).2
      (by simp [exampleContext, LocalVariableScope.count])
  exact ⟨below, top, h1, h2, h3⟩

/-! ## Properties of identifier resolution -/

/-- Unfolding of `tryResolveMemberInObject` at an object. -/
theorem tryResolveMemberInObject_unfold (object : PapyrusObject)
    (location : CapricaFileLocation) (name : String) :
    tryResolveMemberInObject object location name =
      (match findProperty name object.propertyGroups with
       | some prop => .Property location prop
       | none =>
         match object.parentClass with
         | some parent => tryResolveMemberInObject parent location name
         | none => .Unresolved location name) := by
  cases object with
  | mk _ _ parentClass _ _ _ _ => cases parentClass <;> simp [tryResolveMemberInObject]

/-- The lookup along the parent class chain yields a property or leaves the identifier as it
was. -/
theorem tryResolveMemberInObject_cases (location : CapricaFileLocation) (name : String) :
    ∀ object : PapyrusObject,
      (∃ prop, tryResolveMemberInObject object location name = .Property location prop) ∨
      tryResolveMemberInObject object location name = .Unresolved location name
  | ⟨a, n, none, st, sr, v, g⟩ => by
    rw [tryResolveMemberInObject_unfold]
    cases h : findProperty name g with
    | some prop => exact Or.inl ⟨prop, by simp [h]⟩
    | none => exact Or.inr (by simp [h])
  | ⟨a, n, some parent, st, sr, v, g⟩ => by
    rw [tryResolveMemberInObject_unfold]
    cases h : findProperty name g with
    | some prop => exact Or.inl ⟨prop, by simp [h]⟩
    | none =>
      simp only [h]
      exact tryResolveMemberInObject_cases location name parent

/-- The lookup along the parent class chain yields the matching property of the first object
of the chain that has one, and leaves the identifier as it was when no object of the chain
has one. -/
theorem tryResolveMemberInObject_chain (location : CapricaFileLocation) (name : String) :
    ∀ object : PapyrusObject,
      (∀ (before : List PapyrusObject) (owner : PapyrusObject) (after : List PapyrusObject)
          (prop : PapyrusProperty),
        parentClassChain object = before ++ owner :: after →
        (∀ o ∈ before, findProperty name o.propertyGroups = none) →
        findProperty name owner.propertyGroups = some prop →
          tryResolveMemberInObject object location name = .Property location prop) ∧
      ((∀ o ∈ parentClassChain object, findProperty name o.propertyGroups = none) →
        tryResolveMemberInObject object location name = .Unresolved location name)
  | ⟨a, n, none, st, sr, v, g⟩ => by
    constructor
    · intro before owner after prop hchain hbefore howner
      cases before with
      | nil =>
        simp only [parentClassChain, List.nil_append, List.cons.injEq] at hchain
        rw [← hchain.1] at howner
        rw [tryResolveMemberInObject_unfold]
        simp only at howner
        simp only [howner]
      | cons o os =>
        simp [parentClassChain] at hchain
    · intro hall
      have h := hall ⟨a, n, none, st, sr, v, g⟩ (by simp [parentClassChain])
      rw [tryResolveMemberInObject_unfold]
      simp only at h
      simp only [h]
  | ⟨a, n, some parent, st, sr, v, g⟩ => by
    have ih := tryResolveMemberInObject_chain location name parent
    constructor
    · intro before owner after prop hchain hbefore howner
      cases before with
      | nil =>
        simp only [parentClassChain, List.nil_append, List.cons.injEq] at hchain
        rw [← hchain.1] at howner
        rw [tryResolveMemberInObject_unfold]
        simp only at howner
        simp only [howner]
      | cons o os =>
        simp only [parentClassChain, List.cons_append, List.cons.injEq] at hchain
        have h := hbefore o (List.mem_cons_self _ _)
        rw [← hchain.1] at h
        rw [tryResolveMemberInObject_unfold]
        simp only at h
        simp only [h]
        exact ih.1 os owner after prop hchain.2
          (fun o1 ho1 => hbefore o1 (List.mem_cons_of_mem _ ho1)) howner
    · intro hall
      have h := hall ⟨a, n, some parent, st, sr, v, g⟩ (by simp [parentClassChain])
      rw [tryResolveMemberInObject_unfold]
      simp only at h
      simp only [h]
      exact ih.2 (fun o ho => hall o (by simp [parentClassChain, ho]))

theorem findLocalVariable_innermost (name : String)
    (below : List LocalVariableScope) (frame : LocalVariableScope)
    (above : List LocalVariableScope) (decl : PapyrusDeclareStatement)
    (habove : ∀ f ∈ above, f.find name = none) (hframe : frame.find name = some decl) :
    findLocalVariable name (below ++ frame :: above) = some decl := by
  have hab : above.reverse.findSome? (fun f => f.find name) = none := by
    rw [List.findSome?_eq_none_iff]
    intro f hf
    exact habove f (List.mem_reverse.1 hf)
  simp [findLocalVariable, List.findSome?_append, hab, hframe]

/-- Claim C17: for an unresolved identifier, `tryResolveIdentifier` returns, in this order
of precedence: the local declaration of the innermost scope frame that has the name; else
the matching parameter of the current function; else, only when there is no current function
or it is not global, the matching variable of the enclosing object, else its matching
property; else the matching property of the first object of the parent class chain, from
the parent class up, that has one, which is what `tryResolveMemberIdentifier` returns on the
parent class; and when no object of that chain has a matching property, or there is no
parent class, the identifier itself, still unresolved. An identifier that is already
resolved is returned as it is. -/
theorem tryResolveIdentifier_precedence (ctx : PapyrusResolutionContext)
    (location : CapricaFileLocation) (name : String) :
    (∀ below frame above decl, ctx.localVariableScopeStack = below ++ frame :: above →
      (∀ f ∈ above, f.find name = none) → frame.find name = some decl →
      tryResolveIdentifier ctx (.Unresolved location name) =
        .ok (.DeclStatement location decl)) ∧
    ((∀ f ∈ ctx.localVariableScopeStack, f.find name = none) →
      (∀ function p, ctx.function = some function →
        findParameter name function.parameters = some p →
        tryResolveIdentifier ctx (.Unresolved location name) =
          .ok (.FunctionParameter location p)) ∧
      ((∀ function, ctx.function = some function →
          findParameter name function.parameters = none) →
        ∀ object, ctx.object = some object →
          ((∀ function, ctx.function = some function → function.isGlobal = false) →
            (∀ v, findVariable name object.objectVariables = some v →
              tryResolveIdentifier ctx (.Unresolved location name) =
                .ok (.Variable location v)) ∧
            (findVariable name object.objectVariables = none →
              ∀ p, findProperty name object.propertyGroups = some p →
                tryResolveIdentifier ctx (.Unresolved location name) =
                  .ok (.Property location p))) ∧
          (((∀ function, ctx.function = some function → function.isGlobal = false) →
              findVariable name object.objectVariables = none ∧
              findProperty name object.propertyGroups = none) →
            (∀ parent parentLocation parentName, object.tryGetParentClass = some parent →
              tryResolveIdentifier ctx (.Unresolved location name) =
                .ok (tryResolveMemberIdentifier
                  (.ResolvedObject parentLocation parentName parent)
                  (.Unresolved location name)) ∧
              ((∃ prop, tryResolveIdentifier ctx (.Unresolved location name) =
                  .ok (.Property location prop)) ∨
                tryResolveIdentifier ctx (.Unresolved location name) =
                  .ok (.Unresolved location name)) ∧
              (∀ (before : List PapyrusObject) (owner : PapyrusObject)
                  (after : List PapyrusObject) (prop : PapyrusProperty),
                parentClassChain parent = before ++ owner :: after →
                (∀ o ∈ before, findProperty name o.propertyGroups = none) →
                findProperty name owner.propertyGroups = some prop →
                  tryResolveIdentifier ctx (.Unresolved location name) =
                    .ok (.Property location prop)) ∧
              ((∀ o ∈ parentClassChain parent, findProperty name o.propertyGroups = none) →
                tryResolveIdentifier ctx (.Unresolved location name) =
                  .ok (.Unresolved location name))) ∧
            (object.tryGetParentClass = none →
              tryResolveIdentifier ctx (.Unresolved location name) =
                .ok (.Unresolved location name))))) ∧
    (∀ ident, ident.type ≠ .Unresolved → tryResolveIdentifier ctx ident = .ok ident) := by
  refine ⟨?_, fun hlocal => ⟨?_, fun hparam object hobject => ⟨fun hscope => ⟨?_, ?_⟩,
    fun hown => ⟨?_, ?_⟩⟩⟩, ?_⟩
  · intro below frame above decl hstack habove hframe
    have := findLocalVariable_innermost name below frame above decl habove hframe
    simp [tryResolveIdentifier, hstack, this]
  all_goals try
    have hl : findLocalVariable name ctx.localVariableScopeStack = none := by
      unfold findLocalVariable
      rw [List.findSome?_eq_none_iff]
      intro f hf
      exact hlocal f (List.mem_reverse.1 hf)
  · intro function p hf hp
    simp [tryResolveIdentifier, hl, hf, hp]
  all_goals try
    have hp : (ctx.function.bind fun function => findParameter name function.parameters) =
        none := by
      cases hf : ctx.function with
      | none => rfl
      | some function => simpa using hparam function hf
  · intro v hv
    have hall : ctx.function.all (fun function => !function.isGlobal) = true := by
      cases hf : ctx.function with
      | none => rfl
      | some function => simp [hscope function hf]
    simp [tryResolveIdentifier, hl, hp, hobject, hall, hv]
  · intro hv p hprop
    have hall : ctx.function.all (fun function => !function.isGlobal) = true := by
      cases hf : ctx.function with
      | none => rfl
      | some function => simp [hscope function hf]
    simp [tryResolveIdentifier, hl, hp, hobject, hall, hv, hprop]
  · intro parent parentLocation parentName hparent
    have hres : tryResolveIdentifier ctx (.Unresolved location name) =
        .ok (tryResolveMemberInObject parent location name) := by
      by_cases hall : ctx.function.all (fun function => !function.isGlobal) = true
      · have hscope : ∀ function, ctx.function = some function → function.isGlobal = false := by
          intro function hf
          simpa [hf] using hall
        obtain ⟨hv, hprop⟩ := hown hscope
        simp [tryResolveIdentifier, hl, hp, hobject, hall, hv, hprop, hparent]
      · simp [tryResolveIdentifier, hl, hp, hobject, hall, hparent]
    refine ⟨by simpa [tryResolveMemberIdentifier] using hres, ?_, ?_, ?_⟩
    · rw [hres]
      rcases tryResolveMemberInObject_cases location name parent with ⟨prop, h⟩ | h
      · exact Or.inl ⟨prop, by rw [h]⟩
      · exact Or.inr (by rw [h])
    · intro before owner after prop hchain hbefore howner
      rw [hres, (tryResolveMemberInObject_chain location name parent).1 before owner after
        prop hchain hbefore howner]
    · intro hall
      rw [hres, (tryResolveMemberInObject_chain location name parent).2 hall]
  · intro hparent
    by_cases hall : ctx.function.all (fun function => !function.isGlobal) = true
    · have hscope : ∀ function, ctx.function = some function → function.isGlobal = false := by
        intro function hf
        simpa [hf] using hall
      obtain ⟨hv, hprop⟩ := hown hscope
      simp [tryResolveIdentifier, hl, hp, hobject, hall, hv, hprop, hparent]
    · simp [tryResolveIdentifier, hl, hp, hobject, hall, hparent]
  · intro ident hident
    cases ident <;> simp [PapyrusIdentifier.type] at hident <;> rfl

/-- Instance of C17: inside `DoWork`, the name `COUNT` resolves to the local declared in the
outer frame, the innermost frame that has it; `Amount` resolves to the parameter; `HEALTH`
resolves to the variable `health`, not to the property `Health`; `Missing`, found nowhere,
not even through the parent class, stays unresolved; and inside `Mage`, which has no member
of its own, `MANA` resolves to the property `Mana` of `Base`, the second object of the
parent class chain. -/
theorem tryResolveIdentifier_precedence_witness :
    tryResolveIdentifier exampleActorContext (.Unresolved otherLocation "COUNT") =
      .ok (.DeclStatement otherLocation exampleDecl) ∧
    tryResolveIdentifier exampleActorContext (.Unresolved otherLocation "Amount") =
      .ok (.FunctionParameter otherLocation exampleParameter) ∧
    tryResolveIdentifier exampleActorContext (.Unresolved otherLocation "HEALTH") =
      .ok (.Variable otherLocation exampleVariable) ∧
    tryResolveIdentifier exampleActorContext (.Unresolved otherLocation "Missing") =
      .ok (.Unresolved otherLocation "Missing") ∧
    tryResolveIdentifier exampleMageContext (.Unresolved otherLocation "MANA") =
      .ok (.Property otherLocation exampleMana) :=
  ⟨(tryResolveIdentifier_precedence exampleActorContext otherLocation "COUNT").1
      [] ⟨[("count", exampleDecl)]⟩ [⟨[]⟩] exampleDecl rfl (by decide) (by decide),
   ((tryResolveIdentifier_precedence exampleActorContext otherLocation "Amount").2.1
      (by decide)).1 exampleMethod exampleParameter rfl (by decide),
   ((((tryResolveIdentifier_precedence exampleActorContext otherLocation "HEALTH").2.1
      (by decide)).2 (fun function h => by cases h; decide) exampleActor rfl).1
      (fun function h => by cases h; rfl)).1 exampleVariable (by decide),
   (((((tryResolveIdentifier_precedence exampleActorContext otherLocation "Missing").2.1
      (by decide)).2 (fun function h => by cases h; decide) exampleActor rfl).2
      (fun _ => ⟨by decide, by decide⟩)).1 exampleParent exampleLocation "Parent" rfl).2.2.2
      (fun o ho => by
        simp only [parentClassChain, exampleParent, List.mem_singleton] at ho
        subst ho
        decide),
   (((((tryResolveIdentifier_precedence exampleMageContext otherLocation "MANA").2.1
      (by decide)).2 (fun function h => by cases h) exampleMage rfl).2
      (fun _ => ⟨by decide, by decide⟩)).1 exampleMiddle exampleLocation "Middle" rfl).2.2.1
      [exampleMiddle] exampleBase [] exampleMana rfl
      (fun o ho => by
        simp only [List.mem_singleton] at ho
        subst ho
        decide)
      (by decide)⟩

/-! ## Properties of function resolution -/

theorem stricmp_ne_of_eq (n a b : String) (h : _stricmp n a = 0) (hab : _stricmp a b ≠ 0) :
    _stricmp n b ≠ 0 := by
  intro hb
  apply hab
  rw [stricmp_eq_zero_iff] at h hb ⊢
  unfold equalIgnoringCase at h hb ⊢
  rw [← h, hb]

/-- With a `ResolvedObject` base whose object has no parent class, a name that matches no
function of the root state is returned unresolved, without error. -/
theorem tryResolveFunctionIdentifier_object_miss (ctx : PapyrusResolutionContext)
    (object : PapyrusObject) (baseLocation location : CapricaFileLocation)
    (baseName name : String) (hroot : object.tryGetParentClass = none)
    (hmiss : findFunctionInRootState name object = none) :
    tryResolveFunctionIdentifier ctx (.ResolvedObject baseLocation baseName object)
      (.Unresolved location name) = .ok (.Unresolved location name, []) := by
  cases object with
  | mk _ _ parentClass _ _ _ _ =>
    simp only [PapyrusObject.tryGetParentClass] at hroot
    subst hroot
    simp [tryResolveFunctionIdentifier, tryResolveFunctionInObject, hmiss]

/-- The last step of the `None` branch of `tryResolveFunctionIdentifier` is the call
`resolveFunctionIdentifier(PapyrusType::ResolvedObject(ident.location, object), ident)`. -/
theorem tryResolveFunctionIdentifier_None_tail (ctx : PapyrusResolutionContext)
    (object : PapyrusObject) (baseLocation location : CapricaFileLocation) (name : String)
    (hobject : ctx.object = some object)
    (hown : findFunctionInRootState name object = none)
    (himports : findImportedGlobalFunction name ctx.importedScripts = .ok none) :
    tryResolveFunctionIdentifier ctx (.None baseLocation) (.Unresolved location name) =
      resolveFunctionIdentifier ctx (.ResolvedObject location "" object)
        (.Unresolved location name) := by
  simp only [tryResolveFunctionIdentifier, resolveFunctionIdentifier, hobject, hown, himports]

/-- The last step of the `ResolvedObject` branch of `tryResolveFunctionIdentifier`, for an
object with a parent class, is the call `resolveFunctionIdentifier` on the parent class. -/
theorem tryResolveFunctionIdentifier_object_tail (ctx : PapyrusResolutionContext)
    (object parent : PapyrusObject)
    (baseLocation parentLocation location : CapricaFileLocation)
    (baseName parentName name : String)
    (hparent : object.tryGetParentClass = some parent)
    (hown : findFunctionInRootState name object = none) :
    tryResolveFunctionIdentifier ctx (.ResolvedObject baseLocation baseName object)
        (.Unresolved location name) =
      resolveFunctionIdentifier ctx (.ResolvedObject parentLocation parentName parent)
        (.Unresolved location name) := by
  cases object with
  | mk _ _ parentClass _ _ _ _ =>
    simp only [PapyrusObject.tryGetParentClass] at hparent
    subst hparent
    simp only [tryResolveFunctionIdentifier, resolveFunctionIdentifier,
      tryResolveFunctionInObject, hown]

/-- An unqualified call never comes back unresolved: whenever `tryResolveFunctionIdentifier`
returns on a base of kind `None`, the identifier it returns is resolved. -/
theorem tryResolveFunctionIdentifier_None_resolved (ctx : PapyrusResolutionContext)
    (baseLocation location : CapricaFileLocation) (name : String)
    (id : PapyrusIdentifier) (errors : List CapricaError)
    (h : tryResolveFunctionIdentifier ctx (.None baseLocation) (.Unresolved location name) =
      .ok (id, errors)) :
    id.type ≠ .Unresolved := by
  simp only [tryResolveFunctionIdentifier] at h
  repeat' split at h
  all_goals first
    | (cases h; done)
    | (cases h; simp [PapyrusIdentifier.type]; done)
    | (cases h; simp_all)

/-- Claim C18, evaluated on the code: a name that matches no function ends in the fatal of
`resolveFunctionIdentifier` inside `tryResolveFunctionIdentifier`, both for an unqualified
call and for a call on an object that has a parent class. -/
theorem tryResolveFunctionIdentifier_miss_is_fatal :
    tryResolveFunctionIdentifier { object := some exampleParent } (.None exampleLocation)
        (.Unresolved exampleLocation "Missing") =
      .error "Unresolved function name '%s'!" ∧
    tryResolveFunctionIdentifier {} (.ResolvedObject exampleLocation "Child" exampleChild)
        (.Unresolved exampleLocation "Missing") =
      .error "Unresolved function name '%s'!" := by
  constructor <;> rfl

/-- Claim C19: on an array base `Array[E]`, an unresolved name that compares equal, ignoring
case, to `find`, `rfind`, `add`, `clear`, `insert`, `remove` or `removelast` resolves to the
builtin of that name with element type `E`, `find` and `rfind` taking their struct variant
exactly when `E` is a `ResolvedStruct`; any other name is fatal; and every identifier
returned is an array function of element type `E` whose kind is not `Unknown`. -/
theorem tryResolveFunctionIdentifier_array (ctx : PapyrusResolutionContext)
    (baseLocation location : CapricaFileLocation) (elementType : PapyrusType)
    (name : String) :
    (_stricmp name "find" = 0 →
      tryResolveFunctionIdentifier ctx (.Array baseLocation elementType)
          (.Unresolved location name) =
        .ok (.ArrayFunction baseLocation
          (if elementType.type = .ResolvedStruct then .FindStruct else .Find)
          elementType, [])) ∧
    (_stricmp name "rfind" = 0 →
      tryResolveFunctionIdentifier ctx (.Array baseLocation elementType)
          (.Unresolved location name) =
        .ok (.ArrayFunction baseLocation
          (if elementType.type = .ResolvedStruct then .RFindStruct else .RFind)
          elementType, [])) ∧
    (_stricmp name "add" = 0 →
      tryResolveFunctionIdentifier ctx (.Array baseLocation elementType)
          (.Unresolved location name) =
        .ok (.ArrayFunction baseLocation .Add elementType, [])) ∧
    (_stricmp name "clear" = 0 →
      tryResolveFunctionIdentifier ctx (.Array baseLocation elementType)
          (.Unresolved location name) =
        .ok (.ArrayFunction baseLocation .Clear elementType, [])) ∧
    (_stricmp name "insert" = 0 →
      tryResolveFunctionIdentifier ctx (.Array baseLocation elementType)
          (.Unresolved location name) =
        .ok (.ArrayFunction baseLocation .Insert elementType, [])) ∧
    (_stricmp name "remove" = 0 →
      tryResolveFunctionIdentifier ctx (.Array baseLocation elementType)
          (.Unresolved location name) =
        .ok (.ArrayFunction baseLocation .Remove elementType, [])) ∧
    (_stricmp name "removelast" = 0 →
      tryResolveFunctionIdentifier ctx (.Array baseLocation elementType)
          (.Unresolved location name) =
        .ok (.ArrayFunction baseLocation .RemoveLast elementType, [])) ∧
    (_stricmp name "find" ≠ 0 → _stricmp name "rfind" ≠ 0 → _stricmp name "add" ≠ 0 →
      _stricmp name "clear" ≠ 0 → _stricmp name "insert" ≠ 0 →
      _stricmp name "remove" ≠ 0 → _stricmp name "removelast" ≠ 0 →
      ∃ msg, tryResolveFunctionIdentifier ctx (.Array baseLocation elementType)
          (.Unresolved location name) = .error msg) ∧
    (∀ id errors, tryResolveFunctionIdentifier ctx (.Array baseLocation elementType)
          (.Unresolved location name) = .ok (id, errors) →
      ∃ kind, id = .ArrayFunction baseLocation kind elementType ∧ kind ≠ .Unknown) := by
  refine ⟨?_, ?_, ?_, ?_, ?_, ?_, ?_, ?_, ?_⟩
  · intro h
    by_cases hk : elementType.type = .ResolvedStruct <;>
      simp [tryResolveFunctionIdentifier, resolveArrayFunctionKind, h, hk]
  · intro h
    have h1 := stricmp_ne_of_eq name "rfind" "find" h (by decide)
    by_cases hk : elementType.type = .ResolvedStruct <;>
      simp [tryResolveFunctionIdentifier, resolveArrayFunctionKind, h, h1, hk]
  · intro h
    have h1 := stricmp_ne_of_eq name "add" "find" h (by decide)
    have h2 := stricmp_ne_of_eq name "add" "rfind" h (by decide)
    simp [tryResolveFunctionIdentifier, resolveArrayFunctionKind, h, h1, h2]
  · intro h
    have h1 := stricmp_ne_of_eq name "clear" "find" h (by decide)
    have h2 := stricmp_ne_of_eq name "clear" "rfind" h (by decide)
    have h3 := stricmp_ne_of_eq name "clear" "add" h (by decide)
    simp [tryResolveFunctionIdentifier, resolveArrayFunctionKind, h, h1, h2, h3]
  · intro h
    have h1 := stricmp_ne_of_eq name "insert" "find" h (by decide)
    have h2 := stricmp_ne_of_eq name "insert" "rfind" h (by decide)
    have h3 := stricmp_ne_of_eq name "insert" "add" h (by decide)
    have h4 := stricmp_ne_of_eq name "insert" "clear" h (by decide)
    simp [tryResolveFunctionIdentifier, resolveArrayFunctionKind, h, h1, h2, h3, h4]
  · intro h
    have h1 := stricmp_ne_of_eq name "remove" "find" h (by decide)
    have h2 := stricmp_ne_of_eq name "remove" "rfind" h (by decide)
    have h3 := stricmp_ne_of_eq name "remove" "add" h (by decide)
    have h4 := stricmp_ne_of_eq name "remove" "clear" h (by decide)
    have h5 := stricmp_ne_of_eq name "remove" "insert" h (by decide)
    simp [tryResolveFunctionIdentifier, resolveArrayFunctionKind, h, h1, h2, h3, h4, h5]
  · intro h
    have h1 := stricmp_ne_of_eq name "removelast" "find" h (by decide)
    have h2 := stricmp_ne_of_eq name "removelast" "rfind" h (by decide)
    have h3 := stricmp_ne_of_eq name "removelast" "add" h (by decide)
    have h4 := stricmp_ne_of_eq name "removelast" "clear" h (by decide)
    have h5 := stricmp_ne_of_eq name "removelast" "insert" h (by decide)
    have h6 := stricmp_ne_of_eq name "removelast" "remove" h (by decide)
    simp [tryResolveFunctionIdentifier, resolveArrayFunctionKind, h, h1, h2, h3, h4, h5, h6]
  · intro h1 h2 h3 h4 h5 h6 h7
    exact ⟨"Unknown function '%s' called on an array expression!", by
      simp [tryResolveFunctionIdentifier, resolveArrayFunctionKind, h1, h2, h3, h4, h5, h6,
        h7]⟩
  · intro id errors h
    simp only [tryResolveFunctionIdentifier] at h
    cases hk : resolveArrayFunctionKind elementType name with
    | error msg => simp [hk] at h
    | ok fk =>
      simp only [hk, Except.ok.injEq, Prod.mk.injEq] at h
      refine ⟨fk, h.1.symm, ?_⟩
      unfold resolveArrayFunctionKind at hk
      repeat' split at hk
      all_goals first
        | (cases hk; done)
        | (cases hk; simp)

/-- Instance of C19: `Find` on an array of `Int`, in any case. -/
theorem tryResolveFunctionIdentifier_array_witness :
    tryResolveFunctionIdentifier {} (.Array exampleLocation (.Int exampleLocation))
        (.Unresolved otherLocation "Find") =
      .ok (.ArrayFunction exampleLocation .Find (.Int exampleLocation), []) :=
  (tryResolveFunctionIdentifier_array {} exampleLocation otherLocation (.Int exampleLocation)
    "Find").1 (by decide)

/-- Claim C20: for an unqualified call (base `None`) whose name matches the function `f` of
the root state of the current object, the result is `Function(f)` and an error is reported
iff the current function is global and `f` is not; for a call on an object whose root state
has the matching function `f`, the result is `Function(f)` and an error is reported iff `f`
is global. Both hold whatever the imported scripts and the parent classes contain: the match
in the object itself comes first. -/
theorem tryResolveFunctionIdentifier_global_rules (ctx : PapyrusResolutionContext)
    (location : CapricaFileLocation) (name : String) :
    (∀ baseLocation object f, ctx.object = some object →
      findFunctionInRootState name object = some f →
      ∃ errors,
        tryResolveFunctionIdentifier ctx (.None baseLocation) (.Unresolved location name) =
          .ok (.Function location f, errors) ∧
        (errors ≠ [] ↔
          ((∃ function, ctx.function = some function ∧ function.isGlobal = true) ∧
            f.isGlobal = false))) ∧
    (∀ baseLocation baseName object f, findFunctionInRootState name object = some f →
      ∃ errors,
        tryResolveFunctionIdentifier ctx (.ResolvedObject baseLocation baseName object)
            (.Unresolved location name) =
          .ok (.Function location f, errors) ∧
        (errors ≠ [] ↔ f.isGlobal = true)) := by
  constructor
  · intro baseLocation object f hobject hf
    have hres : tryResolveFunctionIdentifier ctx (.None baseLocation)
          (.Unresolved location name) =
        .ok (.Function location f,
          if ctx.function.any (fun function => function.isGlobal) && !f.isGlobal then
            [⟨location, "You cannot call non-global functions from within a global function. '%s' is not a global function."⟩]
          else []) := by
      simp only [tryResolveFunctionIdentifier, hobject, hf]
    refine ⟨_, hres, ?_⟩
    cases hfun : ctx.function with
    | none => simp
    | some function =>
      cases hg : function.isGlobal <;> cases hfg : f.isGlobal <;> simp [hg]
  · intro baseLocation baseName object f hf
    have hres : tryResolveFunctionIdentifier ctx
          (.ResolvedObject baseLocation baseName object) (.Unresolved location name) =
        .ok (.Function location f,
          if f.isGlobal then
            [⟨location, "You cannot call the global function '%s' on an object."⟩]
          else []) := by
      cases object with
      | mk a n parentClass st sr v g =>
        cases parentClass <;>
          simp only [tryResolveFunctionIdentifier, tryResolveFunctionInObject, hf]
    refine ⟨_, hres, ?_⟩
    cases hfg : f.isGlobal <;> simp

/-- Instance of C20: inside the non-global `DoWork`, the unqualified call `dowork` resolves
to that function without error, and calling the global `Helper` on the object is an
error. -/
theorem tryResolveFunctionIdentifier_global_rules_witness :
    (∃ errors,
      tryResolveFunctionIdentifier exampleActorContext (.None exampleLocation)
          (.Unresolved otherLocation "dowork") =
        .ok (.Function otherLocation exampleMethod, errors) ∧
      (errors ≠ [] ↔
        ((∃ function, exampleActorContext.function = some function ∧
            function.isGlobal = true) ∧
          exampleMethod.isGlobal = false))) ∧
    (∃ errors,
      tryResolveFunctionIdentifier exampleActorContext
          (.ResolvedObject exampleLocation "Actor" exampleActor)
          (.Unresolved otherLocation "HELPER") =
        .ok (.Function otherLocation exampleGlobal, errors) ∧
      (errors ≠ [] ↔ exampleGlobal.isGlobal = true)) :=
  ⟨(tryResolveFunctionIdentifier_global_rules exampleActorContext otherLocation "dowork").1
      exampleLocation exampleActor exampleMethod rfl (by decide),
   (tryResolveFunctionIdentifier_global_rules exampleActorContext otherLocation "HELPER").2
      exampleLocation "Actor" exampleActor exampleGlobal (by decide)⟩


/-! ## Properties of `isObjectSomeParentOf` and transitivity of implicit coercion -/

theorem parentClassChain_unfold (object : PapyrusObject) :
    parentClassChain object =
      object :: (match object.parentClass with
        | some parent => parentClassChain parent
        | none => []) := by
  cases object with
  | mk _ _ parentClass _ _ _ _ => cases parentClass <;> simp [parentClassChain]

theorem isObjectSomeParentOf_iff_chain (parent : PapyrusObject) :
    ∀ child : PapyrusObject,
      isObjectSomeParentOf child parent = true ↔
        ∃ o ∈ parentClassChain child, o.addr = parent.addr ∨ _stricmp o.name parent.name = 0
  | ⟨a, n, none, st, sr, v, g⟩ => by
    rw [isObjectSomeParentOf_unfold, parentClassChain_unfold]
    by_cases h1 : a = parent.addr
    · simp [h1]
    · by_cases h2 : _stricmp n parent.name = 0
      · simp [h1, h2]
      · simp [h1, h2]
  | ⟨a, n, some p, st, sr, v, g⟩ => by
    rw [isObjectSomeParentOf_unfold, parentClassChain_unfold]
    have ih := isObjectSomeParentOf_iff_chain parent p
    by_cases h1 : a = parent.addr
    · simp [h1]
    · by_cases h2 : _stricmp n parent.name = 0
      · simp [h1, h2]
      · simp [h1, h2, ih]

theorem isObjectSomeParentOfWithin_chain (parent : PapyrusObject) :
    ∀ (child : PapyrusObject) (extra : Nat),
      isObjectSomeParentOfWithin ((parentClassChain child).length + extra) child parent =
        some (isObjectSomeParentOf child parent)
  | ⟨a, n, none, st, sr, v, g⟩, extra => by
    rw [isObjectSomeParentOf_unfold, parentClassChain_unfold]
    simp only [List.length_cons, List.length_nil, Nat.zero_add]
    rw [show 1 + extra = extra + 1 by omega, isObjectSomeParentOfWithin]
    simp only [PapyrusObject.tryGetParentClass]
    split <;> [rfl; (split <;> rfl)]
  | ⟨a, n, some p, st, sr, v, g⟩, extra => by
    rw [isObjectSomeParentOf_unfold, parentClassChain_unfold]
    simp only [List.length_cons]
    rw [show (parentClassChain p).length + 1 + extra = ((parentClassChain p).length + extra) + 1
      by omega, isObjectSomeParentOfWithin]
    simp only [PapyrusObject.tryGetParentClass]
    split
    · rfl
    · split
      · rfl
      · exact isObjectSomeParentOfWithin_chain parent p extra

/-- Claim C30: `isObjectSomeParentOf(child, parent)` is total: run with a bound on the number
of calls, it reaches its answer as soon as the bound is the length of the parent-class chain
of `child`, which is finite and acyclic by construction, and with every larger bound; and
the answer is true iff some object of the chain that starts at `child`, `child` included,
has the address of `parent` or a name equal to the name of `parent` ignoring case. -/
theorem isObjectSomeParentOf_total :
    (∀ child parent,
      isObjectSomeParentOfWithin (parentClassChain child).length child parent =
        some (isObjectSomeParentOf child parent)) ∧
    (∀ child parent calls, (parentClassChain child).length ≤ calls →
      isObjectSomeParentOfWithin calls child parent =
        some (isObjectSomeParentOf child parent)) ∧
    (∀ child parent,
      isObjectSomeParentOf child parent = true ↔
        ∃ o ∈ parentClassChain child,
          o.addr = parent.addr ∨ equalIgnoringCase o.name parent.name) := by
  refine ⟨fun child parent => ?_, fun child parent calls h => ?_, fun child parent => ?_⟩
  · simpa using isObjectSomeParentOfWithin_chain parent child 0
  · obtain ⟨extra, rfl⟩ := Nat.exists_eq_add_of_le h
    exact isObjectSomeParentOfWithin_chain parent child extra
  · rw [isObjectSomeParentOf_iff_chain]
    simp only [stricmp_eq_zero_iff]


/-- Instance of C30: two calls are enough for `exampleChild`, whose chain has two objects. -/
theorem isObjectSomeParentOf_total_witness :
    isObjectSomeParentOfWithin 2 exampleChild exampleParent =
      some (isObjectSomeParentOf exampleChild exampleParent) :=
  isObjectSomeParentOf_total.2.1 exampleChild exampleParent 2 (by decide)


theorem parentClassChain_mem_hierarchy (objects : List PapyrusObject)
    (h : WellFormedHierarchy objects) :
    ∀ child : PapyrusObject, child ∈ objects → ∀ o ∈ parentClassChain child, o ∈ objects
  | ⟨a, n, none, st, sr, v, g⟩, hc, o, ho => by
    rw [parentClassChain_unfold] at ho
    simp at ho
    exact ho ▸ hc
  | ⟨a, n, some p, st, sr, v, g⟩, hc, o, ho => by
    rw [parentClassChain_unfold] at ho
    simp only [List.mem_cons] at ho
    rcases ho with rfl | ho
    · exact hc
    · exact parentClassChain_mem_hierarchy objects h p (h.1 _ hc p rfl) o ho

theorem parentClassChain_subset :
    ∀ child : PapyrusObject, ∀ o ∈ parentClassChain child,
      ∀ x ∈ parentClassChain o, x ∈ parentClassChain child
  | ⟨a, n, none, st, sr, v, g⟩, o, ho, x, hx => by
    rw [parentClassChain_unfold] at ho
    simp at ho
    subst ho
    exact hx
  | ⟨a, n, some p, st, sr, v, g⟩, o, ho, x, hx => by
    rw [parentClassChain_unfold] at ho
    simp only [List.mem_cons] at ho
    rcases ho with rfl | ho
    · exact hx
    · rw [parentClassChain_unfold]
      exact List.mem_cons_of_mem _ (parentClassChain_subset p o ho x hx)

theorem isObjectSomeParentOf_trans (objects : List PapyrusObject)
    (h : WellFormedHierarchy objects) (A B C : PapyrusObject)
    (hA : A ∈ objects) (hB : B ∈ objects)
    (hab : isObjectSomeParentOf A B = true) (hbc : isObjectSomeParentOf B C = true) :
    isObjectSomeParentOf A C = true := by
  rw [isObjectSomeParentOf_iff_chain] at hab hbc ⊢
  obtain ⟨X, hX, hXB⟩ := hab
  obtain ⟨Y, hY, hYC⟩ := hbc
  have hXo := parentClassChain_mem_hierarchy objects h A hA X hX
  have hXaddr : X.addr = B.addr := by
    rcases hXB with h1 | h1
    · exact h1
    · exact h.2.2 X hXo B hB h1
  have hXB' : X = B := h.2.1 X hXo B hB hXaddr
  subst hXB'
  exact ⟨Y, parentClassChain_subset A X hX Y hY, hYC⟩

theorem PapyrusType_eq_trans (a b c : PapyrusType)
    (hab : PapyrusType_eq a b = true) (hbc : PapyrusType_eq b c = true) :
    PapyrusType_eq a c = true := by
  induction a generalizing b c with
  | Array l e ih =>
    cases b <;> simp [PapyrusType_eq, PapyrusType_ne] at hab
    cases c <;> simp [PapyrusType_eq, PapyrusType_ne] at hbc
    simp only [PapyrusType_eq, PapyrusType_ne]
    have := ih _ _ (by simpa [PapyrusType_eq] using hab) (by simpa [PapyrusType_eq] using hbc)
    simpa [PapyrusType_eq] using this
  | Unresolved l n =>
    cases b <;> simp [PapyrusType_eq, PapyrusType_ne] at hab
    cases c <;> simp [PapyrusType_eq, PapyrusType_ne] at hbc
    simp only [PapyrusType_eq, PapyrusType_ne]
    rw [stricmp_eq_zero_iff] at hab hbc
    have : _stricmp n _ = 0 := (stricmp_eq_zero_iff _ _).2 (hab.trans hbc)
    simpa using this
  | _ =>
    cases b <;> simp [PapyrusType_eq, PapyrusType_ne] at hab
    cases c <;> simp [PapyrusType_eq, PapyrusType_ne] at hbc
    simp [PapyrusType_eq, PapyrusType_ne]
    try omega



theorem PapyrusType_eq_comm (a b : PapyrusType) : PapyrusType_eq a b = PapyrusType_eq b a := by
  simp [PapyrusType_eq, PapyrusType_ne_comm a b]

theorem PapyrusType_eq_congr_left (a b c : PapyrusType) (hab : PapyrusType_eq a b = true) :
    PapyrusType_eq a c = PapyrusType_eq b c := by
  cases hbc : PapyrusType_eq b c with
  | true => exact PapyrusType_eq_trans a b c hab hbc
  | false =>
    cases hac : PapyrusType_eq a c with
    | false => rfl
    | true =>
      have hba : PapyrusType_eq b a = true := by rw [PapyrusType_eq_comm]; exact hab
      have := PapyrusType_eq_trans b a c hba hac
      rw [hbc] at this
      cases this

theorem canImplicitlyCoerce_congr_left (objects : List PapyrusObject)
    (h : WellFormedHierarchy objects) (a b c : PapyrusType)
    (ha : a.isOver objects) (hb : b.isOver objects)
    (hab : PapyrusType_eq a b = true) :
    canImplicitlyCoerce a c = canImplicitlyCoerce b c := by
  have heq := PapyrusType_eq_congr_left a b c hab
  unfold canImplicitlyCoerce
  rw [heq]
  cases a <;> cases b <;> simp [PapyrusType_eq, PapyrusType_ne] at hab <;>
    cases c <;> simp [PapyrusType.type]
  case ResolvedObject.ResolvedObject.ResolvedObject la na A lb nb B lc nc C =>
    have : A = B := h.2.1 A ha B hb hab
    simp [this]

theorem canImplicitlyCoerce_congr_right (objects : List PapyrusObject)
    (h : WellFormedHierarchy objects) (a b c : PapyrusType)
    (hb : b.isOver objects) (hc : c.isOver objects)
    (hbc : PapyrusType_eq b c = true) :
    canImplicitlyCoerce a b = canImplicitlyCoerce a c := by
  have heq : PapyrusType_eq a b = PapyrusType_eq a c := by
    rw [PapyrusType_eq_comm a b, PapyrusType_eq_comm a c]
    exact PapyrusType_eq_congr_left b c a hbc
  unfold canImplicitlyCoerce
  rw [heq]
  cases b <;> cases c <;> simp [PapyrusType_eq, PapyrusType_ne] at hbc <;> simp
  case ResolvedObject.ResolvedObject lb nb B lc nc C =>
    have : B = C := h.2.1 B hb C hc hbc
    simp [this]

/-- Claim C29: implicit coercion is transitive over a hierarchy of objects in which objects
of the same address are the same object and objects whose names are equal ignoring case have
the same address (parent-class chains are finite and acyclic by construction): for all
types `a`, `b`, `c` whose objects are in the hierarchy, `canImplicitlyCoerce(a, b)` and
`canImplicitlyCoerce(b, c)` imply `canImplicitlyCoerce(a, c)`. -/
theorem canImplicitlyCoerce_trans (objects : List PapyrusObject)
    (h : WellFormedHierarchy objects) (a b c : PapyrusType)
    (ha : a.isOver objects) (hb : b.isOver objects) (hc : c.isOver objects)
    (hab : canImplicitlyCoerce a b = true) (hbc : canImplicitlyCoerce b c = true) :
    canImplicitlyCoerce a c = true := by
  by_cases e1 : PapyrusType_eq a b = true
  · rw [canImplicitlyCoerce_congr_left objects h a b c ha hb e1]
    exact hbc
  · by_cases e2 : PapyrusType_eq b c = true
    · rw [← canImplicitlyCoerce_congr_right objects h a b c hb hc e2]
      exact hab
    · have hab2 := hab
      have hbc2 := hbc
      unfold canImplicitlyCoerce at hab2 hbc2 ⊢
      simp only [e1, e2] at hab2 hbc2
      cases c <;> simp at hbc2 <;> cases b <;> simp [PapyrusType.type] at hbc2 hab2 <;>
        cases a <;> simp [PapyrusType.type] at hab2 <;> simp [PapyrusType.type]
      exact Or.inr (isObjectSomeParentOf_trans objects h _ _ _ ha hb hab2 hbc2)


theorem exampleHierarchy_wellFormed : WellFormedHierarchy [exampleChild, exampleParent] := by
  refine ⟨?_, ?_, ?_⟩
  · intro o ho p hp
    simp only [List.mem_cons, List.mem_singleton, List.not_mem_nil, or_false] at ho
    rcases ho with rfl | rfl
    · simp only [PapyrusObject.tryGetParentClass, exampleChild, Option.some.injEq] at hp
      simp [← hp]
    · simp [PapyrusObject.tryGetParentClass, exampleParent] at hp
  · intro o ho p hp hop
    simp only [List.mem_cons, List.mem_singleton, List.not_mem_nil, or_false] at ho hp
    rcases ho with rfl | rfl <;> rcases hp with rfl | rfl <;>
      first | rfl | (simp [exampleChild, exampleParent] at hop)
  · intro o ho p hp hop
    simp only [List.mem_cons, List.mem_singleton, List.not_mem_nil, or_false] at ho hp
    rcases ho with rfl | rfl <;> rcases hp with rfl | rfl <;>
      first | rfl | (exact absurd hop (by decide))

/-- Instance of C29: from Child through Parent to Var. -/
theorem canImplicitlyCoerce_trans_witness :
    canImplicitlyCoerce (.ResolvedObject exampleLocation "Child" exampleChild)
      (.Var otherLocation) = true :=
  canImplicitlyCoerce_trans [exampleChild, exampleParent] exampleHierarchy_wellFormed
    (.ResolvedObject exampleLocation "Child" exampleChild)
    (.ResolvedObject exampleLocation "Parent" exampleParent) (.Var otherLocation)
    (by simp [PapyrusType.isOver]) (by simp [PapyrusType.isOver]) trivial
    (by decide) (by decide)


/-! ## Properties of the function builder: `populateFunction` -/

open PexFunctionBuilder

theorem toInt32_sizeSub (t i : Nat) (h1 : -(2:Int)^31 ≤ (t:Int) - i) (h2 : (t:Int) - i < 2^31) :
    toInt32 (sizeSub t i) = (t:Int) - i := by
  unfold toInt32 sizeSub
  norm_num at *
  split <;> omega

theorem resolveLabelArgs_ok (labels : List PexLabel) (i : Nat) :
    ∀ (vs vs' : List PexValue), resolveLabelArgs labels i vs = .ok vs' →
      List.Forall₂ (fun v v' =>
        match v with
        | .Label l => ∃ label, labels[l]? = some label ∧ label.targetIdx ≠ SIZE_MAX ∧
            v' = .Integer (toInt32 (sizeSub label.targetIdx i))
        | _ => v' = v) vs vs'
  | [], vs', h => by
    simp only [resolveLabelArgs, Except.ok.injEq] at h
    subst h
    exact List.Forall₂.nil
  | v :: rest, vs', h => by
    cases v with
    | Label l =>
      simp only [resolveLabelArgs] at h
      split at h
      · cases h
      · rename_i label hl
        split at h
        · cases h
        · rename_i hb
          split at h
          · cases h
          · rename_i rest1 hr
            simp only [Except.ok.injEq] at h
            subst h
            exact List.Forall₂.cons ⟨label, hl, hb, rfl⟩ (resolveLabelArgs_ok labels i rest rest1 hr)
    | _ =>
      simp only [resolveLabelArgs] at h
      split at h
      · cases h
      · rename_i rest1 hr
        simp only [Except.ok.injEq] at h
        subst h
        exact List.Forall₂.cons rfl (resolveLabelArgs_ok labels i rest rest1 hr)

theorem resolveLabelArgs_error (labels : List PexLabel) (i : Nat) :
    ∀ (vs : List PexValue) (msg : String), resolveLabelArgs labels i vs = .error msg →
      (∀ l, .Label l ∈ vs → l < labels.length) → msg = "Unresolved label!"
  | [], msg, h, _ => by simp [resolveLabelArgs] at h
  | v :: rest, msg, h, hin => by
    have hrest : ∀ l, PexValue.Label l ∈ rest → l < labels.length :=
      fun l hl => hin l (List.mem_cons_of_mem _ hl)
    cases v with
    | Label l =>
      simp only [resolveLabelArgs] at h
      split at h
      · rename_i hl
        have := hin l (List.mem_cons_self _ _)
        rw [List.getElem?_eq_none_iff] at hl
        omega
      · split at h
        · simp only [Except.error.injEq] at h
          exact h.symm
        · split at h
          · rename_i msg1 hr
            simp only [Except.error.injEq] at h
            subst h
            exact resolveLabelArgs_error labels i rest _ hr hrest
          · cases h
    | _ =>
      simp only [resolveLabelArgs] at h
      split at h
      · rename_i msg1 hr
        simp only [Except.error.injEq] at h
        subst h
        exact resolveLabelArgs_error labels i rest _ hr hrest
      · cases h

theorem resolveLabels_ok (labels : List PexLabel) :
    ∀ (instrs : List PexInstruction) (i : Nat) (out : List PexInstruction),
      resolveLabels labels i instrs = .ok out →
        out.length = instrs.length ∧
        ∀ k instr, instrs[k]? = some instr →
          ∃ args1, resolveLabelArgs labels (i + k) instr.args = .ok args1 ∧
            out[k]? = some { instr with args := args1 }
  | [], i, out, h => by
    simp only [resolveLabels, Except.ok.injEq] at h
    subst h
    simp
  | instr :: rest, i, out, h => by
    simp only [resolveLabels] at h
    split at h
    · cases h
    · rename_i args1 ha
      split at h
      · cases h
      · rename_i rest1 hr
        simp only [Except.ok.injEq] at h
        subst h
        have ih := resolveLabels_ok labels rest (i + 1) rest1 hr
        refine ⟨by simp [ih.1], ?_⟩
        intro k instr1 hk
        cases k with
        | zero =>
          simp only [List.getElem?_cons_zero, Option.some.injEq] at hk
          subst hk
          exact ⟨args1, ha, by simp⟩
        | succ k =>
          simp only [List.getElem?_cons_succ] at hk
          obtain ⟨args2, h2, h3⟩ := ih.2 k instr1 hk
          refine ⟨args2, ?_, by simpa using h3⟩
          rw [show i + (k + 1) = i + 1 + k by omega]
          exact h2

theorem resolveLabels_error (labels : List PexLabel) :
    ∀ (instrs : List PexInstruction) (i : Nat) (msg : String),
      resolveLabels labels i instrs = .error msg →
        (∀ instr ∈ instrs, ∀ l, .Label l ∈ instr.args → l < labels.length) →
          msg = "Unresolved label!"
  | [], i, msg, h, _ => by simp [resolveLabels] at h
  | instr :: rest, i, msg, h, hin => by
    simp only [resolveLabels] at h
    split at h
    · rename_i msg1 ha
      simp only [Except.error.injEq] at h
      subst h
      exact resolveLabelArgs_error labels i _ _ ha (hin instr (List.mem_cons_self _ _))
    · split at h
      · rename_i msg1 hr
        simp only [Except.error.injEq] at h
        subst h
        exact resolveLabels_error labels rest (i + 1) _ hr
          (fun instr1 h1 => hin instr1 (List.mem_cons_of_mem _ h1))
      · cases h

theorem populateFunction_ok (b : PexFunctionBuilder) (func : PexFunction)
    (debInfo : PexDebugFunctionInfo) (out : PexFunction × PexDebugFunctionInfo)
    (h : populateFunction b func debInfo = .ok out) :
    ∃ instructions, resolveLabels b.labels 0 b.instructions = .ok instructions ∧
      b.labels.any (fun l => l.targetIdx = SIZE_MAX) = false ∧
      b.tempVarRefs.any (fun tmp => tmp.var.isNone) = false ∧
      b.instructionLocations.any (fun l => l.line > 65535) = false ∧
      out = ({ func with instructions := instructions, locals := b.locals },
        { debInfo with instructionLineMap :=
            debInfo.instructionLineMap ++ b.instructionLocations.map (fun l => l.line % 65536) }) := by
  unfold populateFunction at h
  split at h
  · cases h
  · rename_i instructions hr
    split at h
    · cases h
    · split at h
      · cases h
      · split at h
        · cases h
        · rename_i h1 h2 h3
          simp only [Except.ok.injEq] at h
          exact ⟨instructions, hr, by simpa using h1, by simpa using h2, by simpa using h3, h.symm⟩

theorem resolveLabelArgs_of_bound (labels : List PexLabel) (i : Nat) :
    ∀ (vs : List PexValue),
      (∀ l, .Label l ∈ vs →
        ∃ label : PexLabel, labels[l]? = some label ∧ label.targetIdx ≠ SIZE_MAX) →
      ∃ vs1, resolveLabelArgs labels i vs = .ok vs1
  | [], _ => ⟨[], rfl⟩
  | v :: rest, hin => by
    obtain ⟨rest1, hr⟩ := resolveLabelArgs_of_bound labels i rest
      (fun l hl => hin l (List.mem_cons_of_mem _ hl))
    cases v with
    | Label l =>
      obtain ⟨label, hl, hb⟩ := hin l (List.mem_cons_self _ _)
      simp only [resolveLabelArgs, hl, hb, if_false, hr]
      exact ⟨_, rfl⟩
    | _ =>
      simp only [resolveLabelArgs, hr]
      exact ⟨_, rfl⟩

theorem resolveLabels_of_bound (labels : List PexLabel) :
    ∀ (instrs : List PexInstruction) (i : Nat),
      (∀ instr ∈ instrs, ∀ l, .Label l ∈ instr.args →
        ∃ label : PexLabel, labels[l]? = some label ∧ label.targetIdx ≠ SIZE_MAX) →
      ∃ out, resolveLabels labels i instrs = .ok out
  | [], _, _ => ⟨[], rfl⟩
  | instr :: rest, i, hin => by
    obtain ⟨args1, ha⟩ := resolveLabelArgs_of_bound labels i instr.args
      (hin instr (List.mem_cons_self _ _))
    obtain ⟨rest1, hr⟩ := resolveLabels_of_bound labels rest (i + 1)
      (fun instr1 h1 => hin instr1 (List.mem_cons_of_mem _ h1))
    simp only [resolveLabels, ha, hr]
    exact ⟨_, rfl⟩

/-- Claim C21: when `populateFunction` succeeds, the instructions handed over are the stored
ones with the same opcodes and the same variadic arguments; no fixed argument has tag Label,
a fixed argument that was a Label bound to target `t` at instruction index `i` has become
the Integer `(int32_t)(t - i)`, which is `t - i` whenever that offset fits in 32 bits, and
every other fixed argument is unchanged. A forward branch to a label bound three
instructions later finalizes with the argument +3. A label that is bound and referenced only
by a variadic argument is left as a Label. When a fixed or a variadic argument refers to a
label of the builder that was never bound, `populateFunction` is fatal: with "Unresolved
label!" if the reference is a fixed argument and every fixed Label argument refers to a
label of the builder, with "Unused unresolved label!" if every fixed Label argument refers
to a bound label, as when the only reference is variadic. It is fatal for every label of
the builder that was never bound, referenced or not. -/
theorem populateFunction_resolves_fixed_labels :
    (∀ (b : PexFunctionBuilder) (func : PexFunction) (debInfo : PexDebugFunctionInfo)
        (out : PexFunction × PexDebugFunctionInfo),
      populateFunction b func debInfo = .ok out →
        out.1.instructions.length = b.instructions.length ∧
        ∀ (i : Nat) (instr : PexInstruction), b.instructions[i]? = some instr →
          ∃ instr1 : PexInstruction, out.1.instructions[i]? = some instr1 ∧
            instr1.opCode = instr.opCode ∧
            instr1.variadicArgs = instr.variadicArgs ∧
            instr1.args.length = instr.args.length ∧
            (∀ v ∈ instr1.args, v.type ≠ .Label) ∧
            ∀ (j : Nat) (v : PexValue), instr.args[j]? = some v →
              match v with
              | .Label l => ∃ label : PexLabel, b.labels[l]? = some label ∧
                  label.targetIdx ≠ SIZE_MAX ∧
                  instr1.args[j]? = some (.Integer (toInt32 (sizeSub label.targetIdx i))) ∧
                  (-(2 : Int) ^ 31 ≤ (label.targetIdx : Int) - i →
                    (label.targetIdx : Int) - i < 2 ^ 31 →
                      instr1.args[j]? = some (.Integer ((label.targetIdx : Int) - i)))
              | _ => instr1.args[j]? = some v) ∧
    (∀ (b : PexFunctionBuilder) (func : PexFunction) (debInfo : PexDebugFunctionInfo)
        (instr : PexInstruction) (l : Nat) (label : PexLabel),
      instr ∈ b.instructions → .Label l ∈ instr.args ++ instr.variadicArgs →
        b.labels[l]? = some label → label.targetIdx = SIZE_MAX →
          (∃ msg, populateFunction b func debInfo = .error msg) ∧
          (.Label l ∈ instr.args →
            (∀ instr1 ∈ b.instructions, ∀ l1, .Label l1 ∈ instr1.args →
              l1 < b.labels.length) →
            populateFunction b func debInfo = .error "Unresolved label!") ∧
          ((∀ instr1 ∈ b.instructions, ∀ l1, .Label l1 ∈ instr1.args →
              ∃ label1 : PexLabel, b.labels[l1]? = some label1 ∧
                label1.targetIdx ≠ SIZE_MAX) →
            populateFunction b func debInfo = .error "Unused unresolved label!")) ∧
    (∀ (b : PexFunctionBuilder) (func : PexFunction) (debInfo : PexDebugFunctionInfo)
        (label : PexLabel),
      label ∈ b.labels → label.targetIdx = SIZE_MAX →
        ∃ msg, populateFunction b func debInfo = .error msg) ∧
    (runOps exampleTable (.fresh exampleLocation) exampleBranchOps = .ok exampleBranchBuilder ∧
      (populateFunction exampleBranchBuilder {} {}).toOption.map
        (fun out => out.1.instructions.map (fun instr => instr.args)) =
          some [[.Integer 3], [], [], []]) ∧
    (runOps exampleTable (.fresh exampleLocation) exampleUnboundVariadicOps).bind
        (fun b => populateFunction b {} {}) = .error "Unused unresolved label!" := by
  have hunbound : ∀ (b : PexFunctionBuilder) (func : PexFunction)
      (debInfo : PexDebugFunctionInfo) (label : PexLabel),
      label ∈ b.labels → label.targetIdx = SIZE_MAX →
        (∃ msg, populateFunction b func debInfo = .error msg) ∧
        ∀ instructions, resolveLabels b.labels 0 b.instructions = .ok instructions →
          populateFunction b func debInfo = .error "Unused unresolved label!" := by
    intro b func debInfo label hmem hun
    have hany : b.labels.any (fun l => decide (l.targetIdx = SIZE_MAX)) = true := by
      rw [List.any_eq_true]
      exact ⟨label, hmem, by simpa using hun⟩
    constructor
    · cases hr : resolveLabels b.labels 0 b.instructions with
      | error msg => exact ⟨msg, by simp [populateFunction, hr]⟩
      | ok instructions =>
        exact ⟨"Unused unresolved label!", by simp only [populateFunction, hr, hany, if_true]⟩
    · intro instructions hr
      simp only [populateFunction, hr, hany, if_true]
  refine ⟨?_, ?_, fun b func debInfo label hmem hun => (hunbound b func debInfo label hmem hun).1,
    by decide, by decide⟩
  · intro b func debInfo out h
    obtain ⟨instructions, hr, -, -, -, rfl⟩ := populateFunction_ok b func debInfo out h
    obtain ⟨hlen, hget⟩ := resolveLabels_ok b.labels b.instructions 0 instructions hr
    refine ⟨hlen, ?_⟩
    intro i instr hi
    obtain ⟨args1, ha, ho⟩ := hget i instr hi
    rw [Nat.zero_add] at ha
    have hf := resolveLabelArgs_ok b.labels i instr.args args1 ha
    refine ⟨_, ho, rfl, rfl, hf.length_eq.symm, ?_, ?_⟩
    · intro v hv
      obtain ⟨j, hj, rfl⟩ := List.getElem_of_mem hv
      have hj' : j < instr.args.length := by rw [hf.length_eq]; exact hj
      have := List.Forall₂.get hf hj' hj
      simp only [List.get_eq_getElem] at this
      revert this
      cases instr.args[j] with
      | Label l =>
        rintro ⟨label, -, -, h3⟩
        simp only at hj
        rw [h3]
        simp [PexValue.type]
      | _ =>
        intro h3
        simp only at h3
        rw [h3]
        simp [PexValue.type]
    · intro j v hjv
      obtain ⟨hj, rfl⟩ := List.getElem?_eq_some_iff.mp hjv
      have hj' : j < args1.length := by rw [← hf.length_eq]; exact hj
      have := List.Forall₂.get hf hj hj'
      simp only [List.get_eq_getElem] at this
      revert this
      cases instr.args[j] with
      | Label l =>
        rintro ⟨label, h1, h2, h3⟩
        refine ⟨label, h1, h2, ?_, ?_⟩
        · simp only [List.getElem?_eq_getElem hj', h3]
        · intro hlo hhi
          simp only [List.getElem?_eq_getElem hj', h3, toInt32_sizeSub _ _ hlo hhi]
      | _ =>
        intro h3
        simp only [List.getElem?_eq_getElem hj', h3]
  · intro b func debInfo instr l label hi hany hlab hun
    have hmem : label ∈ b.labels := List.mem_iff_getElem?.mpr ⟨l, hlab⟩
    refine ⟨(hunbound b func debInfo label hmem hun).1, ?_, fun hbound => ?_⟩
    swap
    · obtain ⟨instructions, hr⟩ := resolveLabels_of_bound b.labels b.instructions 0 hbound
      exact (hunbound b func debInfo label hmem hun).2 instructions hr
    intro hl hin
    have hnot : ∀ instructions, resolveLabels b.labels 0 b.instructions ≠ .ok instructions := by
      intro instructions hr
      obtain ⟨k, hk, rfl⟩ := List.getElem_of_mem hi
      obtain ⟨args1, ha, -⟩ :=
        (resolveLabels_ok b.labels b.instructions 0 instructions hr).2 k _
          (List.getElem?_eq_getElem hk)
      have hf := resolveLabelArgs_ok b.labels (0 + k) _ args1 ha
      obtain ⟨j, hj, hjv⟩ := List.getElem_of_mem hl
      have hj' : j < args1.length := by rw [← hf.length_eq]; exact hj
      have := List.Forall₂.get hf hj hj'
      simp only [List.get_eq_getElem, hjv] at this
      obtain ⟨label1, h1, h2, -⟩ := this
      rw [hlab] at h1
      cases h1
      exact h2 hun
    cases hr : resolveLabels b.labels 0 b.instructions with
    | ok instructions => exact absurd hr (hnot instructions)
    | error msg =>
      rw [resolveLabels_error b.labels b.instructions 0 msg hr hin] at hr
      simp [populateFunction, hr]

/-- Instance of C21: the builder with one forward branch, which the calls of
`exampleBranchOps` build, finalizes, and the instructions handed over are as many as the
stored ones. -/
theorem populateFunction_resolves_fixed_labels_witness :
    populateFunction exampleBranchBuilder {} {} = .ok exampleBranchOutput ∧
      exampleBranchOutput.1.instructions.length = exampleBranchBuilder.instructions.length :=
  ⟨by decide,
   (populateFunction_resolves_fixed_labels.1 exampleBranchBuilder {} {} exampleBranchOutput
      (by decide)).1⟩

/-- Counterexample to C21: a call whose variadic arguments hold a bound label finalizes
without a fatal, and the variadic argument handed over still has tag Label. -/
theorem populateFunction_keeps_variadic_label :
    ((runOps exampleTable (.fresh exampleLocation) exampleVariadicLabelOps).bind
        (fun b => populateFunction b {} {})).toOption.map
      (fun out => out.1.instructions.map (fun instr => instr.variadicArgs)) =
        some [[.Label 0]] := by
  decide

theorem freeValueIfTemp_frame (b : PexFunctionBuilder) (v : PexValue) :
    ∃ f, freeValueIfTemp b v = { b with freeTempVars := f } := by
  unfold freeValueIfTemp
  simp only
  split
  · exact ⟨b.freeTempVars, rfl⟩
  · split
    · exact ⟨b.freeTempVars, rfl⟩
    · exact ⟨_, rfl⟩

theorem materialize_frame (b : PexFunctionBuilder) (f : List (PexString × List PexLocalVariable))
    (v : PexValue) : materialize { b with freeTempVars := f } v = materialize b v := by
  cases v <;> rfl

theorem rewriteOperands_ok :
    ∀ (vs : List PexValue) (b b2 : PexFunctionBuilder) (vs1 : List PexValue),
      rewriteOperands b vs = .ok (b2, vs1) →
        (∃ f, b2 = { b with freeTempVars := f }) ∧
        List.Forall₂ (fun v v1 => materialize b v = .ok v1) vs vs1
  | [], b, b2, vs1, h => by
    simp only [rewriteOperands, Except.ok.injEq, Prod.mk.injEq] at h
    obtain ⟨rfl, rfl⟩ := h
    exact ⟨⟨b.freeTempVars, rfl⟩, List.Forall₂.nil⟩
  | v :: rest, b, b2, vs1, h => by
    simp only [rewriteOperands] at h
    split at h
    · cases h
    · split at h
      · cases h
      · rename_i v1 hv
        obtain ⟨f1, hf1⟩ := freeValueIfTemp_frame b v1
        rw [hf1] at h
        split at h
        · cases h
        · rename_i b3 rest1 hr
          simp only [Except.ok.injEq, Prod.mk.injEq] at h
          obtain ⟨rfl, rfl⟩ := h
          obtain ⟨⟨f2, hf2⟩, hall⟩ := rewriteOperands_ok rest _ _ _ hr
          refine ⟨⟨f2, hf2⟩, List.Forall₂.cons hv ?_⟩
          simpa only [materialize_frame] using hall

theorem rewriteOperands_error :
    ∀ (vs : List PexValue) (b : PexFunctionBuilder) (msg : String),
      rewriteOperands b vs = .error msg →
        msg ≠ "Attempted to use a temporary var before it's been assigned!"
  | [], b, msg, h => by simp [rewriteOperands] at h
  | v :: rest, b, msg, h => by
    simp only [rewriteOperands] at h
    split at h
    · simp only [Except.error.injEq] at h
      subst h
      decide
    · split at h
      · rename_i msg1 hm
        simp only [Except.error.injEq] at h
        subst h
        cases v with
        | TemporaryVar t =>
          simp only [materialize] at hm
          split at hm
          · simp only [Except.error.injEq] at hm
            subst hm
            decide
          · split at hm <;> cases hm
        | _ => cases hm
      · split at h
        · rename_i msg1 hr
          simp only [Except.error.injEq] at h
          subst h
          exact rewriteOperands_error rest _ _ hr
        · cases h

theorem rewriteInstruction_ok (b b2 : PexFunctionBuilder) (instr instr2 : PexInstruction)
    (h : rewriteInstruction b instr = .ok (b2, instr2)) :
    (∃ f, b2 = { b with freeTempVars := f }) ∧
      instr2.opCode = instr.opCode ∧
      List.Forall₂ (fun v v1 => materialize b v = .ok v1) instr.args instr2.args ∧
      List.Forall₂ (fun v v1 => materialize b v = .ok v1) instr.variadicArgs
        instr2.variadicArgs := by
  unfold rewriteInstruction at h
  split at h
  · cases h
  · rename_i b1 args1 h1
    split at h
    · cases h
    · rename_i b2 variadic1 h2
      simp only [Except.ok.injEq, Prod.mk.injEq] at h
      obtain ⟨rfl, rfl⟩ := h
      obtain ⟨⟨f1, rfl⟩, ha⟩ := rewriteOperands_ok _ _ _ _ h1
      obtain ⟨⟨f2, rfl⟩, hv⟩ := rewriteOperands_ok _ _ _ _ h2
      refine ⟨⟨f2, rfl⟩, rfl, ha, ?_⟩
      simpa only [materialize_frame] using hv

theorem rewriteInstruction_error (b : PexFunctionBuilder) (instr : PexInstruction)
    (msg : String) (h : rewriteInstruction b instr = .error msg) :
    msg ≠ "Attempted to use a temporary var before it's been assigned!" := by
  unfold rewriteInstruction at h
  split at h
  · rename_i msg1 h1
    simp only [Except.error.injEq] at h
    subst h
    exact rewriteOperands_error _ _ _ h1
  · split at h
    · rename_i msg1 h1
      simp only [Except.error.injEq] at h
      subst h
      exact rewriteOperands_error _ _ _ h1
    · cases h

theorem getDestArgIndexForOpCode_error (table : OpCodeTable) (op : PexOpCode) (msg : String)
    (h : getDestArgIndexForOpCode table op = .error msg) : msg = "Unknown PexOpCode!" := by
  unfold getDestArgIndexForOpCode at h
  split at h <;> first | cases h | skip
  split at h
  · cases h
  · simp only [Except.error.injEq] at h
    exact h.symm

theorem bindDestination_ok (table : OpCodeTable) (b b3 : PexFunctionBuilder)
    (instr instr3 : PexInstruction) (h : bindDestination table b instr = .ok (b3, instr3)) :
    ∃ destIdx, getDestArgIndexForOpCode table instr.opCode = .ok destIdx ∧
      ((b3 = b ∧ instr3 = instr ∧
          (destIdx = -1 ∨ (0 ≤ destIdx ∧
            ∃ v, instr.args[destIdx.toNat]? = some v ∧ v.type ≠ .TemporaryVar))) ∨
       (0 ≤ destIdx ∧ ∃ t ref, instr.args[destIdx.toNat]? = some (.TemporaryVar t) ∧
          b.tempVarRefs[t]? = some ref ∧
          ((∃ x xs, b.freeTempVars.lookup ref.type = some (x :: xs) ∧
              b3 = reuseLocal b t ref x xs ∧
              instr3 = { instr with args := instr.args.set destIdx.toNat (.Identifier ((x :: xs).getLast (List.cons_ne_nil x xs)).name) }) ∨
           ((∀ x xs, b.freeTempVars.lookup ref.type ≠ some (x :: xs)) ∧
              b3 = newLocal b t ref ∧
              instr3 = { instr with args := instr.args.set destIdx.toNat (.Identifier (tempName b.currentTempI)) })))) := by
  unfold bindDestination at h
  split at h
  · cases h
  · rename_i destIdx hd
    refine ⟨destIdx, hd, ?_⟩
    split at h
    · simp only [Except.ok.injEq, Prod.mk.injEq] at h
      rename_i h1
      exact Or.inl ⟨h.1.symm, h.2.symm, Or.inl h1⟩
    · split at h
      · cases h
      · rename_i h1 h2
        have hpos : 0 ≤ destIdx := by omega
        split at h
        · cases h
        · rename_i t ht
          split at h
          · cases h
          · rename_i ref href
            refine Or.inr ⟨hpos, t, ref, ht, href, ?_⟩
            split at h
            · rename_i x xs hx
              simp only [Except.ok.injEq, Prod.mk.injEq] at h
              exact Or.inl ⟨x, xs, hx, h.1.symm, h.2.symm⟩
            · rename_i hx
              simp only [Except.ok.injEq, Prod.mk.injEq] at h
              exact Or.inr ⟨fun x xs hx1 => hx x xs hx1, h.1.symm, h.2.symm⟩
        · rename_i v hnt hv
          simp only [Except.ok.injEq, Prod.mk.injEq] at h
          refine Or.inl ⟨h.1.symm, h.2.symm, Or.inr ⟨hpos, v, hv, ?_⟩⟩
          cases v with
          | TemporaryVar t => exact absurd rfl (hnt t)
          | _ => simp [PexValue.type]

theorem bindDestination_error (table : OpCodeTable) (b : PexFunctionBuilder)
    (instr : PexInstruction) (msg : String) (h : bindDestination table b instr = .error msg) :
    msg ≠ "Attempted to use a temporary var before it's been assigned!" := by
  unfold bindDestination at h
  split at h
  · rename_i msg1 h1
    simp only [Except.error.injEq] at h
    subst h
    rw [getDestArgIndexForOpCode_error table _ _ h1]
    decide
  · split at h
    · cases h
    · split at h
      · simp only [Except.error.injEq] at h
        subst h
        decide
      · split at h
        · simp only [Except.error.injEq] at h
          subst h
          decide
        · split at h
          · simp only [Except.error.injEq] at h
            subst h
            decide
          · split at h <;> cases h
        · cases h

theorem assignOperands_error (table : OpCodeTable) (b : PexFunctionBuilder)
    (instr : PexInstruction) (msg : String) (h : assignOperands table b instr = .error msg) :
    msg ≠ "Attempted to use a temporary var before it's been assigned!" := by
  unfold assignOperands at h
  split at h
  · rename_i msg1 h1
    simp only [Except.error.injEq] at h
    subst h
    exact rewriteInstruction_error _ _ _ h1
  · exact bindDestination_error _ _ _ _ h

theorem isDeadAssign_iff (dst src : PexValue) :
    isDeadAssign dst src = true ↔ ∃ s, dst = .Identifier s ∧ src = .Identifier s := by
  cases dst <;> cases src <;> simp [isDeadAssign, eq_comm]

theorem push_ok (table : OpCodeTable) (b b1 : PexFunctionBuilder) (instr : PexInstruction)
    (h : push table b instr = .ok b1) :
    ∃ b3 instr3, assignOperands table b instr = .ok (b3, instr3) ∧
      (∀ v ∈ instr3.args ++ instr3.variadicArgs, v.type ≠ .TemporaryVar) ∧
      ((instr3.opCode = .Assign ∧
          (∃ s, instr3.args[0]? = some (.Identifier s) ∧ instr3.args[1]? = some (.Identifier s)) ∧
          b1 = b3) ∨
       (¬ (instr3.opCode = .Assign ∧
          ∃ s, instr3.args[0]? = some (.Identifier s) ∧ instr3.args[1]? = some (.Identifier s)) ∧
          b1 = b3.append instr3)) := by
  unfold push at h
  split at h
  · cases h
  · rename_i b3 instr3 ha
    refine ⟨b3, instr3, ha, ?_⟩
    split at h
    · cases h
    · rename_i hno
      refine ⟨by simpa [or_imp, forall_and] using hno, ?_⟩
      split at h
      · rename_i hop
        split at h
        · rename_i dst src hd hs
          split at h
          · rename_i hdead
            simp only [Except.ok.injEq] at h
            obtain ⟨s, rfl, rfl⟩ := (isDeadAssign_iff dst src).mp hdead
            exact Or.inl ⟨hop, ⟨s, hd, hs⟩, h.symm⟩
          · rename_i hdead
            simp only [Except.ok.injEq] at h
            refine Or.inr ⟨?_, h.symm⟩
            rintro ⟨-, s, h0, h1⟩
            rw [hd] at h0
            rw [hs] at h1
            cases h0
            cases h1
            exact hdead ((isDeadAssign_iff _ _).mpr ⟨s, rfl, rfl⟩)
        · cases h
      · rename_i hop
        simp only [Except.ok.injEq] at h
        exact Or.inr ⟨fun hh => hop hh.1, h.symm⟩

theorem assignOperands_ok (table : OpCodeTable) (b b3 : PexFunctionBuilder)
    (instr instr3 : PexInstruction) (h : assignOperands table b instr = .ok (b3, instr3)) :
    ∃ b2 instr2, rewriteInstruction b instr = .ok (b2, instr2) ∧
      bindDestination table b2 instr2 = .ok (b3, instr3) := by
  unfold assignOperands at h
  split at h
  · cases h
  · rename_i b2 instr2 h2
    exact ⟨b2, instr2, h2, h⟩

theorem materialize_eq_temporary (b : PexFunctionBuilder) (v : PexValue) (t : Nat)
    (h : materialize b v = .ok (.TemporaryVar t)) :
    v = .TemporaryVar t ∧ ∃ ref, b.tempVarRefs[t]? = some ref ∧ ref.var = none := by
  cases v with
  | TemporaryVar t1 =>
    simp only [materialize] at h
    split at h
    · cases h
    · rename_i ref href
      split at h
      · cases h
      · rename_i hvar
        simp only [Except.ok.injEq, PexValue.TemporaryVar.injEq] at h
        subst h
        exact ⟨rfl, ref, href, hvar⟩
  | _ => simp [materialize] at h

theorem materialize_replace (b : PexFunctionBuilder) (refs3 : List PexTemporaryVariableRef)
    (hext : ∀ (t : Nat) (ref : PexTemporaryVariableRef),
      b.tempVarRefs[t]? = some ref → ref.var ≠ none → refs3[t]? = some ref)
    (v v1 : PexValue) (hm : materialize b v = .ok v1) (hv1 : v1.type ≠ .TemporaryVar) :
    v1 = replaceTemporaries refs3 v := by
  cases v with
  | TemporaryVar t =>
    simp only [materialize] at hm
    split at hm
    · cases hm
    · rename_i ref href
      split at hm
      · rename_i loc hloc
        simp only [Except.ok.injEq] at hm
        subst hm
        simp only [replaceTemporaries, hext t ref href (by simp [hloc]), hloc]
      · simp only [Except.ok.injEq] at hm
        subst hm
        simp [PexValue.type] at hv1
  | _ =>
    simp only [materialize, Except.ok.injEq] at hm
    subst hm
    rfl

theorem forall₂_materialize_replace (b : PexFunctionBuilder)
    (refs3 : List PexTemporaryVariableRef)
    (hext : ∀ (t : Nat) (ref : PexTemporaryVariableRef),
      b.tempVarRefs[t]? = some ref → ref.var ≠ none → refs3[t]? = some ref)
    (vs vs1 : List PexValue)
    (hf : List.Forall₂ (fun v v1 => materialize b v = .ok v1) vs vs1)
    (hno : ∀ v ∈ vs1, v.type ≠ .TemporaryVar) :
    vs1 = vs.map (replaceTemporaries refs3) := by
  induction hf with
  | nil => rfl
  | cons h _ ih =>
    rw [List.map_cons, ← materialize_replace b refs3 hext _ _ h (hno _ (List.mem_cons_self _ _)),
      ← ih (fun w hw => hno w (List.mem_cons_of_mem _ hw))]

theorem set_materialize_replace (b : PexFunctionBuilder) (t : Nat)
    (ref : PexTemporaryVariableRef) (loc : PexLocalVariable)
    (href : b.tempVarRefs[t]? = some ref) (hvar : ref.var = none)
    (vs vs1 : List PexValue)
    (hf : List.Forall₂ (fun v v1 => materialize b v = .ok v1) vs vs1) :
    ∀ (d : Nat), vs1[d]? = some (.TemporaryVar t) →
      (∀ v ∈ vs1.set d (.Identifier loc.name), v.type ≠ .TemporaryVar) →
        vs1.set d (.Identifier loc.name) =
          vs.map (replaceTemporaries (b.tempVarRefs.set t { ref with var := some loc })) := by
  have hext : ∀ (t1 : Nat) (ref1 : PexTemporaryVariableRef),
      b.tempVarRefs[t1]? = some ref1 → ref1.var ≠ none →
        (b.tempVarRefs.set t { ref with var := some loc })[t1]? = some ref1 := by
    intro t1 ref1 h1 h2
    have hne : t ≠ t1 := by
      rintro rfl
      rw [href] at h1
      cases h1
      exact h2 hvar
    rw [List.getElem?_set_ne hne]
    exact h1
  induction hf with
  | nil =>
    intro d hd
    simp at hd
  | cons h hrest ih =>
    rename_i v v1 vs vs1
    intro d hd hno
    cases d with
    | zero =>
      simp only [List.getElem?_cons_zero, Option.some.injEq] at hd
      subst hd
      have hv := (materialize_eq_temporary b v t h).1
      subst hv
      have hlt : t < b.tempVarRefs.length := (List.getElem?_eq_some_iff.mp href).1
      have hget : (b.tempVarRefs.set t { ref with var := some loc })[t]? =
          some { ref with var := some loc } := by
        rw [List.getElem?_set_self hlt]
      simp only [List.set_cons_zero, List.map_cons, replaceTemporaries, hget]
      congr 1
      apply forall₂_materialize_replace b _ hext vs vs1 hrest
      intro w hw
      exact hno w (by simp [hw])
    | succ d =>
      simp only [List.getElem?_cons_succ] at hd
      simp only [List.set_cons_succ, List.map_cons]
      rw [← materialize_replace b _ hext v v1 h (hno v1 (by simp)),
        ih d hd (fun w hw => hno w (by simp [hw]))]

theorem forall₂_temporary_unbound (b : PexFunctionBuilder) (vs vs1 : List PexValue)
    (hf : List.Forall₂ (fun v v1 => materialize b v = .ok v1) vs vs1) (d t : Nat)
    (hd : vs1[d]? = some (.TemporaryVar t)) :
    vs[d]? = some (.TemporaryVar t) ∧ ∃ ref, b.tempVarRefs[t]? = some ref ∧ ref.var = none := by
  obtain ⟨hd1, hd2⟩ := List.getElem?_eq_some_iff.mp hd
  have hd0 : d < vs.length := by rw [hf.length_eq]; exact hd1
  have := List.Forall₂.get hf hd0 hd1
  simp only [List.get_eq_getElem, hd2] at this
  obtain ⟨h1, h2⟩ := materialize_eq_temporary b _ t this
  exact ⟨by rw [List.getElem?_eq_getElem hd0, h1], h2⟩

theorem set_ext_of_unbound (b : PexFunctionBuilder) (t : Nat) (ref new : PexTemporaryVariableRef)
    (href : b.tempVarRefs[t]? = some ref) (hvar : ref.var = none) :
    ∀ (t1 : Nat) (ref1 : PexTemporaryVariableRef),
      b.tempVarRefs[t1]? = some ref1 → ref1.var ≠ none →
        (b.tempVarRefs.set t new)[t1]? = some ref1 := by
  intro t1 ref1 h1 h2
  have hne : t ≠ t1 := by
    rintro rfl
    rw [href] at h1
    cases h1
    exact h2 hvar
  rw [List.getElem?_set_ne hne]
  exact h1

theorem bound_rewritten (b : PexFunctionBuilder)
    (instr instr2 : PexInstruction) (d t : Nat) (ref : PexTemporaryVariableRef)
    (loc : PexLocalVariable)
    (hop : instr2.opCode = instr.opCode)
    (ha : List.Forall₂ (fun v v1 => materialize b v = .ok v1) instr.args instr2.args)
    (hv : List.Forall₂ (fun v v1 => materialize b v = .ok v1) instr.variadicArgs
      instr2.variadicArgs)
    (hd : instr2.args[d]? = some (.TemporaryVar t))
    (href : b.tempVarRefs[t]? = some ref)
    (hno : hasNoTemporary { instr2 with args := instr2.args.set d (.Identifier loc.name) }) :
    ({ instr2 with args := instr2.args.set d (.Identifier loc.name) } : PexInstruction) =
      rewrittenInstruction (b.tempVarRefs.set t { ref with var := some loc }) instr := by
  obtain ⟨-, ref1, href1, hvar⟩ := forall₂_temporary_unbound b _ _ ha d t hd
  rw [href] at href1
  cases href1
  have h1 := set_materialize_replace b t ref loc href hvar _ _ ha d hd
    (fun v hv1 => hno v (List.mem_append_left _ hv1))
  have h2 := forall₂_materialize_replace b _
    (set_ext_of_unbound b t ref { ref with var := some loc } href hvar) _ _ hv
    (fun v hv1 => hno v (List.mem_append_right _ hv1))
  cases instr2
  cases instr
  simp only at hop h1 h2 ⊢
  simp only [rewrittenInstruction, hop, h1, h2]

theorem assignOperands_rewritten (table : OpCodeTable) (b b3 : PexFunctionBuilder)
    (instr instr3 : PexInstruction) (h : assignOperands table b instr = .ok (b3, instr3))
    (hno : hasNoTemporary instr3) :
    instr3 = rewrittenInstruction b3.tempVarRefs instr ∧
      b3.instructions = b.instructions ∧
      b3.instructionLocations = b.instructionLocations ∧
      b3.currentLocation = b.currentLocation ∧
      b3.labels = b.labels := by
  obtain ⟨b2, instr2, h2, h3⟩ := assignOperands_ok table b b3 instr instr3 h
  obtain ⟨⟨f, rfl⟩, hop, ha, hv⟩ := rewriteInstruction_ok b b2 instr instr2 h2
  obtain ⟨destIdx, -, hcase⟩ := bindDestination_ok table _ b3 instr2 instr3 h3
  rcases hcase with ⟨rfl, rfl, -⟩ | ⟨-, t, ref, hd, href, hcase⟩
  · refine ⟨?_, rfl, rfl, rfl, rfl⟩
    have h1 := forall₂_materialize_replace b b.tempVarRefs (fun _ _ h _ => h) _ _ ha
      (fun v hv1 => hno v (List.mem_append_left _ hv1))
    have h2 := forall₂_materialize_replace b b.tempVarRefs (fun _ _ h _ => h) _ _ hv
      (fun v hv1 => hno v (List.mem_append_right _ hv1))
    cases instr3
    cases instr
    simp only at hop h1 h2 ⊢
    simp only [rewrittenInstruction, hop, h1, h2]
  · rcases hcase with ⟨x, xs, -, rfl, rfl⟩ | ⟨-, rfl, rfl⟩
    · exact ⟨bound_rewritten b instr instr2 _ t ref _ hop ha hv hd href hno,
        rfl, rfl, rfl, rfl⟩
    · exact ⟨bound_rewritten b instr instr2 _ t ref ⟨tempName b.currentTempI, ref.type⟩
        hop ha hv hd href hno, rfl, rfl, rfl, rfl⟩

theorem push_cases (table : OpCodeTable) (b b1 : PexFunctionBuilder) (instr : PexInstruction)
    (h : push table b instr = .ok b1) :
    hasNoTemporary (rewrittenInstruction b1.tempVarRefs instr) ∧
    (((instr.opCode = .Assign ∧
        ∃ s, (rewrittenInstruction b1.tempVarRefs instr).args[0]? = some (.Identifier s) ∧
          (rewrittenInstruction b1.tempVarRefs instr).args[1]? = some (.Identifier s)) ∧
        b1.instructions = b.instructions ∧
        b1.instructionLocations = b.instructionLocations) ∨
     (¬ (instr.opCode = .Assign ∧
        ∃ s, (rewrittenInstruction b1.tempVarRefs instr).args[0]? = some (.Identifier s) ∧
          (rewrittenInstruction b1.tempVarRefs instr).args[1]? = some (.Identifier s)) ∧
        b1.instructions = b.instructions ++ [rewrittenInstruction b1.tempVarRefs instr] ∧
        b1.instructionLocations = b.instructionLocations ++ [b.currentLocation])) ∧
    b1.currentLocation = b.currentLocation ∧ b1.labels = b.labels := by
  obtain ⟨b3, instr3, ha, hno, hcase⟩ := push_ok table b b1 instr h
  obtain ⟨h1, h2, h3, h4, h5⟩ := assignOperands_rewritten table b b3 instr instr3 ha hno
  have hop : instr3.opCode = instr.opCode := by rw [h1]; rfl
  rcases hcase with ⟨hA, hs, rfl⟩ | ⟨hnot, rfl⟩
  · rw [h1] at hs hno
    exact ⟨hno, Or.inl ⟨⟨hop ▸ hA, hs⟩, h2, h3⟩, h4, h5⟩
  · have hrefs : (b3.append instr3).tempVarRefs = b3.tempVarRefs := rfl
    rw [hrefs]
    rw [h1] at hnot hno
    refine ⟨hno, Or.inr ⟨hnot, ?_, ?_⟩, h4, h5⟩
    · simp only [PexFunctionBuilder.append, h2, h1]
    · simp only [PexFunctionBuilder.append, h3, h4]

/-- Claim C23: when `push` returns without a fatal, it leaves `instructions` and
`instructionLocations` as they were iff the opcode is `Assign` and, after every temporary
among the arguments is replaced by the identifier of its local, the arguments 0 and 1 are
both Identifiers of the same string; in every other case `instructions` is the former list
followed by exactly that instruction with its temporaries replaced, and
`instructionLocations` is the former list followed by the current location. -/
theorem push_drops_exactly_dead_assigns (table : OpCodeTable) (b b1 : PexFunctionBuilder)
    (instr : PexInstruction) (h : push table b instr = .ok b1) :
    ((b1.instructions = b.instructions ∧ b1.instructionLocations = b.instructionLocations) ↔
      (instr.opCode = .Assign ∧
        ∃ s, (rewrittenInstruction b1.tempVarRefs instr).args[0]? = some (.Identifier s) ∧
          (rewrittenInstruction b1.tempVarRefs instr).args[1]? = some (.Identifier s))) ∧
    (¬ (instr.opCode = .Assign ∧
        ∃ s, (rewrittenInstruction b1.tempVarRefs instr).args[0]? = some (.Identifier s) ∧
          (rewrittenInstruction b1.tempVarRefs instr).args[1]? = some (.Identifier s)) →
      b1.instructions = b.instructions ++ [rewrittenInstruction b1.tempVarRefs instr] ∧
      b1.instructionLocations = b.instructionLocations ++ [b.currentLocation]) := by
  obtain ⟨-, hcase, -, -⟩ := push_cases table b b1 instr h
  rcases hcase with ⟨hdead, h1, h2⟩ | ⟨hnot, h1, h2⟩
  · exact ⟨⟨fun _ => hdead, fun _ => ⟨h1, h2⟩⟩, fun hn => absurd hdead hn⟩
  · refine ⟨⟨fun hsame => ?_, fun hd => absurd hd hnot⟩, fun _ => ⟨h1, h2⟩⟩
    have := congrArg List.length (h1.symm.trans hsame.1)
    simp at this

/-- Instance of C23: the assignment of a local to itself, pushed on a fresh builder, leaves
the builder as it was. -/
theorem push_drops_exactly_dead_assigns_witness :
    push exampleTable (.fresh exampleLocation) exampleDeadAssign =
        .ok (.fresh exampleLocation) ∧
      ((PexFunctionBuilder.fresh exampleLocation).instructions =
          (PexFunctionBuilder.fresh exampleLocation).instructions ∧
        (PexFunctionBuilder.fresh exampleLocation).instructionLocations =
          (PexFunctionBuilder.fresh exampleLocation).instructionLocations) :=
  ⟨by decide,
   (push_drops_exactly_dead_assigns exampleTable (.fresh exampleLocation)
      (.fresh exampleLocation) exampleDeadAssign (by decide)).1.mpr
      ⟨rfl, ⟨"x"⟩, rfl, rfl⟩⟩

theorem digitChar_value (k : Nat) (h : k < 10) : (Nat.digitChar k).toNat - 48 = k := by
  interval_cases k <;> rfl

theorem digitsValue_toDigitsCore :
    ∀ (fuel n : Nat) (ds : List Char), n < fuel →
      (Nat.toDigitsCore 10 fuel n ds).foldl (fun value c => value * 10 + (c.toNat - 48)) 0 =
        ds.foldl (fun value c => value * 10 + (c.toNat - 48)) n
  | 0, _, _, h => by omega
  | fuel + 1, n, ds, h => by
    simp only [Nat.toDigitsCore]
    split
    · rename_i h0
      have hn : n % 10 = n := by omega
      have hd := digitChar_value (n % 10) (Nat.mod_lt _ (by decide))
      rw [hn] at hd
      simp only [List.foldl_cons, Nat.zero_mul, Nat.zero_add, hn, hd]
    · rename_i h0
      rw [digitsValue_toDigitsCore fuel (n / 10) _ (by omega)]
      simp only [List.foldl_cons, digitChar_value (n % 10) (Nat.mod_lt _ (by decide))]
      congr 1
      omega

theorem digitsValue_toDigits (n : Nat) : digitsValue (Nat.toDigits 10 n) = n := by
  unfold digitsValue Nat.toDigits
  rw [digitsValue_toDigitsCore (n + 1) n [] (by omega)]
  rfl

theorem tempName_injective : Function.Injective tempName := by
  intro n m h
  have h1 : ("::temp" ++ Nat.repr n) = ("::temp" ++ Nat.repr m) := congrArg PexString.value h
  have h2 := congrArg String.data h1
  simp only [String.data_append, List.append_cancel_left_eq] at h2
  have h3 : Nat.toDigits 10 n = Nat.toDigits 10 m := h2
  rw [← digitsValue_toDigits n, ← digitsValue_toDigits m, h3]

theorem lookup_map_replace (k : PexString) (new : List PexLocalVariable) (k1 : PexString) :
    ∀ (m : List (PexString × List PexLocalVariable)),
      (m.map (fun e => if e.1 = k then (e.1, new) else e)).lookup k1 =
        if k1 = k then (m.lookup k).map (fun _ => new) else m.lookup k1
  | [] => by simp
  | (a, l) :: rest => by
    have ih := lookup_map_replace k new k1 rest
    by_cases hak : a = k
    · by_cases hk : k1 = k
      · simp [List.lookup_cons, hak, hk]
      · have h1 : (k1 == k) = false := by simpa using hk
        simp only [hk, if_false] at ih
        simp [List.lookup_cons, hak, hk, h1, ih]
    · by_cases hk : k1 = k
      · have h1 : (k == a) = false := by simpa using (Ne.symm hak)
        simp only [hk, if_true] at ih
        simp [List.lookup_cons, hak, hk, h1, ih]
      · simp only [hk, if_false] at ih
        simp [List.lookup_cons, hak, hk, ih]

theorem unboundDestination_of_bind (table : OpCodeTable) (b : PexFunctionBuilder)
    (f : List (PexString × List PexLocalVariable)) (instr instr2 : PexInstruction)
    (hop : instr2.opCode = instr.opCode)
    (ha : List.Forall₂ (fun v v1 => materialize b v = .ok v1) instr.args instr2.args)
    (destIdx : Int) (hd : getDestArgIndexForOpCode table instr2.opCode = .ok destIdx) :
    (destIdx = -1 ∨ (0 ≤ destIdx ∧
        ∃ v, instr2.args[destIdx.toNat]? = some v ∧ v.type ≠ .TemporaryVar) →
      unboundDestination table b instr = none) ∧
    (∀ t ref, 0 ≤ destIdx → instr2.args[destIdx.toNat]? = some (.TemporaryVar t) →
      ({ b with freeTempVars := f } : PexFunctionBuilder).tempVarRefs[t]? = some ref →
        unboundDestination table b instr = some ref) := by
  rw [hop] at hd
  constructor
  · rintro (h | ⟨hpos, v, hv, hvt⟩)
    · simp [unboundDestination, hd, h]
    · have hn : ¬ destIdx < 0 := by omega
      simp only [unboundDestination, hd, hn, if_false]
      obtain ⟨hlt, hget⟩ := List.getElem?_eq_some_iff.mp hv
      have hlt0 : destIdx.toNat < instr.args.length := by rw [ha.length_eq]; exact hlt
      have hm := List.Forall₂.get ha hlt0 hlt
      simp only [List.get_eq_getElem, hget] at hm
      rw [List.getElem?_eq_getElem hlt0]
      revert hm
      cases instr.args[destIdx.toNat] with
      | TemporaryVar t =>
        intro hm
        simp only [materialize] at hm
        split at hm
        · cases hm
        · rename_i ref href
          split at hm
          · rename_i loc hloc
            simp [href, hloc]
          · simp only [Except.ok.injEq] at hm
            subst hm
            simp [PexValue.type] at hvt
      | _ => intro _; rfl
  · intro t ref hpos hv href
    have hn : ¬ destIdx < 0 := by omega
    obtain ⟨h1, ref1, href1, hvar⟩ := forall₂_temporary_unbound b _ _ ha _ t hv
    have href0 : b.tempVarRefs[t]? = some ref := href
    rw [href0] at href1
    cases href1
    simp [unboundDestination, hd, hn, h1, href0, hvar]

theorem push_allocates (table : OpCodeTable) (b b1 : PexFunctionBuilder)
    (instr : PexInstruction) (h : push table b instr = .ok b1) :
    ∃ b2 instr2, rewriteInstruction b instr = .ok (b2, instr2) ∧
      b2.locals = b.locals ∧ b2.currentTempI = b.currentTempI ∧
      match unboundDestination table b instr with
      | some ref =>
        (∃ x xs, b2.freeTempVars.lookup ref.type = some (x :: xs) ∧
          b1.locals = b.locals ∧ b1.currentTempI = b.currentTempI ∧
          b1.freeTempVars.lookup ref.type = some (x :: xs).dropLast ∧
          ∀ type, type ≠ ref.type →
            b1.freeTempVars.lookup type = b2.freeTempVars.lookup type) ∨
        ((∀ x xs, b2.freeTempVars.lookup ref.type ≠ some (x :: xs)) ∧
          b1.locals = b.locals ++ [⟨tempName b.currentTempI, ref.type⟩] ∧
          b1.currentTempI = b.currentTempI + 1 ∧
          b1.freeTempVars = b2.freeTempVars)
      | none =>
        b1.locals = b.locals ∧ b1.currentTempI = b.currentTempI ∧
          b1.freeTempVars = b2.freeTempVars := by
  obtain ⟨b3, instr3, ha, -, hcase⟩ := push_ok table b b1 instr h
  have hb1 : b1.locals = b3.locals ∧ b1.currentTempI = b3.currentTempI ∧
      b1.freeTempVars = b3.freeTempVars := by
    rcases hcase with ⟨-, -, rfl⟩ | ⟨-, rfl⟩
    · exact ⟨rfl, rfl, rfl⟩
    · exact ⟨rfl, rfl, rfl⟩
  obtain ⟨h1, h2, h3⟩ := hb1
  obtain ⟨b2, instr2, hr, hbind⟩ := assignOperands_ok table b b3 instr instr3 ha
  obtain ⟨⟨f, rfl⟩, hop, hargs, -⟩ := rewriteInstruction_ok b b2 instr instr2 hr
  refine ⟨_, instr2, hr, rfl, rfl, ?_⟩
  obtain ⟨destIdx, hd, hcase2⟩ := bindDestination_ok table _ b3 instr2 instr3 hbind
  obtain ⟨hnone, hsome⟩ := unboundDestination_of_bind table b f instr instr2 hop hargs destIdx hd
  rcases hcase2 with ⟨rfl, -, hdest⟩ | ⟨hpos, t, ref, hv, href, hcase3⟩
  · rw [hnone hdest]
    exact ⟨h1, h2, h3⟩
  · rw [hsome t ref hpos hv href]
    rcases hcase3 with ⟨x, xs, hx, rfl, -⟩ | ⟨hx, rfl, -⟩
    · refine Or.inl ⟨x, xs, hx, h1, h2, ?_, ?_⟩
      · rw [h3]
        simp only [reuseLocal, lookup_map_replace, if_true]
        simp only at hx
        rw [hx]
        rfl
      · intro type htype
        rw [h3]
        simp only [reuseLocal, lookup_map_replace, htype, if_false]
    · exact Or.inr ⟨hx, h1, h2, h3⟩

theorem applyOp_locals (table : OpCodeTable) (b b1 : PexFunctionBuilder) (op : BuilderOp)
    (h : applyOp table b op = .ok b1) :
    (b1.locals = b.locals ∧ b1.currentTempI = b.currentTempI) ∨
      ∃ type, b1.locals = b.locals ++ [⟨tempName b.currentTempI, type⟩] ∧
        b1.currentTempI = b.currentTempI + 1 := by
  cases op with
  | setLocation loc =>
    simp only [applyOp, Except.ok.injEq] at h
    subst h
    exact Or.inl ⟨rfl, rfl⟩
  | allocTemp type =>
    simp only [applyOp, Except.ok.injEq] at h
    subst h
    exact Or.inl ⟨rfl, rfl⟩
  | allocLabel =>
    simp only [applyOp, Except.ok.injEq] at h
    subst h
    exact Or.inl ⟨rfl, rfl⟩
  | bindLabel l =>
    simp only [applyOp, bindLabel] at h
    split at h
    · simp only [Except.ok.injEq] at h
      subst h
      exact Or.inl ⟨rfl, rfl⟩
    · cases h
  | push instr =>
    simp only [applyOp] at h
    obtain ⟨b2, instr2, -, -, -, hcase⟩ := push_allocates table b b1 instr h
    split at hcase
    · rename_i ref _
      rcases hcase with ⟨-, -, -, h1, h2, -, -⟩ | ⟨-, h1, h2, -⟩
      · exact Or.inl ⟨h1, h2⟩
      · exact Or.inr ⟨ref.type, h1, h2⟩
    · exact Or.inl ⟨hcase.1, hcase.2.1⟩

theorem runOps_locals (table : OpCodeTable) :
    ∀ (ops : List BuilderOp) (b b1 : PexFunctionBuilder), runOps table b ops = .ok b1 →
      b.currentTempI ≤ b1.currentTempI ∧
      (b.locals.map (fun loc => loc.name) = (List.range b.currentTempI).map tempName →
        b1.locals.map (fun loc => loc.name) = (List.range b1.currentTempI).map tempName)
  | [], b, b1, h => by
    simp only [runOps, Except.ok.injEq] at h
    subst h
    exact ⟨Nat.le_refl _, id⟩
  | op :: rest, b, b1, h => by
    simp only [runOps] at h
    split at h
    · cases h
    · rename_i b2 h2
      obtain ⟨ih1, ih2⟩ := runOps_locals table rest b2 b1 h
      rcases applyOp_locals table b b2 op h2 with ⟨h3, h4⟩ | ⟨type, h3, h4⟩
      · rw [h3, h4] at ih2
        exact ⟨h4 ▸ ih1, ih2⟩
      · refine ⟨by omega, fun hb => ih2 ?_⟩
        rw [h3, h4, List.range_succ, List.map_append, List.map_append, hb]
        rfl

/-- Claim C24: a `push` that returns and whose destination operand is a temporary without a
local either takes the last local off the free list of the type of the temporary, as that
list is after the operands of the instruction are freed, and leaves the local table and the
counter as they are, or, when that list is empty or absent, appends exactly one new local
`::tempN` of that type to the local table, `N` being the counter, which it increases by
one; every other `push` leaves the local table and the counter as they are. So, whatever the
calls made on a fresh builder, the names of the locals are `::temp0`, `::temp1`, ... up to
the counter, pairwise distinct, and the counter never decreases. -/
theorem push_temp_allocation :
    (∀ (table : OpCodeTable) (b b1 : PexFunctionBuilder) (instr : PexInstruction),
      push table b instr = .ok b1 →
        ∃ b2 instr2, rewriteInstruction b instr = .ok (b2, instr2) ∧
          b2.locals = b.locals ∧ b2.currentTempI = b.currentTempI ∧
          match unboundDestination table b instr with
          | some ref =>
            (∃ x xs, b2.freeTempVars.lookup ref.type = some (x :: xs) ∧
              b1.locals = b.locals ∧ b1.currentTempI = b.currentTempI ∧
              b1.freeTempVars.lookup ref.type = some (x :: xs).dropLast ∧
              ∀ type, type ≠ ref.type →
                b1.freeTempVars.lookup type = b2.freeTempVars.lookup type) ∨
            ((∀ x xs, b2.freeTempVars.lookup ref.type ≠ some (x :: xs)) ∧
              b1.locals = b.locals ++ [⟨tempName b.currentTempI, ref.type⟩] ∧
              b1.currentTempI = b.currentTempI + 1 ∧
              b1.freeTempVars = b2.freeTempVars)
          | none =>
            b1.locals = b.locals ∧ b1.currentTempI = b.currentTempI ∧
              b1.freeTempVars = b2.freeTempVars) ∧
    (∀ (table : OpCodeTable) (location : CapricaFileLocation) (ops : List BuilderOp)
        (b : PexFunctionBuilder),
      runOps table (.fresh location) ops = .ok b →
        b.locals.map (fun loc => loc.name) = (List.range b.currentTempI).map tempName ∧
        (b.locals.map (fun loc => loc.name)).Nodup) ∧
    (∀ (table : OpCodeTable) (b b1 : PexFunctionBuilder) (ops : List BuilderOp),
      runOps table b ops = .ok b1 → b.currentTempI ≤ b1.currentTempI) ∧
    (∀ n m : Nat, tempName n = tempName m → n = m) := by
  refine ⟨push_allocates, ?_, fun table b b1 ops h => (runOps_locals table ops b b1 h).1,
    fun n m h => tempName_injective h⟩
  intro table location ops b h
  have hnames := (runOps_locals table ops _ b h).2 rfl
  refine ⟨hnames, ?_⟩
  rw [hnames]
  exact List.Nodup.map tempName_injective (List.nodup_range _)

/-- Instance of C24: after a temporary is allocated on a fresh builder and written, the
local table holds the one local `::temp0`. -/
theorem push_temp_allocation_witness :
    runOps exampleTable (.fresh exampleLocation)
        [.allocTemp exampleIntType, .push (exampleWrite 0)] = .ok exampleWrittenBuilder ∧
      exampleWrittenBuilder.locals.map (fun loc => loc.name) =
        (List.range exampleWrittenBuilder.currentTempI).map tempName ∧
      (exampleWrittenBuilder.locals.map (fun loc => loc.name)).Nodup :=
  ⟨by decide,
   push_temp_allocation.2.1 exampleTable exampleLocation
     [.allocTemp exampleIntType, .push (exampleWrite 0)] exampleWrittenBuilder (by decide)⟩

theorem applyOp_hasNoTemporary (table : OpCodeTable) (b b1 : PexFunctionBuilder)
    (op : BuilderOp) (h : applyOp table b op = .ok b1)
    (hb : ∀ instr ∈ b.instructions, hasNoTemporary instr) :
    ∀ instr ∈ b1.instructions, hasNoTemporary instr := by
  cases op with
  | setLocation loc =>
    simp only [applyOp, Except.ok.injEq] at h
    subst h
    exact hb
  | allocTemp type =>
    simp only [applyOp, Except.ok.injEq] at h
    subst h
    exact hb
  | allocLabel =>
    simp only [applyOp, Except.ok.injEq] at h
    subst h
    exact hb
  | bindLabel l =>
    simp only [applyOp, bindLabel] at h
    split at h
    · simp only [Except.ok.injEq] at h
      subst h
      exact hb
    · cases h
  | push instr =>
    simp only [applyOp] at h
    obtain ⟨hno, hcase, -, -⟩ := push_cases table b b1 instr h
    rcases hcase with ⟨-, h1, -⟩ | ⟨-, h1, -⟩
    · rw [h1]
      exact hb
    · rw [h1]
      intro instr1 hi
      rcases List.mem_append.mp hi with hi | hi
      · exact hb instr1 hi
      · rw [List.mem_singleton] at hi
        rw [hi]
        exact hno

theorem runOps_hasNoTemporary (table : OpCodeTable) :
    ∀ (ops : List BuilderOp) (b b1 : PexFunctionBuilder), runOps table b ops = .ok b1 →
      (∀ instr ∈ b.instructions, hasNoTemporary instr) →
        ∀ instr ∈ b1.instructions, hasNoTemporary instr
  | [], b, b1, h, hb => by
    simp only [runOps, Except.ok.injEq] at h
    subst h
    exact hb
  | op :: rest, b, b1, h, hb => by
    simp only [runOps] at h
    split at h
    · cases h
    · rename_i b2 h2
      exact runOps_hasNoTemporary table rest b2 b1 h
        (applyOp_hasNoTemporary table b b2 op h2 hb)

theorem populateFunction_hasNoTemporary (b : PexFunctionBuilder) (func : PexFunction)
    (debInfo : PexDebugFunctionInfo) (out : PexFunction × PexDebugFunctionInfo)
    (h : populateFunction b func debInfo = .ok out)
    (hb : ∀ instr ∈ b.instructions, hasNoTemporary instr) :
    ∀ instr ∈ out.1.instructions, hasNoTemporary instr := by
  obtain ⟨instructions, hr, -, -, -, rfl⟩ := populateFunction_ok b func debInfo out h
  obtain ⟨hlen, hget⟩ := resolveLabels_ok b.labels b.instructions 0 instructions hr
  intro instr1 hi
  simp only at hi
  obtain ⟨k, hk, rfl⟩ := List.getElem_of_mem hi
  have hk0 : k < b.instructions.length := by rw [← hlen]; exact hk
  obtain ⟨args1, ha, ho⟩ := hget k _ (List.getElem?_eq_getElem hk0)
  rw [List.getElem?_eq_getElem hk, Option.some.injEq] at ho
  rw [ho]
  have hf := resolveLabelArgs_ok b.labels (0 + k) _ args1 ha
  have hold := hb _ (List.getElem_mem hk0)
  intro v hv
  rcases List.mem_append.mp hv with hv | hv
  · simp only at hv
    obtain ⟨j, hj, rfl⟩ := List.getElem_of_mem hv
    have hj0 : j < b.instructions[k].args.length := by rw [hf.length_eq]; exact hj
    have := List.Forall₂.get hf hj0 hj
    simp only [List.get_eq_getElem] at this
    have hmem := hold _ (List.mem_append_left _ (List.getElem_mem hj0))
    revert this hmem
    cases b.instructions[k].args[j] with
    | Label l =>
      rintro ⟨label, -, -, h3⟩ -
      rw [h3]
      simp [PexValue.type]
    | _ =>
      intro h3 hmem
      simp only at h3
      rw [h3]
      exact hmem
  · exact hold v (List.mem_append_right _ hv)

theorem materialize_ok_iff (b : PexFunctionBuilder) (v : PexValue) :
    (∃ v1, materialize b v = .ok v1) ↔ ∀ t, v = .TemporaryVar t → t < b.tempVarRefs.length := by
  cases v with
  | TemporaryVar t =>
    simp only [materialize, PexValue.TemporaryVar.injEq, forall_eq']
    constructor
    · rintro ⟨v1, h⟩
      split at h
      · cases h
      · rename_i ref href
        exact (List.getElem?_eq_some_iff.mp href).1
    · intro hlt
      rw [List.getElem?_eq_getElem hlt]
      simp only
      split <;> exact ⟨_, rfl⟩
  | _ => simp [materialize]

theorem rewriteOperands_ok_iff :
    ∀ (vs : List PexValue) (b : PexFunctionBuilder),
      (∃ b2 vs1, rewriteOperands b vs = .ok (b2, vs1)) ↔
        (∀ v ∈ vs, v.type ≠ .Invalid) ∧
        (∀ t, .TemporaryVar t ∈ vs → t < b.tempVarRefs.length)
  | [], b => by simp [rewriteOperands]
  | v :: rest, b => by
    have hm := materialize_ok_iff b v
    constructor
    · rintro ⟨b2, vs1, h⟩
      simp only [rewriteOperands] at h
      split at h
      · cases h
      · rename_i hinv
        split at h
        · cases h
        · rename_i v1 hv1
          obtain ⟨f, hf⟩ := freeValueIfTemp_frame b v1
          rw [hf] at h
          split at h
          · cases h
          · rename_i b3 rest1 hr
            have ih := (rewriteOperands_ok_iff rest _).1 ⟨b3, rest1, hr⟩
            refine ⟨?_, ?_⟩
            · intro w hw
              rcases List.mem_cons.mp hw with rfl | hw
              · exact hinv
              · exact ih.1 w hw
            · intro t ht
              rcases List.mem_cons.mp ht with ht | ht
              · exact hm.1 ⟨v1, hv1⟩ t ht.symm
              · exact ih.2 t ht
    · rintro ⟨hinv, hin⟩
      obtain ⟨v1, hv1⟩ := hm.2 (fun t ht => hin t (by simp [ht]))
      obtain ⟨f, hf⟩ := freeValueIfTemp_frame b v1
      have ih := (rewriteOperands_ok_iff rest { b with freeTempVars := f }).2
        ⟨fun w hw => hinv w (List.mem_cons_of_mem _ hw),
         fun t ht => hin t (List.mem_cons_of_mem _ ht)⟩
      obtain ⟨b2, rest1, hr⟩ := ih
      have h0 := hinv v (List.mem_cons_self _ _)
      simp only [rewriteOperands, h0, if_false, hv1, hf, hr]
      exact ⟨_, _, rfl⟩

theorem rewriteInstruction_ok_iff (b : PexFunctionBuilder) (instr : PexInstruction) :
    (∃ b2 instr2, rewriteInstruction b instr = .ok (b2, instr2)) ↔
      (∀ v ∈ instr.args ++ instr.variadicArgs, v.type ≠ .Invalid) ∧
      (∀ t, .TemporaryVar t ∈ instr.args ++ instr.variadicArgs → t < b.tempVarRefs.length) := by
  constructor
  · rintro ⟨b2, instr2, h⟩
    unfold rewriteInstruction at h
    split at h
    · cases h
    · rename_i b1 args1 h1
      split at h
      · cases h
      · rename_i b3 variadic1 h2
        obtain ⟨⟨f1, rfl⟩, -⟩ := rewriteOperands_ok _ _ _ _ h1
        have ha := (rewriteOperands_ok_iff _ _).1 ⟨_, _, h1⟩
        have hv := (rewriteOperands_ok_iff _ _).1 ⟨_, _, h2⟩
        refine ⟨fun v hv1 => ?_, fun t ht => ?_⟩
        · rcases List.mem_append.mp hv1 with hv1 | hv1
          · exact ha.1 v hv1
          · exact hv.1 v hv1
        · rcases List.mem_append.mp ht with ht | ht
          · exact ha.2 t ht
          · exact hv.2 t ht
  · rintro ⟨hinv, hin⟩
    obtain ⟨b1, args1, h1⟩ := (rewriteOperands_ok_iff instr.args b).2
      ⟨fun v hv => hinv v (List.mem_append_left _ hv),
       fun t ht => hin t (List.mem_append_left _ ht)⟩
    obtain ⟨⟨f1, rfl⟩, -⟩ := rewriteOperands_ok _ _ _ _ h1
    obtain ⟨b2, variadic1, h2⟩ := (rewriteOperands_ok_iff instr.variadicArgs
        { b with freeTempVars := f1 }).2
      ⟨fun v hv => hinv v (List.mem_append_right _ hv),
       fun t ht => hin t (List.mem_append_right _ ht)⟩
    simp only [rewriteInstruction, h1, h2]
    exact ⟨_, _, rfl⟩

theorem forall₂_temporary_iff (b : PexFunctionBuilder) (vs vs1 : List PexValue)
    (hf : List.Forall₂ (fun v v1 => materialize b v = .ok v1) vs vs1) (j t : Nat) :
    vs1[j]? = some (.TemporaryVar t) ↔
      vs[j]? = some (.TemporaryVar t) ∧ temporaryUnbound b t := by
  constructor
  · intro h
    exact forall₂_temporary_unbound b vs vs1 hf j t h
  · rintro ⟨h, ref, href, hvar⟩
    obtain ⟨hj, hjv⟩ := List.getElem?_eq_some_iff.mp h
    have hj1 : j < vs1.length := by rw [← hf.length_eq]; exact hj
    have hm := List.Forall₂.get hf hj hj1
    simp only [List.get_eq_getElem, hjv, materialize, href, hvar, Except.ok.injEq] at hm
    rw [List.getElem?_eq_getElem hj1, ← hm]

theorem type_eq_temporary (v : PexValue) :
    v.type = .TemporaryVar ↔ ∃ t, v = .TemporaryVar t := by
  cases v <;> simp [PexValue.type]

theorem bindDestination_ok_iff (table : OpCodeTable) (b : PexFunctionBuilder)
    (instr : PexInstruction)
    (hrefs : ∀ (j t : Nat), instr.args[j]? = some (.TemporaryVar t) →
      t < b.tempVarRefs.length) :
    (∃ b3 instr3, bindDestination table b instr = .ok (b3, instr3)) ↔
      ∃ destIdx, getDestArgIndexForOpCode table instr.opCode = .ok destIdx ∧
        (destIdx = -1 ∨ (0 ≤ destIdx ∧ destIdx.toNat < instr.args.length)) := by
  constructor
  · rintro ⟨b3, instr3, h⟩
    obtain ⟨destIdx, hd, hcase⟩ := bindDestination_ok table b b3 instr instr3 h
    refine ⟨destIdx, hd, ?_⟩
    rcases hcase with ⟨-, -, h1 | ⟨hpos, v, hv, -⟩⟩ | ⟨hpos, t, ref, hv, -⟩
    · exact Or.inl h1
    · exact Or.inr ⟨hpos, (List.getElem?_eq_some_iff.mp hv).1⟩
    · exact Or.inr ⟨hpos, (List.getElem?_eq_some_iff.mp hv).1⟩
  · rintro ⟨destIdx, hd, hcase⟩
    unfold bindDestination
    simp only [hd]
    rcases hcase with h1 | ⟨hpos, hlt⟩
    · simp only [h1, if_true]
      exact ⟨_, _, rfl⟩
    · have hne : destIdx ≠ -1 := by omega
      have hnn : ¬ destIdx < 0 := by omega
      simp only [hne, hnn, if_false, List.getElem?_eq_getElem hlt]
      cases hv : instr.args[destIdx.toNat] with
      | TemporaryVar t =>
        have ht := hrefs destIdx.toNat t (by rw [List.getElem?_eq_getElem hlt, hv])
        simp only [List.getElem?_eq_getElem ht]
        split <;> exact ⟨_, _, rfl⟩
      | _ => exact ⟨_, _, rfl⟩

theorem assignOperands_ok_iff (table : OpCodeTable) (b : PexFunctionBuilder)
    (instr : PexInstruction) :
    (∃ b3 instr3, assignOperands table b instr = .ok (b3, instr3)) ↔
      reachesTemporaryCheck table b instr := by
  constructor
  · rintro ⟨b3, instr3, h⟩
    obtain ⟨b2, instr2, h2, h3⟩ := assignOperands_ok table b b3 instr instr3 h
    obtain ⟨hinv, hin⟩ := (rewriteInstruction_ok_iff b instr).1 ⟨b2, instr2, h2⟩
    obtain ⟨⟨f, rfl⟩, hop, ha, -⟩ := rewriteInstruction_ok b b2 instr instr2 h2
    obtain ⟨destIdx, hd, hcase⟩ := (bindDestination_ok_iff table { b with freeTempVars := f } instr2
      (fun j t hj => (List.getElem?_eq_some_iff.mp
        (forall₂_temporary_unbound b _ _ ha j t hj).2.choose_spec.1).1)).1 ⟨b3, instr3, h3⟩
    rw [hop, ← ha.length_eq] at *
    exact ⟨hinv, hin, destIdx, hd, hcase⟩
  · rintro ⟨hinv, hin, destIdx, hd, hcase⟩
    obtain ⟨b2, instr2, h2⟩ := (rewriteInstruction_ok_iff b instr).2 ⟨hinv, hin⟩
    obtain ⟨⟨f, rfl⟩, hop, ha, -⟩ := rewriteInstruction_ok b b2 instr instr2 h2
    obtain ⟨b3, instr3, h3⟩ := (bindDestination_ok_iff table { b with freeTempVars := f } instr2
      (fun j t hj => (List.getElem?_eq_some_iff.mp
        (forall₂_temporary_unbound b _ _ ha j t hj).2.choose_spec.1).1)).2
      ⟨destIdx, by rw [hop]; exact hd, by rw [← ha.length_eq]; exact hcase⟩
    exact ⟨b3, instr3, by simp only [assignOperands, h2, h3]⟩

theorem mem_temporary_iff (b : PexFunctionBuilder) (vs vs1 : List PexValue)
    (hf : List.Forall₂ (fun v v1 => materialize b v = .ok v1) vs vs1) (t : Nat) :
    .TemporaryVar t ∈ vs1 ↔ .TemporaryVar t ∈ vs ∧ temporaryUnbound b t := by
  constructor
  · intro h
    obtain ⟨j, hj⟩ := List.mem_iff_getElem?.mp h
    obtain ⟨h1, h2⟩ := (forall₂_temporary_iff b vs vs1 hf j t).1 hj
    exact ⟨List.mem_iff_getElem?.mpr ⟨j, h1⟩, h2⟩
  · rintro ⟨h, hu⟩
    obtain ⟨j, hj⟩ := List.mem_iff_getElem?.mp h
    exact List.mem_iff_getElem?.mpr ⟨j, (forall₂_temporary_iff b vs vs1 hf j t).2 ⟨hj, hu⟩⟩

theorem assignOperands_temporaryLeft (table : OpCodeTable) (b b3 : PexFunctionBuilder)
    (instr instr3 : PexInstruction) (h : assignOperands table b instr = .ok (b3, instr3)) :
    temporaryLeft table b instr ↔
      ∃ v ∈ instr3.args ++ instr3.variadicArgs, v.type = .TemporaryVar := by
  obtain ⟨b2, instr2, h2, h3⟩ := assignOperands_ok table b b3 instr instr3 h
  obtain ⟨⟨f, rfl⟩, hop, ha, hv⟩ := rewriteInstruction_ok b b2 instr instr2 h2
  obtain ⟨destIdx, hd, hcase⟩ := bindDestination_ok table _ b3 instr2 instr3 h3
  rw [hop] at hd
  have hvar : instr3.variadicArgs = instr2.variadicArgs := by
    rcases hcase with ⟨-, rfl, -⟩ | ⟨-, t, ref, -, -, ⟨x, xs, -, -, rfl⟩ | ⟨-, -, rfl⟩⟩ <;> rfl
  have hargs : ∀ (j t : Nat), instr3.args[j]? = some (.TemporaryVar t) ↔
      instr2.args[j]? = some (.TemporaryVar t) ∧
        getDestArgIndexForOpCode table instr.opCode ≠ .ok (j : Int) := by
    intro j t
    rw [hd]
    rcases hcase with ⟨-, rfl, h1 | ⟨hpos, v, hv1, hvt⟩⟩ |
      ⟨hpos, t1, ref, hv1, -, ⟨x, xs, -, -, rfl⟩ | ⟨-, -, rfl⟩⟩
    · constructor
      · intro hj
        refine ⟨hj, ?_⟩
        rw [h1]
        intro hc
        simp only [Except.ok.injEq] at hc
        omega
      · exact fun hj => hj.1
    · constructor
      · intro hj
        refine ⟨hj, ?_⟩
        intro hc
        simp only [Except.ok.injEq] at hc
        have hjd : destIdx.toNat = j := by omega
        rw [hjd, hj] at hv1
        cases hv1
        exact hvt rfl
      · exact fun hj => hj.1
    · simp only
      constructor
      · intro hj
        have hne : destIdx.toNat ≠ j := by
          intro hjd
          rw [hjd] at hj
          have hlt := (List.getElem?_eq_some_iff.mp hj).1
          rw [List.getElem?_eq_getElem hlt, List.getElem_set_self] at hj
          cases hj
        rw [List.getElem?_set_ne hne] at hj
        refine ⟨hj, ?_⟩
        intro hc
        simp only [Except.ok.injEq] at hc
        omega
      · rintro ⟨hj, hc⟩
        have hne : destIdx.toNat ≠ j := by
          intro hjd
          apply hc
          simp only [Except.ok.injEq]
          omega
        rw [List.getElem?_set_ne hne]
        exact hj
    · simp only
      constructor
      · intro hj
        have hne : destIdx.toNat ≠ j := by
          intro hjd
          rw [hjd] at hj
          have hlt := (List.getElem?_eq_some_iff.mp hj).1
          rw [List.getElem?_eq_getElem hlt, List.getElem_set_self] at hj
          cases hj
        rw [List.getElem?_set_ne hne] at hj
        refine ⟨hj, ?_⟩
        intro hc
        simp only [Except.ok.injEq] at hc
        omega
      · rintro ⟨hj, hc⟩
        have hne : destIdx.toNat ≠ j := by
          intro hjd
          apply hc
          simp only [Except.ok.injEq]
          omega
        rw [List.getElem?_set_ne hne]
        exact hj
  constructor
  · rintro (⟨j, t, hj, hu, hne⟩ | ⟨t, ht, hu⟩)
    · have h2j := (forall₂_temporary_iff b _ _ ha j t).2 ⟨hj, hu⟩
      have h3j := (hargs j t).2 ⟨h2j, hne⟩
      exact ⟨.TemporaryVar t, List.mem_append_left _ (List.mem_iff_getElem?.mpr ⟨j, h3j⟩), rfl⟩
    · refine ⟨.TemporaryVar t, List.mem_append_right _ ?_, rfl⟩
      rw [hvar]
      exact (mem_temporary_iff b _ _ hv t).2 ⟨ht, hu⟩
  · rintro ⟨v, hmem, hvt⟩
    obtain ⟨t, rfl⟩ := (type_eq_temporary v).1 hvt
    rcases List.mem_append.mp hmem with hmem | hmem
    · obtain ⟨j, hj⟩ := List.mem_iff_getElem?.mp hmem
      obtain ⟨h2j, hne⟩ := (hargs j t).1 hj
      obtain ⟨h1j, hu⟩ := (forall₂_temporary_iff b _ _ ha j t).1 h2j
      exact Or.inl ⟨j, t, h1j, hu, hne⟩
    · rw [hvar] at hmem
      obtain ⟨h1, hu⟩ := (mem_temporary_iff b _ _ hv t).1 hmem
      exact Or.inr ⟨t, h1, hu⟩

theorem push_error_iff (table : OpCodeTable) (b : PexFunctionBuilder) (instr : PexInstruction) :
    push table b instr = .error temporaryBeforeAssigned ↔
      ∃ b3 instr3, assignOperands table b instr = .ok (b3, instr3) ∧
        ∃ v ∈ instr3.args ++ instr3.variadicArgs, v.type = .TemporaryVar := by
  constructor
  · intro h
    unfold push at h
    split at h
    · rename_i msg hm
      simp only [Except.error.injEq] at h
      exact absurd h (assignOperands_error table b instr msg hm)
    · rename_i b3 instr3 ha
      refine ⟨b3, instr3, ha, ?_⟩
      split at h
      · rename_i hany
        rw [List.any_eq_true] at hany
        obtain ⟨v, hv, hvt⟩ := hany
        exact ⟨v, hv, by simpa using hvt⟩
      · split at h
        · split at h
          · split at h <;> cases h
          · simp only [Except.error.injEq] at h
            exact absurd h (by decide)
        · cases h
  · rintro ⟨b3, instr3, ha, v, hv, hvt⟩
    have hany : (instr3.args ++ instr3.variadicArgs).any
        (fun v => decide (v.type = .TemporaryVar)) = true := by
      rw [List.any_eq_true]
      exact ⟨v, hv, by simpa using hvt⟩
    simp only [push, ha, hany, if_true, temporaryBeforeAssigned]

/-- Claim C25: `push` raises the fatal "Attempted to use a temporary var before it's been
assigned!" iff it reaches the check, no earlier fatal being raised (no argument is invalid,
every temporary has a handle of the builder, the opcode is known and its destination
argument is there), and some temporary is left: a fixed argument other than the destination
argument, or a variadic argument, is a temporary whose handle has no local. Reaching the
check is the two loops over the arguments and the destination block raising no fatal, and a
temporary is left exactly when, after them, some fixed or variadic argument still has tag
TemporaryVar: a temporary that has a local was replaced by its identifier, and the
destination temporary got a local. So an instruction that writes a fresh temporary and reads
none is accepted. Consequently, whatever the calls made on a fresh builder, no instruction
stored in the builder has a TemporaryVar argument, and neither has any instruction that
`populateFunction` hands over. -/
theorem push_fatal_iff_temporary_left :
    (∀ (table : OpCodeTable) (b : PexFunctionBuilder) (instr : PexInstruction),
      push table b instr = .error temporaryBeforeAssigned ↔
        reachesTemporaryCheck table b instr ∧ temporaryLeft table b instr) ∧
    (∀ (table : OpCodeTable) (b : PexFunctionBuilder) (instr : PexInstruction),
      reachesTemporaryCheck table b instr ↔
        ∃ b3 instr3, assignOperands table b instr = .ok (b3, instr3)) ∧
    (∀ (table : OpCodeTable) (b b3 : PexFunctionBuilder) (instr instr3 : PexInstruction),
      assignOperands table b instr = .ok (b3, instr3) →
        (temporaryLeft table b instr ↔
          ∃ v ∈ instr3.args ++ instr3.variadicArgs, v.type = .TemporaryVar)) ∧
    (∀ (table : OpCodeTable) (b : PexFunctionBuilder) (instr : PexInstruction),
      push table b instr = .error temporaryBeforeAssigned ↔
        ∃ b3 instr3, assignOperands table b instr = .ok (b3, instr3) ∧
          ∃ v ∈ instr3.args ++ instr3.variadicArgs, v.type = .TemporaryVar) ∧
    (∀ (table : OpCodeTable) (location : CapricaFileLocation) (ops : List BuilderOp)
        (b : PexFunctionBuilder),
      runOps table (.fresh location) ops = .ok b →
        (∀ instr ∈ b.instructions, hasNoTemporary instr) ∧
        ∀ func debInfo out, populateFunction b func debInfo = .ok out →
          ∀ instr ∈ out.1.instructions, hasNoTemporary instr) ∧
    push exampleTable ((PexFunctionBuilder.fresh exampleLocation).allocTemp exampleIntType).1
      (exampleWrite 0) = .ok exampleWrittenBuilder := by
  refine ⟨fun table b instr => ?_,
    fun table b instr => (assignOperands_ok_iff table b instr).symm,
    assignOperands_temporaryLeft, push_error_iff, ?_, by decide⟩
  · rw [push_error_iff]
    constructor
    · rintro ⟨b3, instr3, ha, hleft⟩
      exact ⟨(assignOperands_ok_iff table b instr).1 ⟨b3, instr3, ha⟩,
        (assignOperands_temporaryLeft table b b3 instr instr3 ha).2 hleft⟩
    · rintro ⟨hreach, hleft⟩
      obtain ⟨b3, instr3, ha⟩ := (assignOperands_ok_iff table b instr).2 hreach
      exact ⟨b3, instr3, ha, (assignOperands_temporaryLeft table b b3 instr instr3 ha).1 hleft⟩
  · intro table location ops b h
    have hb := runOps_hasNoTemporary table ops _ b h (by simp [PexFunctionBuilder.fresh])
    exact ⟨hb, fun func debInfo out ho =>
      populateFunction_hasNoTemporary b func debInfo out ho hb⟩

/-- Instance of C25: an addition whose source is a temporary that no instruction has written
is fatal. -/
theorem push_fatal_iff_temporary_left_witness :
    push exampleTable ((PexFunctionBuilder.fresh exampleLocation).allocTemp exampleIntType).1
        ⟨.Other 1, [exampleOperand, .TemporaryVar 0], []⟩ =
      .error temporaryBeforeAssigned :=
  (push_fatal_iff_temporary_left.1 exampleTable
    ((PexFunctionBuilder.fresh exampleLocation).allocTemp exampleIntType).1
    ⟨.Other 1, [exampleOperand, .TemporaryVar 0], []⟩).mpr
    ⟨⟨by decide,
      fun t ht => by
        simp only [exampleOperand, List.cons_append, List.nil_append, List.mem_cons,
          List.mem_singleton, PexValue.TemporaryVar.injEq, List.not_mem_nil, or_false,
          false_or] at ht
        rcases ht with ht | ht
        · cases ht
        · subst ht
          decide,
      0, rfl, Or.inr ⟨by decide, by decide⟩⟩,
     Or.inl ⟨1, 0, rfl, ⟨⟨exampleIntType, none⟩, rfl, rfl⟩, by decide⟩⟩

theorem resolveLabelArgs_total (labels : List PexLabel) (i : Nat)
    (hbound : ∀ label ∈ labels, label.targetIdx ≠ SIZE_MAX) :
    ∀ (vs : List PexValue), (∀ l, .Label l ∈ vs → l < labels.length) →
      ∃ vs1, resolveLabelArgs labels i vs = .ok vs1
  | [], _ => ⟨[], rfl⟩
  | v :: rest, hin => by
    obtain ⟨rest1, hr⟩ := resolveLabelArgs_total labels i hbound rest
      (fun l hl => hin l (List.mem_cons_of_mem _ hl))
    cases v with
    | Label l =>
      have hl := hin l (List.mem_cons_self _ _)
      have hb := hbound labels[l] (List.getElem_mem hl)
      simp only [resolveLabelArgs, List.getElem?_eq_getElem hl, hb, if_false, hr]
      exact ⟨_, rfl⟩
    | _ =>
      simp only [resolveLabelArgs, hr]
      exact ⟨_, rfl⟩

theorem resolveLabels_total (labels : List PexLabel)
    (hbound : ∀ label ∈ labels, label.targetIdx ≠ SIZE_MAX) :
    ∀ (instrs : List PexInstruction) (i : Nat),
      (∀ instr ∈ instrs, ∀ l, .Label l ∈ instr.args → l < labels.length) →
        ∃ out, resolveLabels labels i instrs = .ok out
  | [], _, _ => ⟨[], rfl⟩
  | instr :: rest, i, hin => by
    obtain ⟨args1, ha⟩ := resolveLabelArgs_total labels i hbound instr.args
      (hin instr (List.mem_cons_self _ _))
    obtain ⟨rest1, hr⟩ := resolveLabels_total labels hbound rest (i + 1)
      (fun instr1 h1 => hin instr1 (List.mem_cons_of_mem _ h1))
    simp only [resolveLabels, ha, hr]
    exact ⟨_, rfl⟩

theorem applyOp_step (table : OpCodeTable) (b b1 : PexFunctionBuilder) (op : BuilderOp)
    (h : applyOp table b op = .ok b1) :
    (b1.instructions = b.instructions ∧ b1.instructionLocations = b.instructionLocations) ∨
      ∃ instr, b1.instructions = b.instructions ++ [instr] ∧
        b1.instructionLocations = b.instructionLocations ++ [b.currentLocation] := by
  cases op with
  | setLocation loc =>
    simp only [applyOp, Except.ok.injEq] at h
    subst h
    exact Or.inl ⟨rfl, rfl⟩
  | allocTemp type =>
    simp only [applyOp, Except.ok.injEq] at h
    subst h
    exact Or.inl ⟨rfl, rfl⟩
  | allocLabel =>
    simp only [applyOp, Except.ok.injEq] at h
    subst h
    exact Or.inl ⟨rfl, rfl⟩
  | bindLabel l =>
    simp only [applyOp, bindLabel] at h
    split at h
    · simp only [Except.ok.injEq] at h
      subst h
      exact Or.inl ⟨rfl, rfl⟩
    · cases h
  | push instr =>
    simp only [applyOp] at h
    obtain ⟨-, hcase, -, -⟩ := push_cases table b b1 instr h
    rcases hcase with ⟨-, h1, h2⟩ | ⟨-, h1, h2⟩
    · exact Or.inl ⟨h1, h2⟩
    · exact Or.inr ⟨_, h1, h2⟩

theorem runOps_locations_length (table : OpCodeTable) :
    ∀ (ops : List BuilderOp) (b b1 : PexFunctionBuilder), runOps table b ops = .ok b1 →
      b.instructionLocations.length = b.instructions.length →
        b1.instructionLocations.length = b1.instructions.length
  | [], b, b1, h, hb => by
    simp only [runOps, Except.ok.injEq] at h
    subst h
    exact hb
  | op :: rest, b, b1, h, hb => by
    simp only [runOps] at h
    split at h
    · cases h
    · rename_i b2 h2
      apply runOps_locations_length table rest b2 b1 h
      rcases applyOp_step table b b2 op h2 with ⟨h3, h4⟩ | ⟨instr, h3, h4⟩
      · rw [h3, h4]
        exact hb
      · rw [h3, h4]
        simp [hb]

/-- Claim C26: for every builder state whose labels and temporaries are all bound (the
Label arguments referring to labels of the builder), `populateFunction` is fatal iff some
recorded location has a line greater than 65,535, the fatal being the one for too many
lines; otherwise it returns, and the entries it adds to the instruction-to-line map are the
lines of the recorded locations, in order. Each call on a builder either leaves the stored
instructions and the recorded locations as they are or appends one instruction and, with
it, the current location of the builder; so, whatever the calls made on a fresh builder,
there is one recorded location for each stored instruction. -/
theorem populateFunction_line_map :
    (∀ (b : PexFunctionBuilder) (func : PexFunction) (debInfo : PexDebugFunctionInfo),
      (∀ label ∈ b.labels, label.targetIdx ≠ SIZE_MAX) →
      (∀ tmp ∈ b.tempVarRefs, tmp.var ≠ none) →
      (∀ instr ∈ b.instructions, ∀ l, .Label l ∈ instr.args → l < b.labels.length) →
        ((∃ msg, populateFunction b func debInfo = .error msg) ↔
          ∃ l ∈ b.instructionLocations, l.line > 65535) ∧
        ((∃ l ∈ b.instructionLocations, l.line > 65535) →
          populateFunction b func debInfo = .error tooManyLines) ∧
        ((∀ l ∈ b.instructionLocations, l.line ≤ 65535) →
          ∃ out, populateFunction b func debInfo = .ok out ∧
            out.2.instructionLineMap =
              debInfo.instructionLineMap ++ b.instructionLocations.map (fun l => l.line))) ∧
    (∀ (table : OpCodeTable) (b b1 : PexFunctionBuilder) (op : BuilderOp),
      applyOp table b op = .ok b1 →
        (b1.instructions = b.instructions ∧
          b1.instructionLocations = b.instructionLocations) ∨
        ∃ instr, b1.instructions = b.instructions ++ [instr] ∧
          b1.instructionLocations = b.instructionLocations ++ [b.currentLocation]) ∧
    (∀ (table : OpCodeTable) (location : CapricaFileLocation) (ops : List BuilderOp)
        (b : PexFunctionBuilder),
      runOps table (.fresh location) ops = .ok b →
        b.instructionLocations.length = b.instructions.length) := by
  refine ⟨?_, applyOp_step, fun table location ops b h =>
    runOps_locations_length table ops _ b h rfl⟩
  intro b func debInfo hl ht hin
  obtain ⟨instructions, hr⟩ := resolveLabels_total b.labels hl b.instructions 0 hin
  have h1 : b.labels.any (fun l => decide (l.targetIdx = SIZE_MAX)) = false := by
    rw [List.any_eq_false]
    intro label hlabel
    simpa using hl label hlabel
  have h2 : b.tempVarRefs.any (fun tmp => tmp.var.isNone) = false := by
    rw [List.any_eq_false]
    intro tmp htmp
    have := ht tmp htmp
    cases hv : tmp.var with
    | none => exact absurd hv this
    | some loc => simp
  have hfar : (∃ l ∈ b.instructionLocations, l.line > 65535) →
      populateFunction b func debInfo = .error tooManyLines := by
    rintro ⟨l, hmem, hline⟩
    have h3 : b.instructionLocations.any (fun l => decide (l.line > 65535)) = true := by
      rw [List.any_eq_true]
      exact ⟨l, hmem, by simpa using hline⟩
    simp [populateFunction, hr, h1, h2, h3, tooManyLines]
  have hnear : (∀ l ∈ b.instructionLocations, l.line ≤ 65535) →
      ∃ out, populateFunction b func debInfo = .ok out ∧
        out.2.instructionLineMap =
          debInfo.instructionLineMap ++ b.instructionLocations.map (fun l => l.line) := by
    intro hall
    have h3 : b.instructionLocations.any (fun l => decide (l.line > 65535)) = false := by
      rw [List.any_eq_false]
      intro l hmem
      have := hall l hmem
      simp only [decide_eq_true_eq]
      omega
    simp only [populateFunction, hr, h1, h2, h3, Bool.false_eq_true, if_false]
    refine ⟨_, rfl, ?_⟩
    simp only
    congr 1
    apply List.map_congr_left
    intro l hmem
    have := hall l hmem
    omega
  refine ⟨⟨?_, fun h => ⟨_, hfar h⟩⟩, hfar, hnear⟩
  rintro ⟨msg, hmsg⟩
  by_contra hno
  obtain ⟨out, hout, -⟩ := hnear (fun l hmem => by
    by_contra hlt
    exact hno ⟨l, hmem, by omega⟩)
  rw [hout] at hmsg
  cases hmsg

/-- Instance of C26: finalizing a builder that holds an instruction recorded at line 70,000
is fatal. -/
theorem populateFunction_line_map_witness :
    populateFunction exampleFarBuilder {} {} = .error tooManyLines :=
  (populateFunction_line_map.1 exampleFarBuilder {} {} (by decide) (by decide)
    (by simp [exampleFarBuilder])).2.1 ⟨⟨"Example.psc", 70000, 0⟩, by decide, by decide⟩

/-- Claim C28: the code at the failing inputs. After a temporary is read as two operands of
one instruction, its local `::temp0` is twice on the free list of its type, and the two
temporaries written next, neither of them read, both get `::temp0`. After a temporary that
has a local is written again, its local is on the free list although the temporary is not
read, and the temporary written next gets the same local. -/
theorem freeValueIfTemp_frees_local_twice :
    (runOps exampleTable (.fresh exampleLocation) exampleDoubleUseOps).toOption.map
        (fun b => b.freeTempVars) = some [(exampleIntType, [exampleTemp0, exampleTemp0])] ∧
    (runOps exampleTable (.fresh exampleLocation)
        (exampleDoubleUseOps ++ exampleTwoWritesOps)).toOption.map
        (fun b => (b.tempVarRefs.map (fun tmp => tmp.var), b.locals)) =
      some ([some exampleTemp0, some exampleTemp0, some exampleTemp0], [exampleTemp0]) ∧
    (runOps exampleTable (.fresh exampleLocation) exampleReassignOps).toOption.map
        (fun b => (b.tempVarRefs.map (fun tmp => tmp.var), b.freeTempVars)) =
      some ([some exampleTemp0], [(exampleIntType, [exampleTemp0])]) ∧
    (runOps exampleTable (.fresh exampleLocation)
        (exampleReassignOps ++ [.allocTemp exampleIntType, .push (exampleWrite 1)])).toOption.map
        (fun b => (b.tempVarRefs.map (fun tmp => tmp.var), b.locals)) =
      some ([some exampleTemp0, some exampleTemp0], [exampleTemp0]) := by
  decide


/-! ## Properties of the script loader -/

end caprica
